import Mathlib

/-! # Sudoku as an integer program: the model built by `main` and its decoder

A shallow embedding of `Sudoku/src/sudoku_main.cpp` and of the loader
`sudoku::get_sudoku_grid` of `Sudoku/src/sudoku_utils.h`.  The program state that
`main` threads through its loops is made explicit (`MainState`), every
`for (int i = lo; i < hi; ++i)` loop is a `forLoop lo hi`, and the calls into
the SCIP library act on a record of the problem data they edit: the list of
variables (a variable handle is its position in that list, the problem index
that `SCIPaddVar` hands out), and the list of linear constraints.

The numbers the program passes around as `double` are the constants `0.0` and
`1.0` and the solution values read back from the solver; they are compared
with `0` only, so they are modelled as rationals.  Every call wrapped in
`SCIP_CALL` is taken to return `SCIP_OKAY`, the solver itself (`SCIPsolve`,
`SCIPgetStatus`, `SCIPgetBestSol`) is not modelled: the status and the
solution vector are inputs of what `main` does after the solve.
-/

namespace Sudoku

/-! ## Loops -/

/-- The counted loop `for (int i = lo; i < hi; ++i) body`, with the state
threaded through the iterations. -/
def forLoop {σ : Type} (lo hi : Nat) (body : Nat → σ → σ) (s : σ) : σ :=
  (List.range' lo (hi - lo)).foldl (fun acc i => body i acc) s

/-! ## The part of the SCIP problem data that `main` edits -/

/-- The variable types of SCIP (`SCIP_VARTYPE_*`). -/
inductive VarType where
  | binary
  | integer
  | implint
  | continuous
deriving DecidableEq

/-- A problem variable as created by `SCIPcreateVarBasic`. -/
structure Var where
  name : String
  lb : ℚ
  ub : ℚ
  obj : ℚ
  vtype : VarType
deriving DecidableEq

/-- A linear constraint `lhs ≤ Σ coef * var ≤ rhs`; a term is a variable
handle with its coefficient. -/
structure Cons where
  name : String
  lhs : ℚ
  rhs : ℚ
  terms : List (Nat × ℚ)
deriving DecidableEq

/-- The objective senses of SCIP (`SCIP_OBJSENSE_*`). -/
inductive ObjSense where
  | minimize
  | maximize
deriving DecidableEq

/-- The problem held by the SCIP environment. -/
structure Scip where
  probname : String
  objsense : ObjSense
  vars : List Var
  conss : List Cons
deriving DecidableEq

/-- The call `SCIPcreateProbBasic(scip, name)`: an empty problem. -/
def SCIPcreateProbBasic (name : String) : Scip :=
  { probname := name, objsense := ObjSense.minimize, vars := [], conss := [] }

/-- The call `SCIPsetObjsense(scip, sense)`. -/
def SCIPsetObjsense (scip : Scip) (sense : ObjSense) : Scip :=
  { scip with objsense := sense }

/-- The call `SCIPcreateVarBasic(scip, &var, name, lb, ub, obj, vartype)`. -/
def SCIPcreateVarBasic (name : String) (lb ub obj : ℚ) (vtype : VarType) : Var :=
  { name := name, lb := lb, ub := ub, obj := obj, vtype := vtype }

/-- The call `SCIPaddVar(scip, var)`: the variable is appended to the problem;
the handle returned is its problem index. -/
def SCIPaddVar (scip : Scip) (var : Var) : Scip × Nat :=
  ({ scip with vars := scip.vars ++ [var] }, scip.vars.length)

/-- The call `SCIPcreateConsBasicLinear(scip, &cons, name, 0, nullptr, nullptr, lhs, rhs)`:
a linear constraint without terms. -/
def SCIPcreateConsBasicLinear (name : String) (lhs rhs : ℚ) : Cons :=
  { name := name, lhs := lhs, rhs := rhs, terms := [] }

/-- The call `SCIPaddCoefLinear(scip, cons, var, val)`. -/
def SCIPaddCoefLinear (cons : Cons) (var : Nat) (val : ℚ) : Cons :=
  { cons with terms := cons.terms ++ [(var, val)] }

/-- The call `SCIPaddCons(scip, cons)`. -/
def SCIPaddCons (scip : Scip) (cons : Cons) : Scip :=
  { scip with conss := scip.conss ++ [cons] }

/-- What `SCIPfixVar` does to the variable it is handed while the problem is
being set up: when the value is admissible for the variable (integral for a
non-continuous variable, within the bounds) both bounds are moved to it;
otherwise the variable is left alone (and SCIP reports `infeasible`). -/
def Var.fix (v : Var) (val : ℚ) : Var :=
  if (v.vtype ≠ VarType.continuous ∧ val.den ≠ 1) ∨ val < v.lb ∨ v.ub < val then v
  else { v with lb := val, ub := val }

/-- The call `SCIPfixVar(scip, var, val, &infeasible, &fixed)`; `main` ignores
the two flags. -/
def SCIPfixVar (scip : Scip) (var : Nat) (val : ℚ) : Scip :=
  match scip.vars[var]? with
  | some v => { scip with vars := scip.vars.set var (v.fix val) }
  | none => scip

/-! ## The state of `main` -/

/-- The puzzle grid `std::vector<std::vector<int>>`, as the map from a cell to
its entry; `puzzle[i][j]` is `puzzle i j`. -/
abbrev Grid := Nat → Nat → Int

/-- The assignment `puzzle[i][j] = v`. -/
def Grid.set (g : Grid) (i j : Nat) (v : Int) : Grid :=
  fun a b => if a = i ∧ b = j then v else g a b

/-- The array `x_vars` of variable handles; `x_vars[i][j][k]` is `x_vars i j k`.
The program only reads and writes indices below 9. -/
abbrev XVars := Nat → Nat → Nat → Nat

/-- The assignment `x_vars[i][j][k] = var`. -/
def XVars.set (x : XVars) (i j k : Nat) (var : Nat) : XVars :=
  fun a b c => if a = i ∧ b = j ∧ c = k then var else x a b c

/-- The local variables of `main` that the model building and the decoding
read and write. -/
structure MainState where
  puzzle : Grid
  scip : Scip
  x_vars : XVars
  column_constrs : List Cons
  row_constrs : List Cons
  subgrid_constrs : List Cons
  fillgrid_constrs : List Cons

/-- The state of `main` once the grid is loaded and the empty problem is
created with objective sense `SCIP_OBJSENSE_MINIMIZE` (lines 17 to 51). -/
def initState (puzzle : Grid) : MainState :=
  { puzzle := puzzle
    scip := SCIPsetObjsense (SCIPcreateProbBasic "SUDOKU") ObjSense.minimize
    x_vars := fun _ _ _ => 0
    column_constrs := []
    row_constrs := []
    subgrid_constrs := []
    fillgrid_constrs := [] }

/-- The name `"x[" << i << "," << j << "," << k << "]"`. -/
def varName (i j k : Nat) : String :=
  "x[" ++ toString i ++ "," ++ toString j ++ "," ++ toString k ++ "]"

/-- The variable created in iteration `(i, j, k)` of the variable loop. -/
def newVar (i j k : Nat) : Var :=
  SCIPcreateVarBasic (varName i j k) 0 1 1 VarType.binary

/-- The variable creation loop (lines 55 to 76). -/
def createVars (st : MainState) : MainState :=
  forLoop 0 9 (fun i => forLoop 0 9 (fun j => forLoop 0 9 (fun k st =>
    let r := SCIPaddVar st.scip (newVar i j k)
    { st with scip := r.1, x_vars := st.x_vars.set i j k r.2 }))) st

/-- The column constraint built in iteration `(j, k)` (lines 89 to 104). -/
def columnCons (x_vars : XVars) (j k : Nat) : Cons :=
  forLoop 0 9 (fun i cons => SCIPaddCoefLinear cons (x_vars i j k) 1)
    (SCIPcreateConsBasicLinear ("col_" ++ toString j ++ "_" ++ toString k ++ "]") 1 1)

/-- The column constraint loop (lines 85 to 109). -/
def addColumnConstrs (st : MainState) : MainState :=
  forLoop 0 9 (fun j => forLoop 0 9 (fun k st =>
    let cons := columnCons st.x_vars j k
    { st with scip := SCIPaddCons st.scip cons
              column_constrs := st.column_constrs ++ [cons] })) st

/-- The row constraint built in iteration `(i, k)` (lines 117 to 132). -/
def rowCons (x_vars : XVars) (i k : Nat) : Cons :=
  forLoop 0 9 (fun j cons => SCIPaddCoefLinear cons (x_vars i j k) 1)
    (SCIPcreateConsBasicLinear ("row_" ++ toString i ++ "_" ++ toString k ++ "]") 1 1)

/-- The row constraint loop (lines 113 to 137). -/
def addRowConstrs (st : MainState) : MainState :=
  forLoop 0 9 (fun i => forLoop 0 9 (fun k st =>
    let cons := rowCons st.x_vars i k
    { st with scip := SCIPaddCons st.scip cons
              row_constrs := st.row_constrs ++ [cons] })) st

/-- The subgrid constraint built in iteration `(k, p, q)` (lines 148 to 166):
the outer loop runs `j` from `3 * (p + 1) - 3`, the inner one `i` from
`3 * (q + 1) - 3`, and the variable added is `x_vars[i][j][k]`. -/
def subgridCons (x_vars : XVars) (k p q : Nat) : Cons :=
  forLoop (3 * (p + 1) - 3) (3 * (p + 1)) (fun j =>
    forLoop (3 * (q + 1) - 3) (3 * (q + 1)) (fun i cons =>
      SCIPaddCoefLinear cons (x_vars i j k) 1))
    (SCIPcreateConsBasicLinear
      ("subgrid_" ++ toString k ++ "_" ++ toString p ++ "_" ++ toString q ++ "]") 1 1)

/-- The subgrid constraint loop (lines 142 to 171). -/
def addSubgridConstrs (st : MainState) : MainState :=
  forLoop 0 9 (fun k => forLoop 0 3 (fun p => forLoop 0 3 (fun q st =>
    let cons := subgridCons st.x_vars k p q
    { st with scip := SCIPaddCons st.scip cons
              subgrid_constrs := st.subgrid_constrs ++ [cons] }))) st

/-- The fill-grid constraint built in iteration `(i, j)` (lines 180 to 195). -/
def fillgridCons (x_vars : XVars) (i j : Nat) : Cons :=
  forLoop 0 9 (fun k cons => SCIPaddCoefLinear cons (x_vars i j k) 1)
    (SCIPcreateConsBasicLinear ("fillgrid_" ++ toString i ++ "_" ++ toString j ++ "]") 1 1)

/-- The fill-grid constraint loop (lines 176 to 200). -/
def addFillgridConstrs (st : MainState) : MainState :=
  forLoop 0 9 (fun i => forLoop 0 9 (fun j st =>
    let cons := fillgridCons st.x_vars i j
    { st with scip := SCIPaddCons st.scip cons
              fillgrid_constrs := st.fillgrid_constrs ++ [cons] })) st

/-- The clue fixing loop (lines 206 to 215). -/
def fixClues (st : MainState) : MainState :=
  forLoop 0 9 (fun i => forLoop 0 9 (fun j st =>
    if st.puzzle i j > 0 then
      { st with scip := SCIPfixVar st.scip (st.x_vars i j (st.puzzle i j - 1).toNat) 1 }
    else st)) st

/-- The variable loop, the four constraint loops and the clue loop in the
order of `main` (lines 51 to 215). -/
def assemble (puzzle : Grid) : MainState :=
  fixClues (addFillgridConstrs (addSubgridConstrs (addRowConstrs
    (addColumnConstrs (createVars (initState puzzle))))))

/-- Everything `main` does to the problem before `SCIPsolve` (lines 51 to 217):
the loops, then `SCIPsetObjsense(scip, SCIP_OBJSENSE_MAXIMIZE)`. -/
def buildModel (puzzle : Grid) : MainState :=
  let st := assemble puzzle
  { st with scip := SCIPsetObjsense st.scip ObjSense.maximize }

/-! ## After the solve -/

/-- A solution as `main` reads it: `SCIPgetSolVal(scip, sol, var)` per handle. -/
abbrev Sol := Nat → ℚ

/-- The decoding loop (lines 232 to 244). -/
def decode (x_vars : XVars) (sol : Sol) (puzzle : Grid) : Grid :=
  forLoop 0 9 (fun i => forLoop 0 9 (fun j => forLoop 0 9 (fun k puzzle =>
    if sol (x_vars i j k) > 0 then puzzle.set i j (k + 1) else puzzle))) puzzle

/-- What `main` prints after the solve. -/
inductive Output where
  | solved (grid : Grid)
  | checkInput
  | nothing

/-- The dispatch on the solver status (lines 225 to 251). -/
def report (st : MainState) (soln_status : Nat) (sol : Sol) : Output :=
  if soln_status = 11 then Output.solved (decode st.x_vars sol st.puzzle)
  else if soln_status = 12 then Output.checkInput
  else Output.nothing

/-! ## Closed forms of what the loops build -/

/-- The variable with handle `h`, as the creation loop leaves it. -/
def varAt (h : Nat) : Var := newVar (h / 81) (h / 9 % 9) (h % 9)

/-- Invariant of the variable loop: `n` variables are created, the handles
below `n` are stored in `x_vars`, and nothing else of the state `st` the loop
started from has changed. -/
structure VarsInv (st t : MainState) (n : Nat) : Prop where
  vars : t.scip.vars = (List.range n).map varAt
  xv : ∀ a b c, b < 9 → c < 9 → 81 * a + 9 * b + c < n → t.x_vars a b c = 81 * a + 9 * b + c
  puzzle : t.puzzle = st.puzzle
  conss : t.scip.conss = st.scip.conss
  sense : t.scip.objsense = st.scip.objsense
  col : t.column_constrs = st.column_constrs
  row : t.row_constrs = st.row_constrs
  sub : t.subgrid_constrs = st.subgrid_constrs
  fill : t.fillgrid_constrs = st.fillgrid_constrs

/-- Invariant of a constraint loop: the constraints `L` are appended to the
problem and to the family vector `fam`, and nothing else of the state `st`
the loop started from has changed. -/
structure ConsInv (st t : MainState) (L : List Cons)
    (fam o1 o2 o3 : MainState → List Cons) : Prop where
  conss : t.scip.conss = st.scip.conss ++ L
  fam : fam t = fam st ++ L
  o1 : o1 t = o1 st
  o2 : o2 t = o2 st
  o3 : o3 t = o3 st
  vars : t.scip.vars = st.scip.vars
  xv : t.x_vars = st.x_vars
  puzzle : t.puzzle = st.puzzle
  sense : t.scip.objsense = st.scip.objsense

/-- The first `n` constraints that the column loop pushes. -/
def columnList (x_vars : XVars) (n : Nat) : List Cons :=
  (List.range n).map (fun t => columnCons x_vars (t / 9) (t % 9))

/-- The first `n` constraints that the row loop pushes. -/
def rowList (x_vars : XVars) (n : Nat) : List Cons :=
  (List.range n).map (fun t => rowCons x_vars (t / 9) (t % 9))

/-- The first `n` constraints that the subgrid loop pushes. -/
def subgridList (x_vars : XVars) (n : Nat) : List Cons :=
  (List.range n).map (fun t => subgridCons x_vars (t / 9) (t / 3 % 3) (t % 3))

/-- The first `n` constraints that the fill-grid loop pushes. -/
def fillgridList (x_vars : XVars) (n : Nat) : List Cons :=
  (List.range n).map (fun t => fillgridCons x_vars (t / 9) (t % 9))

/-- An input grid as the loader hands it over: every cell is the blank
sentinel `-1` or a digit `1..9`. -/
def WellFormed (puzzle : Grid) : Prop :=
  ∀ i < 9, ∀ j < 9, puzzle i j = -1 ∨ (1 ≤ puzzle i j ∧ puzzle i j ≤ 9)

instance (puzzle : Grid) : Decidable (WellFormed puzzle) := by
  unfold WellFormed
  infer_instance

/-- The variable with handle `h` once the clues of `puzzle` are fixed. -/
def fixedVarAt (puzzle : Grid) (h : Nat) : Var :=
  if puzzle (h / 81) (h / 9 % 9) > 0 ∧ (puzzle (h / 81) (h / 9 % 9) - 1).toNat = h % 9 then
    { varAt h with lb := 1, ub := 1 }
  else varAt h

/-- What the clue loop leaves alone: everything but the bounds of the
variables. -/
structure FixFrame (st t : MainState) : Prop where
  conss : t.scip.conss = st.scip.conss
  xv : t.x_vars = st.x_vars
  puzzle : t.puzzle = st.puzzle
  sense : t.scip.objsense = st.scip.objsense
  col : t.column_constrs = st.column_constrs
  row : t.row_constrs = st.row_constrs
  sub : t.subgrid_constrs = st.subgrid_constrs
  fill : t.fillgrid_constrs = st.fillgrid_constrs
  vtypes : t.scip.vars.map Var.vtype = st.scip.vars.map Var.vtype

/-- The variable list while the clue loop runs: the cells before cell number
`n` (row-major) are done. -/
def fixedUpTo (puzzle : Grid) (n : Nat) : List Var :=
  (List.range 729).map (fun h => if h / 9 < n then fixedVarAt puzzle h else varAt h)

/-! ## Vocabulary of the claims -/

/-- The handle that the variable loop stores in `x_vars[a][b][c]`. -/
def handle (a b c : Nat) : Nat := 81 * a + 9 * b + c

/-- The variables that occur in a constraint, in the order they were added. -/
def Cons.varList (c : Cons) : List Nat := c.terms.map Prod.fst

/-- The 81 cells of the grid, row by row. -/
def allCells : List (Nat × Nat) :=
  (List.range 9).flatMap (fun i => (List.range 9).map (fun j => (i, j)))

/-- The cells `(row, column)` whose variable for digit index `k` occurs in a
constraint. -/
def cellsOf (x_vars : XVars) (k : Nat) (c : Cons) : List (Nat × Nat) :=
  allCells.filter (fun cell => decide (x_vars cell.1 cell.2 k ∈ c.varList))

/-- The cells of the subgrid constraint that iteration `(k, p, q)` pushed onto
`subgrid_constrs`, entry `9 * k + 3 * p + q` of that vector. -/
def subgridCells (st : MainState) (k p q : Nat) : List (Nat × Nat) :=
  match st.subgrid_constrs[9 * k + 3 * p + q]? with
  | some c => cellsOf st.x_vars k c
  | none => []

/-- The cells in rows `[3a, 3a+3)` and columns `[3b, 3b+3)`. -/
def block (a b : Nat) : List (Nat × Nat) :=
  (List.range' (3 * a) 3).flatMap (fun i => (List.range' (3 * b) 3).map (fun j => (i, j)))

/-- The input grid without any clue. -/
def blankGrid : Grid := fun _ _ => -1

/-- A variable is fixed to `val` when both its bounds are `val`. -/
def Var.FixedTo (v : Var) (val : ℚ) : Prop := v.lb = val ∧ v.ub = val

/-- The grid whose rows are the given lists; a cell outside them is blank. -/
def gridOfRows (rows : List (List Int)) : Grid :=
  fun i j => (rows.getD i []).getD j (-1)

/-- The puzzle of the end-to-end scenario, blanks as `-1`. -/
def classicPuzzle : Grid := gridOfRows
  [[5, 3, -1, -1, 7, -1, -1, -1, -1],
   [6, -1, -1, 1, 9, 5, -1, -1, -1],
   [-1, 9, 8, -1, -1, -1, -1, 6, -1],
   [8, -1, -1, -1, 6, -1, -1, -1, 3],
   [4, -1, -1, 8, -1, 3, -1, -1, 1],
   [7, -1, -1, -1, 2, -1, -1, -1, 6],
   [-1, 6, -1, -1, -1, -1, 2, 8, -1],
   [-1, -1, -1, 4, 1, 9, -1, -1, 5],
   [-1, -1, -1, -1, 8, -1, -1, 7, 9]]

/-- The completed grid of the end-to-end scenario. -/
def classicSolved : Grid := gridOfRows
  [[5, 3, 4, 6, 7, 8, 9, 1, 2],
   [6, 7, 2, 1, 9, 5, 3, 4, 8],
   [1, 9, 8, 3, 4, 2, 5, 6, 7],
   [8, 5, 9, 7, 6, 1, 4, 2, 3],
   [4, 2, 6, 8, 5, 3, 7, 9, 1],
   [7, 1, 3, 9, 2, 4, 8, 5, 6],
   [9, 6, 1, 5, 3, 7, 2, 8, 4],
   [2, 8, 7, 4, 1, 9, 6, 3, 5],
   [3, 4, 5, 2, 8, 6, 1, 7, 9]]

/-- The innermost decoding loop seen from the one cell it writes: `vals k` is
the solution value of the cell's `k`-th variable and `v0` the entry the cell
holds before the loop. -/
def scanCell (vals : Nat → ℚ) (v0 : Int) : Int :=
  forLoop 0 9 (fun k v => if vals k > 0 then (k : Int) + 1 else v) v0

/-- A solution vector with the value `1/4` on `x[0][0][2]` and `0` elsewhere. -/
def quarterSol : Sol := fun h => if h = 2 then 1 / 4 else 0

/-- A solution vector with two variables of cell `(0, 0)` at 1, those of the
digits 1 and 2, and `0` elsewhere. -/
def twoBitsSol : Sol := fun h => if h = 0 ∨ h = 1 then 1 else 0

/-- How many of the nine variables of cell `(r, c)` have a value above `1/2`. -/
def setCount (x_vars : XVars) (sol : Sol) (r c : Nat) : Nat :=
  ((List.range 9).filter (fun d => decide (sol (x_vars r c d) > 1 / 2))).length

/-! ## What a solution of the model is -/

/-- The value of the linear form of a constraint under a solution vector. -/
def Cons.activity (c : Cons) (x : Sol) : ℚ :=
  (c.terms.map (fun t => t.2 * x t.1)).sum

/-- A solution vector satisfies a linear constraint. -/
def Cons.Holds (c : Cons) (x : Sol) : Prop :=
  c.lhs ≤ c.activity x ∧ c.activity x ≤ c.rhs

/-- The values a variable of a given type may take. -/
def VarType.Domain : VarType → ℚ → Prop
  | VarType.binary, val => val = 0 ∨ val = 1
  | VarType.integer, val => val.den = 1
  | VarType.implint, val => val.den = 1
  | VarType.continuous, _ => True

/-- A value respects the bounds and the type of a variable. -/
def Var.Admits (v : Var) (val : ℚ) : Prop :=
  v.lb ≤ val ∧ val ≤ v.ub ∧ v.vtype.Domain val

/-- A solution vector is feasible for the problem: every variable takes a
value within its bounds and of its type, and every constraint holds.  For the
model of `main` these are the 0/1 assignments that satisfy the 324 constraints
and the clue fixings. -/
def Scip.Feasible (scip : Scip) (x : Sol) : Prop :=
  (∀ (h : Nat) (v : Var), scip.vars[h]? = some v → v.Admits (x h)) ∧ ∀ c ∈ scip.conss, c.Holds x

/-- Exactly one element of the list has the property. -/
def ExactlyOne {α : Type} (l : List α) (P : α → Prop) : Prop :=
  ∃ a ∈ l, P a ∧ ∀ b ∈ l, P b → b = a

/-- The cells of the subgrid constraint of `(p, q)` in the order of its loops:
columns `[3p, 3p+3)` outside, rows `[3q, 3q+3)` inside. -/
def subgridIdx (p q : Nat) : List (Nat × Nat) :=
  (List.range' (3 * p) 3).flatMap (fun j => (List.range' (3 * q) 3).map (fun i => (i, j)))

/-- Feasibility of the model of `main` spelled out on the variables
`x[r][c][d]`, whose handle is `handle r c d`: the values are 0 or 1, the
variable of every clue is 1, and in every column, row, subgrid and cell
exactly one variable of the constraint is 1. -/
structure ExactCover (puzzle : Grid) (x : Sol) : Prop where
  binary : ∀ h < 729, x h = 0 ∨ x h = 1
  clue : ∀ r < 9, ∀ c < 9, ∀ d : Nat, d < 9 → puzzle r c = (d : Int) + 1 →
    x (handle r c d) = 1
  column : ∀ c < 9, ∀ d < 9, ExactlyOne (List.range 9) (fun r => x (handle r c d) = 1)
  row : ∀ r < 9, ∀ d < 9, ExactlyOne (List.range 9) (fun c => x (handle r c d) = 1)
  subgrid : ∀ d < 9, ∀ p < 3, ∀ q < 3,
    ExactlyOne (subgridIdx p q) (fun cell => x (handle cell.1 cell.2 d) = 1)
  fill : ∀ r < 9, ∀ c < 9, ExactlyOne (List.range 9) (fun d => x (handle r c d) = 1)

/-! ## Completed grids -/

/-- Every cell holds a digit `1..9`. -/
def AllDigits (g : Grid) : Prop :=
  ∀ r < 9, ∀ c < 9, 1 ≤ g r c ∧ g r c ≤ 9

/-- No digit is repeated in a row. -/
def RowsDistinct (g : Grid) : Prop :=
  ∀ r < 9, ∀ c1 < 9, ∀ c2 < 9, g r c1 = g r c2 → c1 = c2

/-- No digit is repeated in a column. -/
def ColumnsDistinct (g : Grid) : Prop :=
  ∀ c < 9, ∀ r1 < 9, ∀ r2 < 9, g r1 c = g r2 c → r1 = r2

/-- No digit is repeated in a 3x3 subgrid: in the subgrid number `b` (rows
`[3 (b / 3), 3 (b / 3) + 3)`, columns `[3 (b % 3), 3 (b % 3) + 3)`) the cells
at two different positions `s` and `t` hold different digits. -/
def SubgridsDistinct (g : Grid) : Prop :=
  ∀ b < 9, ∀ s < 9, ∀ t < 9,
    g (3 * (b / 3) + s / 3) (3 * (b % 3) + s % 3)
      = g (3 * (b / 3) + t / 3) (3 * (b % 3) + t % 3) → s = t

/-- A completed grid is a valid Sudoku: every cell holds a digit `1..9` and no
digit is repeated in a row, in a column or in a 3x3 subgrid. -/
def ValidGrid (g : Grid) : Prop :=
  AllDigits g ∧ RowsDistinct g ∧ ColumnsDistinct g ∧ SubgridsDistinct g

instance (g : Grid) : Decidable (AllDigits g) := by
  unfold AllDigits
  infer_instance

instance (g : Grid) : Decidable (RowsDistinct g) := by
  unfold RowsDistinct
  infer_instance

instance (g : Grid) : Decidable (ColumnsDistinct g) := by
  unfold ColumnsDistinct
  infer_instance

instance (g : Grid) : Decidable (SubgridsDistinct g) := by
  unfold SubgridsDistinct
  infer_instance

instance (g : Grid) : Decidable (ValidGrid g) := by
  unfold ValidGrid
  infer_instance

/-- A grid agrees with the input grid on every clue cell, the cells that are
not blank. -/
def Agrees (puzzle g : Grid) : Prop :=
  ∀ r < 9, ∀ c < 9, puzzle r c ≠ -1 → g r c = puzzle r c

/-- The assignment that a grid stands for: the variable `x[r][c][d]`, of handle
`81 r + 9 c + d`, is 1 when cell `(r, c)` holds the digit `d + 1` and 0
otherwise. -/
def encodeSol (g : Grid) : Sol :=
  fun h => if h < 729 ∧ g (h / 81) (h / 9 % 9) = ((h % 9 : Nat) : Int) + 1 then 1 else 0

/-- An input grid with the digit 9 twice in row 0, in columns 0 and 1. -/
def twoNines : Grid := fun i j => if i = 0 ∧ (j = 0 ∨ j = 1) then 9 else -1

/-- A completed grid as the values of its 81 cells. -/
abbrev Board := Fin 9 → Fin 9 → Int

/-- An assignment to the 729 variables `x[r][c][d]`. -/
abbrev Assignment := Fin 9 → Fin 9 → Fin 9 → ℚ

/-- A board as a grid of `main`. -/
def Board.toGrid (b : Board) : Grid :=
  fun i j => if h : i < 9 ∧ j < 9 then b ⟨i, h.1⟩ ⟨j, h.2⟩ else -1

/-- An assignment as the solution vector the solver hands back: the value of
the variable of handle `81 r + 9 c + d` is the value given to `x[r][c][d]`. -/
def Assignment.toSol (a : Assignment) : Sol :=
  fun h => if hh : h < 729 then
    a ⟨h / 81, by omega⟩ ⟨h / 9 % 9, by omega⟩ ⟨h % 9, by omega⟩ else 0

/-- The assignment of a board: `x[r][c][d] = 1` iff cell `(r, c)` holds the
digit `d + 1`. -/
def encode (b : Board) : Assignment :=
  fun r c d => if b r c = ((d : Nat) : Int) + 1 then 1 else 0

/-- A solution vector is one-hot on every cell for the handles `x_vars`:
exactly one of the nine variables of the cell is 1 and the other eight are 0. -/
def OneHot (x_vars : XVars) (sol : Sol) : Prop :=
  ∀ r < 9, ∀ c < 9, ∃ d : Nat, d < 9 ∧ sol (x_vars r c d) = 1 ∧
    ∀ d' : Nat, d' < 9 → d' ≠ d → sol (x_vars r c d') = 0

/-! ## The grid loader `sudoku::get_sudoku_grid` and `main` around the model

A `std::string` is the list of its characters.  The file at `file_path` is
given by what opening it yields: `none` when it cannot be opened, else its
characters.  An exception that leaves the function and a call of `exit` end
the run; both are results of the embedding. -/

/-- The exceptions that `std::string::substr` and `std::stoi` throw. -/
inductive StdException where
  | invalid_argument
  | out_of_range
deriving DecidableEq

/-- The ways the run ends before `main` returns: a call `exit(code)`, or an
exception that nothing catches, with the value of the loader's counter `idx`
when it was thrown. -/
inductive Abort where
  | exit (code : Nat)
  | thrown (what : StdException) (idx : Nat)
deriving DecidableEq

/-- The call `std::getline(infile, puzzle_data)`: the characters before the
first line feed. -/
def getline (content : List Char) : List Char :=
  content.takeWhile (fun c => c ≠ Char.ofNat 10)

/-- The call `s.substr(pos, len)`: it throws `std::out_of_range` when `pos` is
beyond the end of the string. -/
def substr (s : List Char) (pos len : Nat) : Except StdException (List Char) :=
  if pos > s.length then Except.error StdException.out_of_range
  else Except.ok ((s.drop pos).take len)

/-- The white space that `strtol` skips (`isspace` in the C locale): space,
tab, line feed, vertical tab, form feed, carriage return. -/
def isspace (c : Char) : Bool :=
  c = ' ' ∨ c = Char.ofNat 9 ∨ c = Char.ofNat 10 ∨ c = Char.ofNat 11 ∨ c = Char.ofNat 12
    ∨ c = Char.ofNat 13

/-- The call `std::stoi(str)`: leading white space and one sign are skipped,
the decimal digits that follow are converted; without a digit the call throws
`std::invalid_argument`, with a value outside `int` it throws
`std::out_of_range`. -/
def stoi (str : List Char) : Except StdException Int :=
  let s1 := str.dropWhile isspace
  let s2 := if s1.head? = some '-' ∨ s1.head? = some '+' then s1.tail else s1
  let ds := s2.takeWhile Char.isDigit
  if ds = [] then Except.error StdException.invalid_argument
  else
    let n : Int := ds.foldl (fun acc d => 10 * acc + ((d.toNat - 48 : Nat) : Int)) 0
    let v : Int := if s1.head? = some '-' then -n else n
    if v < -2147483648 ∨ 2147483647 < v then Except.error StdException.out_of_range
    else Except.ok v

/-- A counted loop whose body may end the run: once it has, the remaining
iterations do not happen. -/
def forLoopE {σ ε : Type} (lo hi : Nat) (body : Nat → σ → Except ε σ) (s : σ) : Except ε σ :=
  forLoop lo hi (fun i acc => acc.bind (body i)) (Except.ok s)

/-- The variables `puzzle` and `idx` of the loader. -/
structure LoadState where
  puzzle : Grid
  idx : Nat

/-- The body of the two loops of the loader (lines 37 to 45).  The three calls
`puzzle_data.substr(idx, 1)` have the same arguments and the same result. -/
def loadCell (puzzle_data : List Char) (i j : Nat) (st : LoadState) :
    Except Abort LoadState :=
  match substr puzzle_data st.idx 1 with
  | Except.error e => Except.error (Abort.thrown e st.idx)
  | Except.ok s =>
    if s ≠ ['.'] ∧ s ≠ ['0'] then
      match stoi s with
      | Except.error e => Except.error (Abort.thrown e st.idx)
      | Except.ok v => Except.ok { puzzle := st.puzzle.set i j v, idx := st.idx + 1 }
    else Except.ok { puzzle := st.puzzle.set i j (-1), idx := st.idx + 1 }

/-- The two loops of the loader (lines 31 to 47), started on the grid of
zeros that the constructor of `puzzle` makes. -/
def loadCells (puzzle_data : List Char) : Except Abort LoadState :=
  forLoopE 0 9 (fun i => forLoopE 0 9 (fun j => loadCell puzzle_data i j))
    { puzzle := fun _ _ => 0, idx := 0 }

/-- The function `sudoku::get_sudoku_grid` (lines 10 to 50): the length check
happens only when the file is open; otherwise `puzzle_data` stays empty. -/
def get_sudoku_grid (infile : Option (List Char)) : Except Abort Grid :=
  let checked : Except Abort (List Char) :=
    match infile with
    | some content =>
      let puzzle_data := getline content
      if puzzle_data.length ≠ 81 then Except.error (Abort.exit 1) else Except.ok puzzle_data
    | none => Except.ok []
  match checked with
  | Except.error a => Except.error a
  | Except.ok puzzle_data =>
    match loadCells puzzle_data with
    | Except.error a => Except.error a
    | Except.ok st => Except.ok st.puzzle

/-- The function `main` up to the output after the solve: `argv` are the
program arguments, `fs` says what opening a path yields, and `solve` stands
for `SCIPsolve`, `SCIPgetStatus` and `SCIPgetBestSol`, which hand back a
status and a solution vector.  The printing of the unsolved grid and the
release of the SCIP objects are left out. -/
def main (argv : List String) (fs : String → Option (List Char))
    (solve : Scip → Nat × Sol) : Except Abort (MainState × Output) :=
  if argv.length < 2 then Except.error (Abort.exit 1)
  else
    match get_sudoku_grid (fs (argv.getD 1 "")) with
    | Except.error a => Except.error a
    | Except.ok puzzle =>
      let st := buildModel puzzle
      let r := solve st.scip
      Except.ok (st, report st r.1 r.2)

/-- The number of variables that a run of `main` has created. -/
def varsCreated : Except Abort (MainState × Output) → Nat
  | Except.error _ => 0
  | Except.ok r => r.1.scip.vars.length

/-- What the loader stores for a character it converts: `-1` for `.` and `0`,
the numeric value for another digit. -/
def cellValue (c : Char) : Int :=
  if c = '.' ∨ c = '0' then -1 else (c.toNat : Int) - 48

/-- The characters on which the body of the loader does not throw: `.` and
the decimal digits. -/
def Accepted (c : Char) : Prop := c = '.' ∨ c.isDigit = true

instance (c : Char) : Decidable (Accepted c) := by
  unfold Accepted
  infer_instance

/-- Invariant of the loops of the loader while no exception was thrown: `n`
characters are converted, `idx` is `n`, and the cells filled so far hold the
values of their characters, row by row. -/
def LoadInv (puzzle_data : List Char) (n : Nat) (acc : Except Abort LoadState) : Prop :=
  ∀ st, acc = Except.ok st → st.idx = n ∧
    ∀ a b, b < 9 → 9 * a + b < n →
      ∃ c, puzzle_data[9 * a + b]? = some c ∧ Accepted c ∧ st.puzzle a b = cellValue c

/-- The 81 characters of the classic puzzle: the string of the end-to-end
scenario, which has 79 characters, followed by `79`. -/
def classicLine : List Char :=
  "53..7....6..195....98....6.8...6...34..8.3..17...2...6.6....28....419..5....8..79".toList

/-- The puzzle string of the end-to-end scenario as it is written there; it
has 79 characters. -/
def scenarioLine : List Char :=
  "53..7....6..195....98....6.8...6...34..8.3..17...2...6.6....28....419..5....8..".toList

/-- In how many constraints of a list the variable of handle `h` occurs. -/
def occurrences (h : Nat) (l : List Cons) : Nat :=
  (l.filter (fun c => decide (h ∈ c.varList))).length

/-! ## Solving a puzzle by forced cells -/

/-- The cell `(r', c')` is another cell of the row, the column or the 3x3
subgrid of `(r, c)`. -/
def IsPeer (r c r' c' : Nat) : Prop :=
  ¬ (r' = r ∧ c' = c) ∧ (r' = r ∨ c' = c ∨ (r' / 3 = r / 3 ∧ c' / 3 = c / 3))

instance (r c r' c' : Nat) : Decidable (IsPeer r c r' c') := by
  unfold IsPeer
  infer_instance

/-- In the partial grid `known` the cell `(r, c)` is forced to `v`: every
other digit is held by a cell of its row, column or subgrid. -/
def Forced (known : Grid) (r c : Nat) (v : Int) : Prop :=
  (r < 9 ∧ c < 9) ∧ ∀ d < 9, ((d : Nat) : Int) + 1 = v ∨
    ∃ r' < 9, ∃ c' < 9, IsPeer r c r' c' ∧ known r' c' = ((d : Nat) : Int) + 1

instance (known : Grid) (r c : Nat) (v : Int) : Decidable (Forced known r c v) := by
  unfold Forced
  infer_instance

/-- Filling forced cells one after the other; `none` when a cell of the list
is not forced at its turn. -/
def fillForced (known : Grid) : List (Nat × Nat × Int) → Option Grid
  | [] => some known
  | (r, c, v) :: rest =>
    if Forced known r c v then fillForced (known.set r c v) rest else none

/-- The list of forced cells reaches the grid `target` on all 81 cells. -/
def Reaches (known : Grid) (steps : List (Nat × Nat × Int)) (target : Grid) : Prop :=
  match fillForced known steps with
  | some g => ∀ r < 9, ∀ c < 9, g r c = target r c
  | none => False

instance (known : Grid) (steps : List (Nat × Nat × Int)) (target : Grid) :
    Decidable (Reaches known steps target) := by
  unfold Reaches
  cases fillForced known steps <;> infer_instance

/-- The 51 blank cells of the classic puzzle in an order in which each is
forced, with the digit it is forced to. -/
def classicSteps : List (Nat × Nat × Int) :=
  [(4, 4, 5), (5, 3, 9), (6, 4, 3), (6, 5, 7), (6, 8, 4), (7, 7, 3), (2, 4, 4), (2, 5, 2),
   (2, 8, 7), (3, 3, 7), (4, 1, 2), (4, 7, 9), (6, 3, 5), (7, 0, 2), (7, 2, 7), (7, 6, 6),
   (8, 5, 6), (8, 6, 1), (0, 3, 6), (0, 5, 8), (0, 8, 2), (1, 7, 4), (1, 8, 8), (2, 0, 1),
   (2, 3, 3), (2, 6, 5), (3, 6, 4), (4, 2, 6), (4, 6, 7), (5, 6, 8), (5, 7, 5), (6, 0, 9),
   (6, 2, 1), (7, 1, 8), (8, 0, 3), (8, 3, 2), (0, 2, 4), (0, 6, 9), (0, 7, 1), (1, 1, 7),
   (1, 2, 2), (1, 6, 3), (3, 5, 1), (3, 7, 2), (5, 1, 1), (5, 2, 3), (5, 5, 4), (8, 2, 5),
   (3, 1, 5), (3, 2, 9), (8, 1, 4)]

/-! ## Loop rule -/

theorem forLoop_self {σ : Type} (lo : Nat) (body : Nat → σ → σ) (s : σ) :
    forLoop lo lo body s = s := by
  simp [forLoop]

theorem forLoop_succ {σ : Type} (lo n : Nat) (body : Nat → σ → σ) (s : σ) :
    forLoop lo (lo + (n + 1)) body s = body (lo + n) (forLoop lo (lo + n) body s) := by
  have h1 : lo + (n + 1) - lo = n + 1 := by omega
  have h2 : lo + n - lo = n := by omega
  simp only [forLoop, h1, h2]
  rw [List.range'_concat, List.foldl_append]
  simp

/-- The invariant rule for a counted loop. -/
theorem forLoop_inv {σ : Type} (P : Nat → σ → Prop) (lo hi : Nat) (hle : lo ≤ hi)
    (body : Nat → σ → σ) (s : σ) (h0 : P lo s)
    (hstep : ∀ i t, lo ≤ i → i < hi → P i t → P (i + 1) (body i t)) :
    P hi (forLoop lo hi body s) := by
  obtain ⟨n, rfl⟩ := Nat.exists_eq_add_of_le hle
  induction n with
  | zero => simpa [forLoop_self] using h0
  | succ n ih =>
    rw [forLoop_succ]
    exact hstep (lo + n) _ (by omega) (by omega)
      (ih (by omega) (fun i t h1 h2 => hstep i t h1 (by omega)))

theorem createVars_inv (st : MainState) (h0 : st.scip.vars = []) :
    VarsInv st (createVars st) 729 := by
  unfold createVars
  refine forLoop_inv (fun i t => VarsInv st t (81 * i)) 0 9 (by omega) _ st ?_ ?_
  · exact ⟨by simp [h0], by intro a b c _ _ h; omega, rfl, rfl, rfl, rfl, rfl, rfl, rfl⟩
  · intro i t _ hi ht
    have := forLoop_inv (fun j t => VarsInv st t (81 * i + 9 * j)) 0 9 (by omega)
      (fun j => forLoop 0 9 (fun k st =>
        let r := SCIPaddVar st.scip (newVar i j k)
        { st with scip := r.1, x_vars := st.x_vars.set i j k r.2 })) t (by simpa using ht) ?_
    · simpa [Nat.mul_add] using this
    · intro j t _ hj ht
      have := forLoop_inv (fun k t => VarsInv st t (81 * i + 9 * j + k)) 0 9 (by omega)
        (fun k st =>
          let r := SCIPaddVar st.scip (newVar i j k)
          { st with scip := r.1, x_vars := st.x_vars.set i j k r.2 }) t (by simpa using ht) ?_
      · have e : 81 * i + 9 * (j + 1) = 81 * i + 9 * j + 9 := by omega
        rw [e]; exact this
      · intro k t _ hk ht
        have hlen : t.scip.vars.length = 81 * i + 9 * j + k := by simp [ht.vars]
        refine ⟨?_, ?_, ht.puzzle, ht.conss, ht.sense, ht.col, ht.row, ht.sub, ht.fill⟩
        · have e1 : (81 * i + 9 * j + k) / 81 = i := by omega
          have e2 : (81 * i + 9 * j + k) / 9 % 9 = j := by omega
          have e3 : (81 * i + 9 * j + k) % 9 = k := by omega
          have e : 81 * i + 9 * j + (k + 1) = (81 * i + 9 * j + k) + 1 := by omega
          simp only [SCIPaddVar, ht.vars, e, List.range_succ, List.map_append, List.map_cons,
            List.map_nil, varAt, e1, e2, e3]
        · intro a b c hb hc hlt
          simp only [SCIPaddVar, XVars.set, hlen]
          by_cases hq : a = i ∧ b = j ∧ c = k
          · obtain ⟨rfl, rfl, rfl⟩ := hq; simp
          · rw [if_neg hq]
            exact ht.xv a b c hb hc (by omega)

theorem ConsInv.snoc {st t u : MainState} {L : List Cons} {c : Cons}
    {fam o1 o2 o3 : MainState → List Cons}
    (h1 : ConsInv st t L fam o1 o2 o3) (h2 : ConsInv t u [c] fam o1 o2 o3) :
    ConsInv st u (L ++ [c]) fam o1 o2 o3 :=
  ⟨by rw [h2.conss, h1.conss, List.append_assoc], by rw [h2.fam, h1.fam, List.append_assoc],
   h2.o1.trans h1.o1, h2.o2.trans h1.o2, h2.o3.trans h1.o3, h2.vars.trans h1.vars,
   h2.xv.trans h1.xv, h2.puzzle.trans h1.puzzle, h2.sense.trans h1.sense⟩

/-- Two nested loops of nine iterations that each add one constraint. -/
theorem consLoop2_inv (upd : MainState → Cons → MainState) (mk : XVars → Nat → Nat → Cons)
    (fam o1 o2 o3 : MainState → List Cons)
    (hupd : ∀ t c, ConsInv t (upd t c) [c] fam o1 o2 o3) (st : MainState) :
    ConsInv st (forLoop 0 9 (fun a => forLoop 0 9 (fun b t => upd t (mk t.x_vars a b))) st)
      ((List.range 81).map (fun n => mk st.x_vars (n / 9) (n % 9))) fam o1 o2 o3 := by
  refine forLoop_inv (fun a t => ConsInv st t
    ((List.range (9 * a)).map (fun n => mk st.x_vars (n / 9) (n % 9))) fam o1 o2 o3)
    0 9 (by omega) _ st ?_ ?_
  · exact ⟨by simp, by simp, rfl, rfl, rfl, rfl, rfl, rfl, rfl⟩
  · intro a t _ ha ht
    have := forLoop_inv (fun b t => ConsInv st t
      ((List.range (9 * a + b)).map (fun n => mk st.x_vars (n / 9) (n % 9))) fam o1 o2 o3)
      0 9 (by omega) (fun b t => upd t (mk t.x_vars a b)) t (by simpa using ht) ?_
    · have e : 9 * (a + 1) = 9 * a + 9 := by omega
      rw [e]; exact this
    · intro b t _ hb ht
      have e1 : (9 * a + b) / 9 = a := by omega
      have e2 : (9 * a + b) % 9 = b := by omega
      have e : 9 * a + (b + 1) = (9 * a + b) + 1 := by omega
      have hs := ht.snoc (hupd t (mk t.x_vars a b))
      have hx : mk t.x_vars a b = mk st.x_vars a b := by rw [ht.xv]
      simp only [e, List.range_succ, List.map_append, List.map_cons, List.map_nil, e1, e2]
      rw [← hx]
      exact hs

/-- Three nested loops of nine, three and three iterations that each add one
constraint. -/
theorem consLoop3_inv (upd : MainState → Cons → MainState)
    (mk : XVars → Nat → Nat → Nat → Cons) (fam o1 o2 o3 : MainState → List Cons)
    (hupd : ∀ t c, ConsInv t (upd t c) [c] fam o1 o2 o3) (st : MainState) :
    ConsInv st
      (forLoop 0 9 (fun a => forLoop 0 3 (fun b => forLoop 0 3 (fun c t =>
        upd t (mk t.x_vars a b c)))) st)
      ((List.range 81).map (fun n => mk st.x_vars (n / 9) (n / 3 % 3) (n % 3)))
      fam o1 o2 o3 := by
  refine forLoop_inv (fun a t => ConsInv st t
    ((List.range (9 * a)).map (fun n => mk st.x_vars (n / 9) (n / 3 % 3) (n % 3)))
    fam o1 o2 o3) 0 9 (by omega) _ st ?_ ?_
  · exact ⟨by simp, by simp, rfl, rfl, rfl, rfl, rfl, rfl, rfl⟩
  · intro a t _ ha ht
    have := forLoop_inv (fun b t => ConsInv st t
      ((List.range (9 * a + 3 * b)).map (fun n => mk st.x_vars (n / 9) (n / 3 % 3) (n % 3)))
      fam o1 o2 o3) 0 3 (by omega)
      (fun b => forLoop 0 3 (fun c t => upd t (mk t.x_vars a b c))) t (by simpa using ht) ?_
    · have e : 9 * (a + 1) = 9 * a + 3 * 3 := by omega
      rw [e]; exact this
    · intro b t _ hb ht
      have := forLoop_inv (fun c t => ConsInv st t
        ((List.range (9 * a + 3 * b + c)).map
          (fun n => mk st.x_vars (n / 9) (n / 3 % 3) (n % 3)))
        fam o1 o2 o3) 0 3 (by omega)
        (fun c t => upd t (mk t.x_vars a b c)) t (by simpa using ht) ?_
      · have e : 9 * a + 3 * (b + 1) = 9 * a + 3 * b + 3 := by omega
        rw [e]; exact this
      · intro c t _ hc ht
        have e1 : (9 * a + 3 * b + c) / 9 = a := by omega
        have e2 : (9 * a + 3 * b + c) / 3 % 3 = b := by omega
        have e3 : (9 * a + 3 * b + c) % 3 = c := by omega
        have e : 9 * a + 3 * b + (c + 1) = (9 * a + 3 * b + c) + 1 := by omega
        have hs := ht.snoc (hupd t (mk t.x_vars a b c))
        have hx : mk t.x_vars a b c = mk st.x_vars a b c := by rw [ht.xv]
        simp only [e, List.range_succ, List.map_append, List.map_cons, List.map_nil,
          e1, e2, e3]
        rw [← hx]
        exact hs

theorem addColumnConstrs_inv (st : MainState) :
    ConsInv st (addColumnConstrs st) (columnList st.x_vars 81)
      (fun s => s.column_constrs) (fun s => s.row_constrs)
      (fun s => s.subgrid_constrs) (fun s => s.fillgrid_constrs) :=
  consLoop2_inv (fun t c => { t with scip := SCIPaddCons t.scip c
                                     column_constrs := t.column_constrs ++ [c] })
    columnCons (fun s => s.column_constrs) (fun s => s.row_constrs)
    (fun s => s.subgrid_constrs) (fun s => s.fillgrid_constrs) (fun _ _ => ⟨rfl, rfl, rfl, rfl, rfl, rfl, rfl, rfl, rfl⟩) st

theorem addRowConstrs_inv (st : MainState) :
    ConsInv st (addRowConstrs st) (rowList st.x_vars 81)
      (fun s => s.row_constrs) (fun s => s.column_constrs)
      (fun s => s.subgrid_constrs) (fun s => s.fillgrid_constrs) :=
  consLoop2_inv (fun t c => { t with scip := SCIPaddCons t.scip c
                                     row_constrs := t.row_constrs ++ [c] })
    rowCons (fun s => s.row_constrs) (fun s => s.column_constrs)
    (fun s => s.subgrid_constrs) (fun s => s.fillgrid_constrs) (fun _ _ => ⟨rfl, rfl, rfl, rfl, rfl, rfl, rfl, rfl, rfl⟩) st

theorem addSubgridConstrs_inv (st : MainState) :
    ConsInv st (addSubgridConstrs st) (subgridList st.x_vars 81)
      (fun s => s.subgrid_constrs) (fun s => s.column_constrs)
      (fun s => s.row_constrs) (fun s => s.fillgrid_constrs) :=
  consLoop3_inv (fun t c => { t with scip := SCIPaddCons t.scip c
                                     subgrid_constrs := t.subgrid_constrs ++ [c] })
    subgridCons (fun s => s.subgrid_constrs) (fun s => s.column_constrs)
    (fun s => s.row_constrs) (fun s => s.fillgrid_constrs) (fun _ _ => ⟨rfl, rfl, rfl, rfl, rfl, rfl, rfl, rfl, rfl⟩) st

theorem addFillgridConstrs_inv (st : MainState) :
    ConsInv st (addFillgridConstrs st) (fillgridList st.x_vars 81)
      (fun s => s.fillgrid_constrs) (fun s => s.column_constrs)
      (fun s => s.row_constrs) (fun s => s.subgrid_constrs) :=
  consLoop2_inv (fun t c => { t with scip := SCIPaddCons t.scip c
                                     fillgrid_constrs := t.fillgrid_constrs ++ [c] })
    fillgridCons (fun s => s.fillgrid_constrs) (fun s => s.column_constrs)
    (fun s => s.row_constrs) (fun s => s.subgrid_constrs) (fun _ _ => ⟨rfl, rfl, rfl, rfl, rfl, rfl, rfl, rfl, rfl⟩) st

/-! The coefficient loops. -/

theorem foldl_addCoef (f : Nat → Nat) (l : List Nat) (c : Cons) :
    l.foldl (fun acc i => SCIPaddCoefLinear acc (f i) 1) c
      = { c with terms := c.terms ++ l.map (fun i => (f i, (1 : ℚ))) } := by
  induction l generalizing c with
  | nil => simp
  | cons a l ih =>
    rw [List.foldl_cons, ih]
    simp [SCIPaddCoefLinear]

theorem foldl_foldl_addCoef (f : Nat → Nat → Nat) (l m : List Nat) (c : Cons) :
    l.foldl (fun acc j => m.foldl (fun acc i => SCIPaddCoefLinear acc (f i j) 1) acc) c
      = { c with terms := c.terms ++
            l.flatMap (fun j => m.map (fun i => (f i j, (1 : ℚ)))) } := by
  induction l generalizing c with
  | nil => simp
  | cons a l ih =>
    rw [List.foldl_cons, ih, foldl_addCoef]
    simp

theorem columnCons_terms (xv : XVars) (j k : Nat) :
    (columnCons xv j k).terms = (List.range 9).map (fun i => (xv i j k, (1 : ℚ))) := by
  simp only [columnCons, forLoop, foldl_addCoef, SCIPcreateConsBasicLinear, List.nil_append,
    Nat.sub_zero, List.range_eq_range']

theorem rowCons_terms (xv : XVars) (i k : Nat) :
    (rowCons xv i k).terms = (List.range 9).map (fun j => (xv i j k, (1 : ℚ))) := by
  simp only [rowCons, forLoop, foldl_addCoef, SCIPcreateConsBasicLinear, List.nil_append,
    Nat.sub_zero, List.range_eq_range']

theorem fillgridCons_terms (xv : XVars) (i j : Nat) :
    (fillgridCons xv i j).terms = (List.range 9).map (fun k => (xv i j k, (1 : ℚ))) := by
  simp only [fillgridCons, forLoop, foldl_addCoef, SCIPcreateConsBasicLinear, List.nil_append,
    Nat.sub_zero, List.range_eq_range']

theorem subgridCons_terms (xv : XVars) (k p q : Nat) :
    (subgridCons xv k p q).terms
      = (List.range' (3 * p) 3).flatMap (fun j =>
          (List.range' (3 * q) 3).map (fun i => (xv i j k, (1 : ℚ)))) := by
  have hp : 3 * (p + 1) - 3 * p = 3 := by omega
  have hq : 3 * (q + 1) - 3 * q = 3 := by omega
  have hp' : 3 * (p + 1) - 3 = 3 * p := by omega
  have hq' : 3 * (q + 1) - 3 = 3 * q := by omega
  simp only [subgridCons, forLoop, hp, hq, hp', hq', foldl_foldl_addCoef,
    SCIPcreateConsBasicLinear, List.nil_append]

theorem columnCons_sides (xv : XVars) (j k : Nat) :
    (columnCons xv j k).lhs = 1 ∧ (columnCons xv j k).rhs = 1 := by
  simp only [columnCons, forLoop, foldl_addCoef, SCIPcreateConsBasicLinear, and_self]

theorem rowCons_sides (xv : XVars) (i k : Nat) :
    (rowCons xv i k).lhs = 1 ∧ (rowCons xv i k).rhs = 1 := by
  simp only [rowCons, forLoop, foldl_addCoef, SCIPcreateConsBasicLinear, and_self]

theorem fillgridCons_sides (xv : XVars) (i j : Nat) :
    (fillgridCons xv i j).lhs = 1 ∧ (fillgridCons xv i j).rhs = 1 := by
  simp only [fillgridCons, forLoop, foldl_addCoef, SCIPcreateConsBasicLinear, and_self]

theorem subgridCons_sides (xv : XVars) (k p q : Nat) :
    (subgridCons xv k p q).lhs = 1 ∧ (subgridCons xv k p q).rhs = 1 := by
  simp only [subgridCons, forLoop, foldl_foldl_addCoef, SCIPcreateConsBasicLinear, and_self]

theorem Var.fix_vtype (v : Var) (val : ℚ) : (v.fix val).vtype = v.vtype := by
  unfold Var.fix; split <;> rfl

theorem SCIPfixVar_vtypes (s : Scip) (h : Nat) (val : ℚ) :
    (SCIPfixVar s h val).vars.map Var.vtype = s.vars.map Var.vtype := by
  unfold SCIPfixVar
  split
  · rename_i v hv
    obtain ⟨hlt, hget⟩ := List.getElem?_eq_some.mp hv
    simp only [List.map_set, Var.fix_vtype]
    apply List.ext_getElem (by simp)
    intro n h1 h2
    rw [List.getElem_set]
    split
    · subst_vars; simp
    · rfl
  · rfl

theorem SCIPfixVar_conss (s : Scip) (h : Nat) (val : ℚ) :
    (SCIPfixVar s h val).conss = s.conss ∧ (SCIPfixVar s h val).objsense = s.objsense := by
  unfold SCIPfixVar; split <;> exact ⟨rfl, rfl⟩

theorem fixClues_frame (st : MainState) : FixFrame st (fixClues st) := by
  unfold fixClues
  refine forLoop_inv (fun _ t => FixFrame st t) 0 9 (by omega) _ st
    ⟨rfl, rfl, rfl, rfl, rfl, rfl, rfl, rfl, rfl⟩ ?_
  intro i t _ _ ht
  refine forLoop_inv (fun _ t => FixFrame st t) 0 9 (by omega) _ t ht ?_
  intro j t _ _ ht
  by_cases hp : t.puzzle i j > 0
  · simp only [hp, if_true]
    exact ⟨(SCIPfixVar_conss _ _ _).1.trans ht.conss, ht.xv, ht.puzzle,
      (SCIPfixVar_conss _ _ _).2.trans ht.sense, ht.col, ht.row, ht.sub, ht.fill,
      (SCIPfixVar_vtypes _ _ _).trans ht.vtypes⟩
  · simpa only [hp, if_false] using ht

theorem varAt_fix (h : Nat) : (varAt h).fix 1 = { varAt h with lb := 1, ub := 1 } := by
  simp [Var.fix, varAt, newVar, SCIPcreateVarBasic]

theorem fixedUpTo_skip (puzzle : Grid) (i j : Nat) (hj : j < 9) (hp : ¬ puzzle i j > 0) :
    fixedUpTo puzzle (9 * i + (j + 1)) = fixedUpTo puzzle (9 * i + j) := by
  unfold fixedUpTo
  apply List.map_congr_left
  intro h _
  by_cases h1 : h / 9 < 9 * i + j
  · rw [if_pos h1, if_pos (by omega)]
  · by_cases h2 : h / 9 = 9 * i + j
    · have e1 : h / 81 = i := by omega
      have e2 : h / 9 % 9 = j := by omega
      rw [if_neg h1, if_pos (by omega)]
      simp [fixedVarAt, e1, e2, hp]
    · rw [if_neg h1, if_neg (by omega)]

theorem fixedUpTo_fix (puzzle : Grid) (i j : Nat) (hj : j < 9)
    (hp : puzzle i j > 0) (h9 : puzzle i j ≤ 9) :
    (fixedUpTo puzzle (9 * i + j)).set (81 * i + 9 * j + (puzzle i j - 1).toNat)
        ((varAt (81 * i + 9 * j + (puzzle i j - 1).toNat)).fix 1)
      = fixedUpTo puzzle (9 * i + (j + 1)) := by
  have hd : (puzzle i j - 1).toNat < 9 := by omega
  apply List.ext_getElem (by simp [fixedUpTo])
  intro m _ hlen
  have hm : m < 729 := by simpa [fixedUpTo] using hlen
  rw [List.getElem_set]
  simp only [fixedUpTo, List.getElem_map, List.getElem_range]
  by_cases h3 : 81 * i + 9 * j + (puzzle i j - 1).toNat = m
  · have e1 : m / 81 = i := by omega
    have e2 : m / 9 % 9 = j := by omega
    have e3 : (puzzle i j - 1).toNat = m % 9 := by omega
    rw [if_pos h3, if_pos (by omega), h3, varAt_fix]
    simp [fixedVarAt, e1, e2, hp, e3]
  · rw [if_neg h3]
    by_cases h1 : m / 9 < 9 * i + j
    · rw [if_pos h1, if_pos (by omega)]
    · by_cases h2 : m / 9 = 9 * i + j
      · have e1 : m / 81 = i := by omega
        have e2 : m / 9 % 9 = j := by omega
        have e3 : ¬ (puzzle i j - 1).toNat = m % 9 := by omega
        rw [if_neg h1, if_pos (by omega)]
        simp only [fixedVarAt, e1, e2]
        rw [if_neg (fun h => e3 h.2)]
      · rw [if_neg h1, if_neg (by omega)]

theorem fixClues_vars (st : MainState) (hwf : WellFormed st.puzzle)
    (hv : st.scip.vars = (List.range 729).map varAt)
    (hx : ∀ a b c, a < 9 → b < 9 → c < 9 → st.x_vars a b c = 81 * a + 9 * b + c) :
    (fixClues st).scip.vars = (List.range 729).map (fixedVarAt st.puzzle) := by
  have key : (fixClues st).scip.vars = fixedUpTo st.puzzle 81 ∧ FixFrame st (fixClues st) := by
    unfold fixClues
    refine forLoop_inv (fun i t => t.scip.vars = fixedUpTo st.puzzle (9 * i) ∧ FixFrame st t)
      0 9 (by omega) _ st ⟨?_, ⟨rfl, rfl, rfl, rfl, rfl, rfl, rfl, rfl, rfl⟩⟩ ?_
    · simp [fixedUpTo, hv]
    · intro i t _ hi ht
      have := forLoop_inv
        (fun j t => t.scip.vars = fixedUpTo st.puzzle (9 * i + j) ∧ FixFrame st t)
        0 9 (by omega) (fun j st =>
          if st.puzzle i j > 0 then
            { st with scip := SCIPfixVar st.scip (st.x_vars i j (st.puzzle i j - 1).toNat) 1 }
          else st) t (by simpa using ht) ?_
      · have e : 9 * (i + 1) = 9 * i + 9 := by omega
        rw [e]; exact this
      · intro j t _ hj ht
        obtain ⟨hvars, hfr⟩ := ht
        by_cases hp : t.puzzle i j > 0
        · have hp' : st.puzzle i j > 0 := by rw [← hfr.puzzle]; exact hp
          have h9 : st.puzzle i j ≤ 9 := by
            rcases hwf i hi j hj with h | h <;> omega
          have hd : (st.puzzle i j - 1).toNat < 9 := by omega
          have hh : t.x_vars i j (t.puzzle i j - 1).toNat
              = 81 * i + 9 * j + (st.puzzle i j - 1).toNat := by
            rw [hfr.xv, hfr.puzzle]; exact hx _ _ _ hi hj hd
          have hget : t.scip.vars[81 * i + 9 * j + (st.puzzle i j - 1).toNat]?
              = some (varAt (81 * i + 9 * j + (st.puzzle i j - 1).toNat)) := by
            rw [hvars, List.getElem?_eq_some]
            refine ⟨by simp [fixedUpTo]; omega, ?_⟩
            simp only [fixedUpTo, List.getElem_map, List.getElem_range]
            rw [if_neg (by omega)]
          simp only [hp, if_true, hh]
          refine ⟨?_, (SCIPfixVar_conss _ _ _).1.trans hfr.conss, hfr.xv, hfr.puzzle,
            (SCIPfixVar_conss _ _ _).2.trans hfr.sense, hfr.col, hfr.row, hfr.sub, hfr.fill,
            (SCIPfixVar_vtypes _ _ _).trans hfr.vtypes⟩
          simp only [SCIPfixVar, hget]
          rw [hvars]
          exact fixedUpTo_fix st.puzzle i j hj hp' h9
        · have hp' : ¬ st.puzzle i j > 0 := by rw [← hfr.puzzle]; exact hp
          simp only [hp, if_false]
          exact ⟨by rw [hvars, fixedUpTo_skip st.puzzle i j hj hp'], hfr⟩
  rw [key.1]
  unfold fixedUpTo
  apply List.map_congr_left
  intro h hh
  have : h < 729 := by simpa using hh
  rw [if_pos (by omega)]

/-! ## The model that `main` hands to the solver -/

theorem createVars_model (puzzle : Grid) :
    VarsInv (initState puzzle) (createVars (initState puzzle)) 729 :=
  createVars_inv (initState puzzle) rfl

/-- The handle stored in `x_vars[a][b][c]`. -/
theorem buildModel_x_vars (puzzle : Grid) (a b c : Nat) (hb : b < 9) (hc : c < 9)
    (ha : a < 9) : (buildModel puzzle).x_vars a b c = 81 * a + 9 * b + c := by
  simp only [buildModel, SCIPsetObjsense, assemble]
  have h1 := createVars_model puzzle
  have h2 := addColumnConstrs_inv (createVars (initState puzzle))
  have h3 := addRowConstrs_inv (addColumnConstrs (createVars (initState puzzle)))
  have h4 := addSubgridConstrs_inv
    (addRowConstrs (addColumnConstrs (createVars (initState puzzle))))
  have h5 := addFillgridConstrs_inv (addSubgridConstrs
    (addRowConstrs (addColumnConstrs (createVars (initState puzzle)))))
  have h6 := fixClues_frame (addFillgridConstrs (addSubgridConstrs
    (addRowConstrs (addColumnConstrs (createVars (initState puzzle))))))
  rw [h6.xv, h5.xv, h4.xv, h3.xv, h2.xv]
  exact h1.xv a b c hb hc (by omega)

theorem buildModel_puzzle (puzzle : Grid) : (buildModel puzzle).puzzle = puzzle := by
  simp only [buildModel, SCIPsetObjsense, assemble]
  have h1 := createVars_model puzzle
  have h2 := addColumnConstrs_inv (createVars (initState puzzle))
  have h3 := addRowConstrs_inv (addColumnConstrs (createVars (initState puzzle)))
  have h4 := addSubgridConstrs_inv
    (addRowConstrs (addColumnConstrs (createVars (initState puzzle))))
  have h5 := addFillgridConstrs_inv (addSubgridConstrs
    (addRowConstrs (addColumnConstrs (createVars (initState puzzle)))))
  have h6 := fixClues_frame (addFillgridConstrs (addSubgridConstrs
    (addRowConstrs (addColumnConstrs (createVars (initState puzzle))))))
  rw [h6.puzzle, h5.puzzle, h4.puzzle, h3.puzzle, h2.puzzle, h1.puzzle]
  rfl

/-- The four family vectors and the constraint list of the problem. -/
theorem buildModel_families (puzzle : Grid) :
    (buildModel puzzle).column_constrs = columnList (buildModel puzzle).x_vars 81 ∧
    (buildModel puzzle).row_constrs = rowList (buildModel puzzle).x_vars 81 ∧
    (buildModel puzzle).subgrid_constrs = subgridList (buildModel puzzle).x_vars 81 ∧
    (buildModel puzzle).fillgrid_constrs = fillgridList (buildModel puzzle).x_vars 81 ∧
    (buildModel puzzle).scip.conss =
      (buildModel puzzle).column_constrs ++ (buildModel puzzle).row_constrs ++
      (buildModel puzzle).subgrid_constrs ++ (buildModel puzzle).fillgrid_constrs := by
  simp only [buildModel, SCIPsetObjsense, assemble]
  have h1 := createVars_model puzzle
  have h2 := addColumnConstrs_inv (createVars (initState puzzle))
  have h3 := addRowConstrs_inv (addColumnConstrs (createVars (initState puzzle)))
  have h4 := addSubgridConstrs_inv
    (addRowConstrs (addColumnConstrs (createVars (initState puzzle))))
  have h5 := addFillgridConstrs_inv (addSubgridConstrs
    (addRowConstrs (addColumnConstrs (createVars (initState puzzle)))))
  have h6 := fixClues_frame (addFillgridConstrs (addSubgridConstrs
    (addRowConstrs (addColumnConstrs (createVars (initState puzzle))))))
  have hx : (fixClues (addFillgridConstrs (addSubgridConstrs (addRowConstrs
      (addColumnConstrs (createVars (initState puzzle))))))).x_vars
      = (createVars (initState puzzle)).x_vars := by
    rw [h6.xv, h5.xv, h4.xv, h3.xv, h2.xv]
  have e0 : (initState puzzle).column_constrs = [] := rfl
  have e1 : (initState puzzle).row_constrs = [] := rfl
  have e2 : (initState puzzle).subgrid_constrs = [] := rfl
  have e3 : (initState puzzle).fillgrid_constrs = [] := rfl
  have e4 : (initState puzzle).scip.conss = [] := rfl
  have c1 : (fixClues (addFillgridConstrs (addSubgridConstrs (addRowConstrs
      (addColumnConstrs (createVars (initState puzzle))))))).column_constrs
      = columnList (fixClues (addFillgridConstrs (addSubgridConstrs (addRowConstrs
      (addColumnConstrs (createVars (initState puzzle))))))).x_vars 81 := by
    rw [hx]
    rw [h6.col, h5.o1, h4.o1, h3.o1]
    have := h2.fam
    simp only at this
    rw [this, h1.col, e0, List.nil_append]
  have c2 : (fixClues (addFillgridConstrs (addSubgridConstrs (addRowConstrs
      (addColumnConstrs (createVars (initState puzzle))))))).row_constrs
      = rowList (fixClues (addFillgridConstrs (addSubgridConstrs (addRowConstrs
      (addColumnConstrs (createVars (initState puzzle))))))).x_vars 81 := by
    rw [hx]
    rw [h6.row, h5.o2, h4.o2]
    have := h3.fam
    simp only at this
    rw [this, h2.o1, h1.row, e1, List.nil_append, h2.xv]
  have c3 : (fixClues (addFillgridConstrs (addSubgridConstrs (addRowConstrs
      (addColumnConstrs (createVars (initState puzzle))))))).subgrid_constrs
      = subgridList (fixClues (addFillgridConstrs (addSubgridConstrs (addRowConstrs
      (addColumnConstrs (createVars (initState puzzle))))))).x_vars 81 := by
    rw [hx]
    rw [h6.sub, h5.o3]
    have := h4.fam
    simp only at this
    rw [this, h3.o2, h2.o2, h1.sub, e2, List.nil_append, h3.xv, h2.xv]
  have c4 : (fixClues (addFillgridConstrs (addSubgridConstrs (addRowConstrs
      (addColumnConstrs (createVars (initState puzzle))))))).fillgrid_constrs
      = fillgridList (fixClues (addFillgridConstrs (addSubgridConstrs (addRowConstrs
      (addColumnConstrs (createVars (initState puzzle))))))).x_vars 81 := by
    rw [hx]
    rw [h6.fill]
    have := h5.fam
    simp only at this
    rw [this, h4.o3, h3.o3, h2.o3, h1.fill, e3, List.nil_append, h4.xv, h3.xv, h2.xv]
  refine ⟨c1, c2, c3, c4, ?_⟩
  rw [c1, c2, c3, c4, hx]
  rw [h6.conss, h5.conss, h4.conss, h3.conss, h2.conss, h1.conss, e4, List.nil_append,
    h4.xv, h3.xv, h2.xv]

theorem varAt_vtypes (n : Nat) :
    ((List.range n).map varAt).map Var.vtype = List.replicate n VarType.binary := by
  induction n with
  | zero => rfl
  | succ n ih =>
    rw [List.range_succ, List.map_append, List.map_append, ih, List.replicate_succ']
    rfl

/-- The types of the variables of the model, whatever the input grid. -/
theorem buildModel_vtypes (puzzle : Grid) :
    (buildModel puzzle).scip.vars.map Var.vtype = List.replicate 729 VarType.binary := by
  simp only [buildModel, SCIPsetObjsense, assemble]
  have h1 := createVars_model puzzle
  have h2 := addColumnConstrs_inv (createVars (initState puzzle))
  have h3 := addRowConstrs_inv (addColumnConstrs (createVars (initState puzzle)))
  have h4 := addSubgridConstrs_inv
    (addRowConstrs (addColumnConstrs (createVars (initState puzzle))))
  have h5 := addFillgridConstrs_inv (addSubgridConstrs
    (addRowConstrs (addColumnConstrs (createVars (initState puzzle)))))
  have h6 := fixClues_frame (addFillgridConstrs (addSubgridConstrs
    (addRowConstrs (addColumnConstrs (createVars (initState puzzle))))))
  rw [h6.vtypes, h5.vars, h4.vars, h3.vars, h2.vars, h1.vars]
  exact varAt_vtypes 729

/-- The variables of the model for a well-formed input grid. -/
theorem buildModel_vars (puzzle : Grid) (hwf : WellFormed puzzle) :
    (buildModel puzzle).scip.vars = (List.range 729).map (fixedVarAt puzzle) := by
  have h1 := createVars_model puzzle
  have h2 := addColumnConstrs_inv (createVars (initState puzzle))
  have h3 := addRowConstrs_inv (addColumnConstrs (createVars (initState puzzle)))
  have h4 := addSubgridConstrs_inv
    (addRowConstrs (addColumnConstrs (createVars (initState puzzle))))
  have h5 := addFillgridConstrs_inv (addSubgridConstrs
    (addRowConstrs (addColumnConstrs (createVars (initState puzzle)))))
  have hp : (addFillgridConstrs (addSubgridConstrs (addRowConstrs (addColumnConstrs
      (createVars (initState puzzle)))))).puzzle = puzzle := by
    rw [h5.puzzle, h4.puzzle, h3.puzzle, h2.puzzle, h1.puzzle]; rfl
  simp only [buildModel, SCIPsetObjsense, assemble]
  have := fixClues_vars (addFillgridConstrs (addSubgridConstrs
    (addRowConstrs (addColumnConstrs (createVars (initState puzzle))))))
    (by rw [hp]; exact hwf)
    (by rw [h5.vars, h4.vars, h3.vars, h2.vars, h1.vars])
    (by
      intro a b c ha hb hc
      rw [h5.xv, h4.xv, h3.xv, h2.xv]
      exact h1.xv a b c hb hc (by omega))
  rw [hp] at this
  exact this

/-! ## Shape of the constraints -/

theorem getElem?_map_range {α : Type} (f : Nat → α) (n i : Nat) (h : i < n) :
    ((List.range n).map f)[i]? = some (f i) := by
  rw [List.getElem?_map, List.getElem?_range h]
  rfl

theorem columnCons_eq (xv : XVars) (j k : Nat) :
    columnCons xv j k =
      { name := "col_" ++ toString j ++ "_" ++ toString k ++ "]", lhs := 1, rhs := 1,
        terms := (List.range 9).map (fun i => (xv i j k, (1 : ℚ))) } := by
  simp only [columnCons, forLoop, foldl_addCoef, SCIPcreateConsBasicLinear, List.nil_append,
    Nat.sub_zero, List.range_eq_range']

theorem rowCons_eq (xv : XVars) (i k : Nat) :
    rowCons xv i k =
      { name := "row_" ++ toString i ++ "_" ++ toString k ++ "]", lhs := 1, rhs := 1,
        terms := (List.range 9).map (fun j => (xv i j k, (1 : ℚ))) } := by
  simp only [rowCons, forLoop, foldl_addCoef, SCIPcreateConsBasicLinear, List.nil_append,
    Nat.sub_zero, List.range_eq_range']

theorem fillgridCons_eq (xv : XVars) (i j : Nat) :
    fillgridCons xv i j =
      { name := "fillgrid_" ++ toString i ++ "_" ++ toString j ++ "]", lhs := 1, rhs := 1,
        terms := (List.range 9).map (fun k => (xv i j k, (1 : ℚ))) } := by
  simp only [fillgridCons, forLoop, foldl_addCoef, SCIPcreateConsBasicLinear, List.nil_append,
    Nat.sub_zero, List.range_eq_range']

theorem subgridCons_eq (xv : XVars) (k p q : Nat) :
    subgridCons xv k p q =
      { name := "subgrid_" ++ toString k ++ "_" ++ toString p ++ "_" ++ toString q ++ "]",
        lhs := 1, rhs := 1,
        terms := (List.range' (3 * p) 3).flatMap (fun j =>
          (List.range' (3 * q) 3).map (fun i => (xv i j k, (1 : ℚ)))) } := by
  have hp : 3 * (p + 1) - 3 * p = 3 := by omega
  have hq : 3 * (q + 1) - 3 * q = 3 := by omega
  have hp' : 3 * (p + 1) - 3 = 3 * p := by omega
  have hq' : 3 * (q + 1) - 3 = 3 * q := by omega
  simp only [subgridCons, forLoop, hp, hq, hp', hq', foldl_foldl_addCoef,
    SCIPcreateConsBasicLinear, List.nil_append]

theorem buildModel_handle (puzzle : Grid) (a b c : Nat) (ha : a < 9) (hb : b < 9)
    (hc : c < 9) : (buildModel puzzle).x_vars a b c = handle a b c :=
  buildModel_x_vars puzzle a b c hb hc ha

theorem handle_inj {a b c a' b' c' : Nat} (hb : b < 9) (hc : c < 9) (hb' : b' < 9)
    (hc' : c' < 9) (h : handle a b c = handle a' b' c') : a = a' ∧ b = b' ∧ c = c' := by
  unfold handle at h
  omega

theorem subgrid_getElem? (puzzle : Grid) (k p q : Nat) (hk : k < 9) (hp : p < 3)
    (hq : q < 3) :
    (buildModel puzzle).subgrid_constrs[9 * k + 3 * p + q]?
      = some (subgridCons (buildModel puzzle).x_vars k p q) := by
  rw [(buildModel_families puzzle).2.2.1, subgridList, getElem?_map_range _ _ _ (by omega)]
  have e1 : (9 * k + 3 * p + q) / 9 = k := by omega
  have e2 : (9 * k + 3 * p + q) / 3 % 3 = p := by omega
  have e3 : (9 * k + 3 * p + q) % 3 = q := by omega
  rw [e1, e2, e3]

theorem column_getElem? (puzzle : Grid) (j k : Nat) (hj : j < 9) (hk : k < 9) :
    (buildModel puzzle).column_constrs[9 * j + k]?
      = some (columnCons (buildModel puzzle).x_vars j k) := by
  rw [(buildModel_families puzzle).1, columnList, getElem?_map_range _ _ _ (by omega)]
  have e1 : (9 * j + k) / 9 = j := by omega
  have e2 : (9 * j + k) % 9 = k := by omega
  rw [e1, e2]

theorem row_getElem? (puzzle : Grid) (i k : Nat) (hi : i < 9) (hk : k < 9) :
    (buildModel puzzle).row_constrs[9 * i + k]?
      = some (rowCons (buildModel puzzle).x_vars i k) := by
  rw [(buildModel_families puzzle).2.1, rowList, getElem?_map_range _ _ _ (by omega)]
  have e1 : (9 * i + k) / 9 = i := by omega
  have e2 : (9 * i + k) % 9 = k := by omega
  rw [e1, e2]

theorem fillgrid_getElem? (puzzle : Grid) (i j : Nat) (hi : i < 9) (hj : j < 9) :
    (buildModel puzzle).fillgrid_constrs[9 * i + j]?
      = some (fillgridCons (buildModel puzzle).x_vars i j) := by
  rw [(buildModel_families puzzle).2.2.2.1, fillgridList, getElem?_map_range _ _ _ (by omega)]
  have e1 : (9 * i + j) / 9 = i := by omega
  have e2 : (9 * i + j) % 9 = j := by omega
  rw [e1, e2]

theorem mem_allCells (cell : Nat × Nat) : cell ∈ allCells ↔ cell.1 < 9 ∧ cell.2 < 9 := by
  obtain ⟨i, j⟩ := cell
  simp only [allCells, List.mem_flatMap, List.mem_map, List.mem_range, Prod.mk.injEq]
  constructor
  · rintro ⟨a, ha, b, hb, rfl, rfl⟩; exact ⟨ha, hb⟩
  · rintro ⟨hi, hj⟩; exact ⟨i, hi, j, hj, rfl, rfl⟩

theorem mem_block (a b : Nat) (cell : Nat × Nat) :
    cell ∈ block a b ↔
      (3 * a ≤ cell.1 ∧ cell.1 < 3 * a + 3) ∧ (3 * b ≤ cell.2 ∧ cell.2 < 3 * b + 3) := by
  obtain ⟨i, j⟩ := cell
  simp only [block, List.mem_flatMap, List.mem_map, List.mem_range'_1, Prod.mk.injEq]
  constructor
  · rintro ⟨a', ha, b', hb, rfl, rfl⟩; exact ⟨ha, hb⟩
  · rintro ⟨hi, hj⟩; exact ⟨i, hi, j, hj, rfl, rfl⟩

/-- Which variables the subgrid constraint of iteration `(k, p, q)` holds:
the first index of `x_vars` runs over `[3q, 3q+3)`, the second over `[3p, 3p+3)`. -/
theorem mem_subgridCons (puzzle : Grid) (k p q i j : Nat) (hk : k < 9) (hp : p < 3)
    (hq : q < 3) (hi : i < 9) (hj : j < 9) :
    (buildModel puzzle).x_vars i j k ∈ (subgridCons (buildModel puzzle).x_vars k p q).varList
      ↔ (3 * q ≤ i ∧ i < 3 * q + 3) ∧ (3 * p ≤ j ∧ j < 3 * p + 3) := by
  rw [subgridCons_eq]
  simp only [Cons.varList, List.map_flatMap, List.map_map, List.mem_flatMap, List.mem_map,
    List.mem_range'_1, Function.comp]
  constructor
  · rintro ⟨b, hb, a, ha, hab⟩
    rw [buildModel_handle puzzle a b k (by omega) (by omega) hk,
      buildModel_handle puzzle i j k hi hj hk] at hab
    obtain ⟨rfl, rfl, -⟩ := handle_inj (by omega) hk hj hk hab
    exact ⟨ha, hb⟩
  · rintro ⟨h1, h2⟩
    exact ⟨j, h2, i, h1, rfl⟩

theorem mem_subgridCells (puzzle : Grid) (k p q : Nat) (hk : k < 9) (hp : p < 3)
    (hq : q < 3) (cell : Nat × Nat) :
    cell ∈ subgridCells (buildModel puzzle) k p q ↔ cell ∈ block q p := by
  rw [subgridCells, subgrid_getElem? puzzle k p q hk hp hq]
  simp only [cellsOf, List.mem_filter, decide_eq_true_eq, mem_allCells, mem_block]
  constructor
  · rintro ⟨⟨hi, hj⟩, hmem⟩
    exact (mem_subgridCons puzzle k p q cell.1 cell.2 hk hp hq hi hj).mp hmem
  · intro h
    have hi : cell.1 < 9 := by omega
    have hj : cell.2 < 9 := by omega
    exact ⟨⟨hi, hj⟩, (mem_subgridCons puzzle k p q cell.1 cell.2 hk hp hq hi hj).mpr h⟩

/-! ## Claims on the subgrid constraints -/

/-- C2, as stated, fails: on the grid without clues the subgrid constraint
built for `k = 0`, `p = 0`, `q = 1` does not cover rows `[0, 3)` and columns
`[3, 6)`; the cell in row 0 and column 3 is missing from it. -/
theorem subgrid_rows_by_p_counterexample :
    ¬ (∀ k < 9, ∀ p < 3, ∀ q < 3, ∀ cell : Nat × Nat,
        cell ∈ subgridCells (buildModel blankGrid) k p q ↔ cell ∈ block p q) := by
  intro h
  have h1 := (h 0 (by omega) 0 (by omega) 1 (by omega) (0, 3)).mpr
    ((mem_block 0 1 (0, 3)).mpr (by simp))
  have h2 := (mem_block 1 0 (0, 3)).mp
    ((mem_subgridCells blankGrid 0 0 1 (by omega) (by omega) (by omega) (0, 3)).mp h1)
  simp at h2

/-- C2, amended: for every input grid, every digit index `k` and every block
index `(p, q)`, the cells whose variables are added to the subgrid constraint
built for `(k, p, q)` are exactly rows `[3q, 3q+3)` and columns `[3p, 3p+3)`,
the first index of `x_vars` being the row and the second the column. -/
theorem subgrid_cells_eq_block (puzzle : Grid) (k p q : Nat) (hk : k < 9) (hp : p < 3)
    (hq : q < 3) (cell : Nat × Nat) :
    cell ∈ subgridCells (buildModel puzzle) k p q ↔
      (3 * q ≤ cell.1 ∧ cell.1 < 3 * q + 3) ∧ (3 * p ≤ cell.2 ∧ cell.2 < 3 * p + 3) := by
  rw [mem_subgridCells puzzle k p q hk hp hq cell, mem_block]

/-- C2, amended, at the grid without clues, `k = 0`, `p = 1`, `q = 0` and the cell
in row 0 and column 3. -/
theorem subgrid_cells_eq_block_witness :
    (0 < 9 ∧ 1 < 3 ∧ 0 < 3) ∧
    ((0, 3) ∈ subgridCells (buildModel blankGrid) 0 1 0 ↔
      (3 * 0 ≤ (0, 3).1 ∧ (0, 3).1 < 3 * 0 + 3) ∧ (3 * 1 ≤ (0, 3).2 ∧ (0, 3).2 < 3 * 1 + 3)) :=
  ⟨by decide, subgrid_cells_eq_block blankGrid 0 1 0 (by decide) (by decide) (by decide) (0, 3)⟩

theorem subgridCells_eq_filter (puzzle : Grid) (k p q : Nat) (hk : k < 9) (hp : p < 3)
    (hq : q < 3) :
    subgridCells (buildModel puzzle) k p q = allCells.filter (fun cell =>
      decide ((3 * q ≤ cell.1 ∧ cell.1 < 3 * q + 3) ∧ (3 * p ≤ cell.2 ∧ cell.2 < 3 * p + 3))) := by
  rw [subgridCells, subgrid_getElem? puzzle k p q hk hp hq]
  apply List.filter_congr
  intro cell hcell
  obtain ⟨hi, hj⟩ := (mem_allCells cell).mp hcell
  exact decide_eq_decide.mpr (mem_subgridCons puzzle k p q cell.1 cell.2 hk hp hq hi hj)

theorem subgridCells_length (puzzle : Grid) (k p q : Nat) (hk : k < 9) (hp : p < 3)
    (hq : q < 3) :
    (subgridCells (buildModel puzzle) k p q).length = 9 ∧
      (subgridCells (buildModel puzzle) k p q).Nodup := by
  rw [subgridCells_eq_filter puzzle k p q hk hp hq]
  interval_cases p <;> interval_cases q <;> decide

/-- C3: for every digit index `k`, the cell sets of the nine subgrid constraints
built for `k` partition the grid: each has exactly nine cells, two different
ones share no cell, and their union is all of `[0,9) x [0,9)`. -/
theorem subgrid_partition (puzzle : Grid) (k : Nat) (hk : k < 9) :
    (∀ p < 3, ∀ q < 3, (subgridCells (buildModel puzzle) k p q).length = 9 ∧
      (subgridCells (buildModel puzzle) k p q).Nodup) ∧
    (∀ p < 3, ∀ q < 3, ∀ p' < 3, ∀ q' < 3, (p, q) ≠ (p', q') →
      List.Disjoint (subgridCells (buildModel puzzle) k p q)
        (subgridCells (buildModel puzzle) k p' q')) ∧
    (∀ cell : Nat × Nat, (cell.1 < 9 ∧ cell.2 < 9) ↔
      ∃ p < 3, ∃ q < 3, cell ∈ subgridCells (buildModel puzzle) k p q) := by
  refine ⟨fun p hp q hq => subgridCells_length puzzle k p q hk hp hq, ?_, ?_⟩
  · intro p hp q hq p' hp' q' hq' hne cell h1 h2
    rw [mem_subgridCells puzzle k p q hk hp hq, mem_block] at h1
    rw [mem_subgridCells puzzle k p' q' hk hp' hq', mem_block] at h2
    apply hne
    have e1 : p = p' := by omega
    have e2 : q = q' := by omega
    rw [e1, e2]
  · intro cell
    constructor
    · rintro ⟨hi, hj⟩
      refine ⟨cell.2 / 3, by omega, cell.1 / 3, by omega, ?_⟩
      rw [mem_subgridCells puzzle k _ _ hk (by omega) (by omega), mem_block]
      omega
    · rintro ⟨p, hp, q, hq, h⟩
      rw [mem_subgridCells puzzle k p q hk hp hq, mem_block] at h
      omega

/-- C3 at the grid without clues and `k = 0`. -/
theorem subgrid_partition_witness :
    0 < 9 ∧
    ((∀ p < 3, ∀ q < 3, (subgridCells (buildModel blankGrid) 0 p q).length = 9 ∧
      (subgridCells (buildModel blankGrid) 0 p q).Nodup) ∧
    (∀ p < 3, ∀ q < 3, ∀ p' < 3, ∀ q' < 3, (p, q) ≠ (p', q') →
      List.Disjoint (subgridCells (buildModel blankGrid) 0 p q)
        (subgridCells (buildModel blankGrid) 0 p' q')) ∧
    (∀ cell : Nat × Nat, (cell.1 < 9 ∧ cell.2 < 9) ↔
      ∃ p < 3, ∃ q < 3, cell ∈ subgridCells (buildModel blankGrid) 0 p q)) :=
  ⟨by decide, subgrid_partition blankGrid 0 (by decide)⟩

/-! ## Size and shape of the model -/

theorem columnList_mem {xv : XVars} {n : Nat} {c : Cons} (h : c ∈ columnList xv n) :
    ∃ j k, c = columnCons xv j k := by
  obtain ⟨t, -, rfl⟩ := List.mem_map.mp h
  exact ⟨_, _, rfl⟩

theorem rowList_mem {xv : XVars} {n : Nat} {c : Cons} (h : c ∈ rowList xv n) :
    ∃ i k, c = rowCons xv i k := by
  obtain ⟨t, -, rfl⟩ := List.mem_map.mp h
  exact ⟨_, _, rfl⟩

theorem subgridList_mem {xv : XVars} {n : Nat} {c : Cons} (h : c ∈ subgridList xv n) :
    ∃ k p q, c = subgridCons xv k p q := by
  obtain ⟨t, -, rfl⟩ := List.mem_map.mp h
  exact ⟨_, _, _, rfl⟩

theorem fillgridList_mem {xv : XVars} {n : Nat} {c : Cons} (h : c ∈ fillgridList xv n) :
    ∃ i j, c = fillgridCons xv i j := by
  obtain ⟨t, -, rfl⟩ := List.mem_map.mp h
  exact ⟨_, _, rfl⟩

theorem cons_unit_shape (puzzle : Grid) (c : Cons) (hc : c ∈ (buildModel puzzle).scip.conss) :
    c.lhs = 1 ∧ c.rhs = 1 ∧ ∀ t ∈ c.terms, t.2 = 1 := by
  obtain ⟨h1, h2, h3, h4, h5⟩ := buildModel_families puzzle
  rw [h5, h1, h2, h3, h4] at hc
  simp only [List.mem_append] at hc
  rcases hc with ((hc | hc) | hc) | hc
  · obtain ⟨j, k, rfl⟩ := columnList_mem hc
    rw [columnCons_eq]
    refine ⟨rfl, rfl, ?_⟩
    intro t ht
    obtain ⟨i, -, rfl⟩ := List.mem_map.mp ht
    rfl
  · obtain ⟨i, k, rfl⟩ := rowList_mem hc
    rw [rowCons_eq]
    refine ⟨rfl, rfl, ?_⟩
    intro t ht
    obtain ⟨j, -, rfl⟩ := List.mem_map.mp ht
    rfl
  · obtain ⟨k, p, q, rfl⟩ := subgridList_mem hc
    rw [subgridCons_eq]
    refine ⟨rfl, rfl, ?_⟩
    intro t ht
    obtain ⟨j, -, hj⟩ := List.mem_flatMap.mp ht
    obtain ⟨i, -, rfl⟩ := List.mem_map.mp hj
    rfl
  · obtain ⟨i, j, rfl⟩ := fillgridList_mem hc
    rw [fillgridCons_eq]
    refine ⟨rfl, rfl, ?_⟩
    intro t ht
    obtain ⟨k, -, rfl⟩ := List.mem_map.mp ht
    rfl

theorem columnList_handle (xv : XVars)
    (hx : ∀ a b c, a < 9 → b < 9 → c < 9 → xv a b c = handle a b c) :
    columnList xv 81 = columnList handle 81 := by
  apply List.map_congr_left
  intro n hn
  have hn : n < 81 := List.mem_range.mp hn
  rw [columnCons_eq, columnCons_eq]
  congr 1
  apply List.map_congr_left
  intro i hi
  rw [hx i _ _ (List.mem_range.mp hi) (by omega) (by omega)]

theorem rowList_handle (xv : XVars)
    (hx : ∀ a b c, a < 9 → b < 9 → c < 9 → xv a b c = handle a b c) :
    rowList xv 81 = rowList handle 81 := by
  apply List.map_congr_left
  intro n hn
  have hn : n < 81 := List.mem_range.mp hn
  rw [rowCons_eq, rowCons_eq]
  congr 1
  apply List.map_congr_left
  intro j hj
  rw [hx _ j _ (by omega) (List.mem_range.mp hj) (by omega)]

theorem fillgridList_handle (xv : XVars)
    (hx : ∀ a b c, a < 9 → b < 9 → c < 9 → xv a b c = handle a b c) :
    fillgridList xv 81 = fillgridList handle 81 := by
  apply List.map_congr_left
  intro n hn
  have hn : n < 81 := List.mem_range.mp hn
  rw [fillgridCons_eq, fillgridCons_eq]
  congr 1
  apply List.map_congr_left
  intro k hk
  rw [hx _ _ k (by omega) (by omega) (List.mem_range.mp hk)]

theorem subgridList_handle (xv : XVars)
    (hx : ∀ a b c, a < 9 → b < 9 → c < 9 → xv a b c = handle a b c) :
    subgridList xv 81 = subgridList handle 81 := by
  apply List.map_congr_left
  intro n hn
  have hn : n < 81 := List.mem_range.mp hn
  rw [subgridCons_eq, subgridCons_eq]
  congr 1
  apply List.flatMap_congr
  intro j hj
  have hj := List.mem_range'_1.mp hj
  apply List.map_congr_left
  intro i hi
  have hi := List.mem_range'_1.mp hi
  rw [hx i j _ (by omega) (by omega) (by omega)]

/-- The constraint list of the model does not mention the input grid. -/
theorem buildModel_conss_closed (puzzle : Grid) :
    (buildModel puzzle).scip.conss =
      columnList handle 81 ++ rowList handle 81 ++ subgridList handle 81
        ++ fillgridList handle 81 := by
  obtain ⟨h1, h2, h3, h4, h5⟩ := buildModel_families puzzle
  have hx := buildModel_handle puzzle
  rw [h5, h1, h2, h3, h4, columnList_handle _ hx, rowList_handle _ hx,
    subgridList_handle _ hx, fillgridList_handle _ hx]

/-- C6: whatever the input grid, the model holds 729 binary variables, one
handle for each triple of `[0,9)^3` and different triples with different
handles, and 324 linear constraints, 81 in each of the column, row, subgrid
and fill-grid families, each with both sides 1 and all coefficients 1; the
constraints are the same for every input grid. -/
theorem model_size (puzzle : Grid) :
    ((buildModel puzzle).scip.vars.length = 729 ∧
      ∀ v ∈ (buildModel puzzle).scip.vars, v.vtype = VarType.binary) ∧
    (∀ r < 9, ∀ c < 9, ∀ d < 9, (buildModel puzzle).x_vars r c d < 729 ∧
      ∀ r' < 9, ∀ c' < 9, ∀ d' < 9,
        (buildModel puzzle).x_vars r c d = (buildModel puzzle).x_vars r' c' d' →
          r = r' ∧ c = c' ∧ d = d') ∧
    (∀ h < 729, ∃ r < 9, ∃ c < 9, ∃ d < 9, (buildModel puzzle).x_vars r c d = h) ∧
    ((buildModel puzzle).scip.conss =
        (buildModel puzzle).column_constrs ++ (buildModel puzzle).row_constrs ++
        (buildModel puzzle).subgrid_constrs ++ (buildModel puzzle).fillgrid_constrs ∧
      (buildModel puzzle).column_constrs.length = 81 ∧
      (buildModel puzzle).row_constrs.length = 81 ∧
      (buildModel puzzle).subgrid_constrs.length = 81 ∧
      (buildModel puzzle).fillgrid_constrs.length = 81 ∧
      (buildModel puzzle).scip.conss.length = 324) ∧
    (∀ c ∈ (buildModel puzzle).scip.conss, c.lhs = 1 ∧ c.rhs = 1 ∧ ∀ t ∈ c.terms, t.2 = 1) ∧
    (∀ puzzle' : Grid, (buildModel puzzle').scip.conss = (buildModel puzzle).scip.conss ∧
      (buildModel puzzle').scip.vars.length = (buildModel puzzle).scip.vars.length) := by
  have hlen : ∀ p : Grid, (buildModel p).scip.vars.length = 729 := by
    intro p
    have := congrArg List.length (buildModel_vtypes p)
    rwa [List.length_map, List.length_replicate] at this
  obtain ⟨h1, h2, h3, h4, h5⟩ := buildModel_families puzzle
  refine ⟨⟨hlen puzzle, ?_⟩, ?_, ?_, ⟨h5, ?_, ?_, ?_, ?_, ?_⟩, cons_unit_shape puzzle, ?_⟩
  · intro v hv
    have hm : v.vtype ∈ (buildModel puzzle).scip.vars.map Var.vtype :=
      List.mem_map_of_mem _ hv
    rw [buildModel_vtypes] at hm
    exact (List.mem_replicate.mp hm).2
  · intro r hr c hc d hd
    rw [buildModel_handle puzzle r c d hr hc hd]
    refine ⟨by unfold handle; omega, ?_⟩
    intro r' hr' c' hc' d' hd' h
    rw [buildModel_handle puzzle r' c' d' hr' hc' hd'] at h
    exact handle_inj hc hd hc' hd' h
  · intro h hh
    refine ⟨h / 81, by omega, h / 9 % 9, by omega, h % 9, by omega, ?_⟩
    rw [buildModel_handle puzzle _ _ _ (by omega) (by omega) (by omega)]
    unfold handle
    omega
  · rw [h1]; simp [columnList]
  · rw [h2]; simp [rowList]
  · rw [h3]; simp [subgridList]
  · rw [h4]; simp [fillgridList]
  · rw [buildModel_conss_closed]
    simp [columnList, rowList, subgridList, fillgridList]
  · intro p
    exact ⟨by rw [buildModel_conss_closed, buildModel_conss_closed], by rw [hlen, hlen]⟩

theorem nodup_handles (f : Nat → Nat)
    (hf : ∀ a < 9, ∀ b < 9, f a = f b → a = b) : ((List.range 9).map f).Nodup :=
  List.Nodup.map_on
    (fun a ha b hb h => hf a (List.mem_range.mp ha) b (List.mem_range.mp hb) h)
    (List.nodup_range 9)

theorem rowCons_varList (xv : XVars) (i k : Nat) :
    (rowCons xv i k).varList = (List.range 9).map (fun j => xv i j k) := by
  rw [rowCons_eq]
  simp only [Cons.varList, List.map_map]
  exact List.map_congr_left (fun _ _ => rfl)

theorem columnCons_varList (xv : XVars) (j k : Nat) :
    (columnCons xv j k).varList = (List.range 9).map (fun i => xv i j k) := by
  rw [columnCons_eq]
  simp only [Cons.varList, List.map_map]
  exact List.map_congr_left (fun _ _ => rfl)

theorem fillgridCons_varList (xv : XVars) (i j : Nat) :
    (fillgridCons xv i j).varList = (List.range 9).map (fun k => xv i j k) := by
  rw [fillgridCons_eq]
  simp only [Cons.varList, List.map_map]
  exact List.map_congr_left (fun _ _ => rfl)

/-- C7: the row constraint pushed for `(r, d)` holds exactly the variables
`x[r][c'][d]`, the column constraint pushed for `(c, d)` exactly the
variables `x[r'][c][d]`, and the fill-grid constraint pushed for `(r, c)`
exactly the variables `x[r][c][d']`, each of the nine once. -/
theorem family_variables (puzzle : Grid) (r c d : Nat) (hr : r < 9) (hc : c < 9)
    (hd : d < 9) :
    (∃ cons, (buildModel puzzle).row_constrs[9 * r + d]? = some cons ∧
      cons.varList = (List.range 9).map (fun c' => (buildModel puzzle).x_vars r c' d) ∧
      cons.varList.Nodup) ∧
    (∃ cons, (buildModel puzzle).column_constrs[9 * c + d]? = some cons ∧
      cons.varList = (List.range 9).map (fun r' => (buildModel puzzle).x_vars r' c d) ∧
      cons.varList.Nodup) ∧
    (∃ cons, (buildModel puzzle).fillgrid_constrs[9 * r + c]? = some cons ∧
      cons.varList = (List.range 9).map (fun d' => (buildModel puzzle).x_vars r c d') ∧
      cons.varList.Nodup) := by
  have hx := buildModel_handle puzzle
  refine ⟨⟨_, row_getElem? puzzle r d hr hd, ?_⟩, ⟨_, column_getElem? puzzle c d hc hd, ?_⟩,
    ⟨_, fillgrid_getElem? puzzle r c hr hc, ?_⟩⟩
  · rw [rowCons_varList]
    refine ⟨rfl, nodup_handles _ ?_⟩
    intro a ha b hb h
    rw [hx r a d hr ha hd, hx r b d hr hb hd] at h
    exact (handle_inj ha hd hb hd h).2.1
  · rw [columnCons_varList]
    refine ⟨rfl, nodup_handles _ ?_⟩
    intro a ha b hb h
    rw [hx a c d ha hc hd, hx b c d hb hc hd] at h
    exact (handle_inj hc hd hc hd h).1
  · rw [fillgridCons_varList]
    refine ⟨rfl, nodup_handles _ ?_⟩
    intro a ha b hb h
    rw [hx r c a hr hc ha, hx r c b hr hc hb] at h
    exact (handle_inj hc ha hc hb h).2.2

/-- C7 at the grid without clues, row 2, column 5 and digit index 7. -/
theorem family_variables_witness :
    (2 < 9 ∧ 5 < 9 ∧ 7 < 9) ∧
    ((∃ cons, (buildModel blankGrid).row_constrs[9 * 2 + 7]? = some cons ∧
      cons.varList = (List.range 9).map (fun c' => (buildModel blankGrid).x_vars 2 c' 7) ∧
      cons.varList.Nodup) ∧
    (∃ cons, (buildModel blankGrid).column_constrs[9 * 5 + 7]? = some cons ∧
      cons.varList = (List.range 9).map (fun r' => (buildModel blankGrid).x_vars r' 5 7) ∧
      cons.varList.Nodup) ∧
    (∃ cons, (buildModel blankGrid).fillgrid_constrs[9 * 2 + 5]? = some cons ∧
      cons.varList = (List.range 9).map (fun d' => (buildModel blankGrid).x_vars 2 5 d') ∧
      cons.varList.Nodup)) :=
  ⟨by decide, family_variables blankGrid 2 5 7 (by decide) (by decide) (by decide)⟩

/-! ## Clue fixing -/

theorem varAt_bounds (h : Nat) : (varAt h).lb = 0 ∧ (varAt h).ub = 1 := ⟨rfl, rfl⟩

theorem buildModel_var_getElem? (puzzle : Grid) (hwf : WellFormed puzzle) (h : Nat)
    (hh : h < 729) : (buildModel puzzle).scip.vars[h]? = some (fixedVarAt puzzle h) := by
  rw [buildModel_vars puzzle hwf]
  exact getElem?_map_range _ _ _ hh

theorem buildModel_var_of_getElem? (puzzle : Grid) (hwf : WellFormed puzzle) (h : Nat)
    (v : Var) (hv : (buildModel puzzle).scip.vars[h]? = some v) :
    h < 729 ∧ v = fixedVarAt puzzle h := by
  rw [buildModel_vars puzzle hwf] at hv
  obtain ⟨hlt, hget⟩ := List.getElem?_eq_some.mp hv
  have hh : h < 729 := by simpa using hlt
  refine ⟨hh, ?_⟩
  rw [← hget, List.getElem_map, List.getElem_range]

theorem fixedVarAt_handle (puzzle : Grid) (r c d : Nat) (hc : c < 9) (hd : d < 9) :
    fixedVarAt puzzle (handle r c d) =
      if puzzle r c > 0 ∧ (puzzle r c - 1).toNat = d then
        { varAt (handle r c d) with lb := 1, ub := 1 }
      else varAt (handle r c d) := by
  have e1 : handle r c d / 81 = r := by unfold handle; omega
  have e2 : handle r c d / 9 % 9 = c := by unfold handle; omega
  have e3 : handle r c d % 9 = d := by unfold handle; omega
  simp only [fixedVarAt, e1, e2, e3]

/-- C8: for a well-formed input grid and every cell `(r, c)`, the variable
`x[r][c][d]` is fixed to 1 when the cell holds the digit `d + 1` and keeps
its bounds 0 and 1 otherwise, so a blank cell has no fixed variable; the
fixed variables are exactly the `x[r][c][puzzle[r][c] - 1]` of the cells
that hold a digit. -/
theorem clue_fixing (puzzle : Grid) (hwf : WellFormed puzzle) :
    (∀ r < 9, ∀ c < 9, ∀ d < 9,
      ∃ v, (buildModel puzzle).scip.vars[(buildModel puzzle).x_vars r c d]? = some v ∧
        (puzzle r c = (d : Int) + 1 → v.FixedTo 1) ∧
        (puzzle r c ≠ (d : Int) + 1 → v.lb = 0 ∧ v.ub = 1)) ∧
    (∀ h v, (buildModel puzzle).scip.vars[h]? = some v →
      (v.lb = v.ub ↔ ∃ r < 9, ∃ c < 9, 1 ≤ puzzle r c ∧
        h = (buildModel puzzle).x_vars r c (puzzle r c - 1).toNat)) := by
  constructor
  · intro r hr c hc d hd
    rw [buildModel_handle puzzle r c d hr hc hd]
    refine ⟨_, buildModel_var_getElem? puzzle hwf _ (by unfold handle; omega), ?_, ?_⟩
    · intro hp
      rw [fixedVarAt_handle puzzle r c d hc hd, if_pos ⟨by omega, by omega⟩]
      exact ⟨rfl, rfl⟩
    · intro hp
      rw [fixedVarAt_handle puzzle r c d hc hd, if_neg (by omega)]
      exact varAt_bounds _
  · intro h v hv
    obtain ⟨hh, rfl⟩ := buildModel_var_of_getElem? puzzle hwf h v hv
    have hr : h / 81 < 9 := by omega
    have hc : h / 9 % 9 < 9 := by omega
    have hd : h % 9 < 9 := by omega
    have eh : h = handle (h / 81) (h / 9 % 9) (h % 9) := by unfold handle; omega
    constructor
    · intro hfix
      by_cases hcond : puzzle (h / 81) (h / 9 % 9) > 0 ∧
          (puzzle (h / 81) (h / 9 % 9) - 1).toNat = h % 9
      · refine ⟨h / 81, hr, h / 9 % 9, hc, by omega, ?_⟩
        rw [hcond.2, buildModel_handle puzzle _ _ _ hr hc hd]
        exact eh
      · rw [fixedVarAt, if_neg hcond] at hfix
        rw [(varAt_bounds h).1, (varAt_bounds h).2] at hfix
        exact absurd hfix (by norm_num)
    · rintro ⟨r, hr', c, hc', hp, hh'⟩
      have h9 : puzzle r c ≤ 9 := by
        rcases hwf r hr' c hc' with h | h <;> omega
      rw [buildModel_handle puzzle r c _ hr' hc' (by omega)] at hh'
      rw [hh', fixedVarAt_handle puzzle r c _ hc' (by omega), if_pos ⟨by omega, rfl⟩]

/-- C8 at the puzzle of the end-to-end scenario. -/
theorem clue_fixing_witness :
    WellFormed classicPuzzle ∧
    ((∀ r < 9, ∀ c < 9, ∀ d < 9,
      ∃ v, (buildModel classicPuzzle).scip.vars[(buildModel classicPuzzle).x_vars r c d]?
          = some v ∧
        (classicPuzzle r c = (d : Int) + 1 → v.FixedTo 1) ∧
        (classicPuzzle r c ≠ (d : Int) + 1 → v.lb = 0 ∧ v.ub = 1)) ∧
    (∀ h v, (buildModel classicPuzzle).scip.vars[h]? = some v →
      (v.lb = v.ub ↔ ∃ r < 9, ∃ c < 9, 1 ≤ classicPuzzle r c ∧
        h = (buildModel classicPuzzle).x_vars r c (classicPuzzle r c - 1).toNat))) :=
  ⟨by decide, clue_fixing classicPuzzle (by decide)⟩

/-! ## The decoding loop -/

theorem forLoop_zero_succ {σ : Type} (n : Nat) (body : Nat → σ → σ) (s : σ) :
    forLoop 0 (n + 1) body s = body n (forLoop 0 n body s) := by
  have := forLoop_succ 0 n body s
  simpa using this

theorem Grid.set_self (g : Grid) (i j : Nat) : g.set i j (g i j) = g := by
  funext a b
  unfold Grid.set
  split
  · rename_i h; rw [h.1, h.2]
  · rfl

/-- The innermost loop only writes cell `(i, j)`. -/
theorem decode_inner (xv : XVars) (sol : Sol) (i j : Nat) (g : Grid) :
    forLoop 0 9 (fun k puzzle =>
        if sol (xv i j k) > 0 then puzzle.set i j (k + 1) else puzzle) g
      = g.set i j (scanCell (fun k => sol (xv i j k)) (g i j)) := by
  unfold scanCell
  refine forLoop_inv (fun n g' => g' = g.set i j
    (forLoop 0 n (fun k v => if sol (xv i j k) > 0 then (k : Int) + 1 else v) (g i j)))
    0 9 (by omega) _ g ?_ ?_
  · beta_reduce
    rw [forLoop_self, Grid.set_self]
  · intro k t _ _ ht
    beta_reduce
    rw [forLoop_zero_succ]
    by_cases hpos : sol (xv i j k) > 0
    · simp only [hpos, if_true, ht]
      funext a b
      unfold Grid.set
      split <;> simp_all
    · simp only [hpos, if_false, ht]

/-- The decoding loop, cell by cell. -/
theorem decode_apply (xv : XVars) (sol : Sol) (g : Grid) (a b : Nat) :
    decode xv sol g a b =
      if a < 9 ∧ b < 9 then scanCell (fun k => sol (xv a b k)) (g a b) else g a b := by
  unfold decode
  have key := forLoop_inv (fun i g' => ∀ a b, g' a b =
      if a < i ∧ b < 9 then scanCell (fun k => sol (xv a b k)) (g a b) else g a b)
    0 9 (by omega)
    (fun i => forLoop 0 9 (fun j => forLoop 0 9 (fun k puzzle =>
      if sol (xv i j k) > 0 then puzzle.set i j (k + 1) else puzzle))) g ?_ ?_
  · exact key a b
  · intro a b
    rw [if_neg (by omega)]
  · intro i t _ hi ht
    have row := forLoop_inv (fun j g' => ∀ a b, g' a b =
        if (a < i ∧ b < 9) ∨ (a = i ∧ b < j) then
          scanCell (fun k => sol (xv a b k)) (g a b) else g a b)
      0 9 (by omega)
      (fun j => forLoop 0 9 (fun k puzzle =>
        if sol (xv i j k) > 0 then puzzle.set i j (k + 1) else puzzle)) t ?_ ?_
    · intro a b
      beta_reduce
      rw [row a b]
      by_cases h : (a < i ∧ b < 9) ∨ (a = i ∧ b < 9)
      · rw [if_pos h, if_pos (by omega)]
      · rw [if_neg h, if_neg (by omega)]
    · intro a b
      rw [ht a b]
      by_cases h : a < i ∧ b < 9
      · rw [if_pos h, if_pos (Or.inl h)]
      · rw [if_neg h, if_neg (by omega)]
    · intro j u _ hj hu a b
      beta_reduce
      rw [decode_inner]
      unfold Grid.set
      by_cases hab : a = i ∧ b = j
      · obtain ⟨rfl, rfl⟩ := hab
        rw [if_pos ⟨rfl, rfl⟩, if_pos (by omega), hu a b, if_neg (by omega)]
      · rw [if_neg hab, hu a b]
        by_cases h : (a < i ∧ b < 9) ∨ (a = i ∧ b < j)
        · rw [if_pos h, if_pos (by omega)]
        · rw [if_neg h, if_neg (by omega)]

/-- No value above zero: the loop leaves the entry alone. -/
theorem scanCell_none (vals : Nat → ℚ) (v0 : Int) (h : ∀ k < 9, ¬ vals k > 0) :
    scanCell vals v0 = v0 := by
  unfold scanCell
  refine forLoop_inv (fun _ v => v = v0) 0 9 (by omega) _ v0 rfl ?_
  intro k v _ hk hv
  simp only [h k hk, if_false, hv]

/-- The highest index with a value above zero wins. -/
theorem scanCell_last (vals : Nat → ℚ) (v0 : Int) (k0 : Nat) (hk0 : k0 < 9)
    (hpos : vals k0 > 0) (hlast : ∀ k, k0 < k → k < 9 → ¬ vals k > 0) :
    scanCell vals v0 = (k0 : Int) + 1 := by
  unfold scanCell
  have key := forLoop_inv (fun n v => k0 < n → v = (k0 : Int) + 1) 0 9 (by omega)
    (fun k v => if vals k > 0 then (k : Int) + 1 else v) v0 (by omega) ?_
  · exact key hk0
  · intro k v _ hk hv hlt
    by_cases hkk : k = k0
    · subst hkk
      simp only [hpos, if_true]
    · have : k0 < k := by omega
      simp only [hlast k this hk, if_false]
      exact hv this

/-- The entry after the loop is the old one or comes from a value above zero. -/
theorem scanCell_cases (vals : Nat → ℚ) (v0 : Int) :
    scanCell vals v0 = v0 ∨ ∃ k < 9, vals k > 0 ∧ scanCell vals v0 = (k : Int) + 1 := by
  unfold scanCell
  refine forLoop_inv (fun n v => v = v0 ∨ ∃ k < n, vals k > 0 ∧ v = (k : Int) + 1)
    0 9 (by omega) _ v0 (Or.inl rfl) ?_
  intro k v _ hk hv
  by_cases hpos : vals k > 0
  · simp only [hpos, if_true]
    exact Or.inr ⟨k, by omega, hpos, rfl⟩
  · simp only [hpos, if_false]
    rcases hv with h | ⟨k', hk', h1, h2⟩
    · exact Or.inl h
    · exact Or.inr ⟨k', by omega, h1, h2⟩

/-! ## Claims on the decoder -/

/-- C9, as stated, fails: on the grid without clues and the solution vector
with `1/4` on `x[0][0][2]`, cell `(0, 0)` is assigned the digit 3 although the
value is not above `1/2`. -/
theorem decoder_half_threshold_counterexample :
    decode (buildModel blankGrid).x_vars quarterSol blankGrid 0 0 = ((2 : Nat) : Int) + 1 ∧
    blankGrid 0 0 ≠ ((2 : Nat) : Int) + 1 ∧
    ¬ quarterSol ((buildModel blankGrid).x_vars 0 0 2) > 1 / 2 := by
  have hx : ∀ k < 9, (buildModel blankGrid).x_vars 0 0 k = k := by
    intro k hk
    rw [buildModel_handle blankGrid 0 0 k (by omega) (by omega) hk]
    unfold handle; omega
  refine ⟨?_, by decide, ?_⟩
  · rw [decode_apply, if_pos (by omega)]
    apply scanCell_last _ _ 2 (by omega)
    · show quarterSol _ > 0
      rw [hx 2 (by omega)]
      norm_num [quarterSol]
    · intro k h1 h2
      show ¬ quarterSol _ > 0
      rw [hx k h2]
      have : k ≠ 2 := by omega
      simp [quarterSol, this]
  · rw [hx 2 (by omega)]
    norm_num [quarterSol]

/-- C9, amended: the decoder treats a solution value as set exactly when it is
above `0`: the value of `x[r][c][d]` makes the cell `d + 1` only if it is
strictly positive, and a strictly positive value with no strictly positive
value at a higher digit index of the cell does make the cell `d + 1`. -/
theorem decoder_zero_threshold (puzzle : Grid) (sol : Sol) (r c d : Nat) (hr : r < 9)
    (hc : c < 9) (hd : d < 9) :
    (decode (buildModel puzzle).x_vars sol puzzle r c = (d : Int) + 1 →
      puzzle r c ≠ (d : Int) + 1 → sol ((buildModel puzzle).x_vars r c d) > 0) ∧
    (sol ((buildModel puzzle).x_vars r c d) > 0 →
      (∀ d', d < d' → d' < 9 → ¬ sol ((buildModel puzzle).x_vars r c d') > 0) →
      decode (buildModel puzzle).x_vars sol puzzle r c = (d : Int) + 1) := by
  rw [decode_apply, if_pos ⟨hr, hc⟩]
  constructor
  · intro h1 h2
    rcases scanCell_cases (fun k => sol ((buildModel puzzle).x_vars r c k)) (puzzle r c)
      with h | ⟨k, _, hpos, hk⟩
    · rw [h] at h1; exact absurd h1 h2
    · rw [hk] at h1
      have : k = d := by omega
      rw [← this]; exact hpos
  · intro hpos hlast
    exact scanCell_last _ _ d hd hpos hlast

/-- C9, amended, at the grid without clues, the solution vector with `1/4` on
`x[0][0][2]`, cell `(0, 0)` and digit index 2. -/
theorem decoder_zero_threshold_witness :
    (0 < 9 ∧ 0 < 9 ∧ 2 < 9) ∧
    ((decode (buildModel blankGrid).x_vars quarterSol blankGrid 0 0 = ((2 : Nat) : Int) + 1 →
      blankGrid 0 0 ≠ ((2 : Nat) : Int) + 1 →
      quarterSol ((buildModel blankGrid).x_vars 0 0 2) > 0) ∧
    (quarterSol ((buildModel blankGrid).x_vars 0 0 2) > 0 →
      (∀ d', 2 < d' → d' < 9 → ¬ quarterSol ((buildModel blankGrid).x_vars 0 0 d') > 0) →
      decode (buildModel blankGrid).x_vars quarterSol blankGrid 0 0
        = ((2 : Nat) : Int) + 1)) :=
  ⟨by decide, decoder_zero_threshold blankGrid quarterSol 0 0 2 (by decide) (by decide)
    (by decide)⟩

theorem report_solved (puzzle : Grid) (sol : Sol) :
    report (buildModel puzzle) 11 sol
      = Output.solved (decode (buildModel puzzle).x_vars sol puzzle) := by
  unfold report
  rw [if_pos rfl, buildModel_puzzle]

/-- C10, as stated, fails: on the grid without clues and the solution vector
with the variables of the digits 1 and 2 of cell `(0, 0)` both at 1, the cell
has two set values and yet the program prints a decoded grid. -/
theorem decoder_onehot_check_counterexample :
    setCount (buildModel blankGrid).x_vars twoBitsSol 0 0 = 2 ∧
    report (buildModel blankGrid) 11 twoBitsSol
      = Output.solved (decode (buildModel blankGrid).x_vars twoBitsSol blankGrid) := by
  refine ⟨?_, report_solved blankGrid twoBitsSol⟩
  have hx : ∀ k ∈ List.range 9,
      decide (twoBitsSol ((buildModel blankGrid).x_vars 0 0 k) > 1 / 2) = decide (k < 2) := by
    intro k hk
    have hk := List.mem_range.mp hk
    rw [buildModel_handle blankGrid 0 0 k (by omega) (by omega) hk]
    apply decide_eq_decide.mpr
    have e : handle 0 0 k = k := by unfold handle; omega
    rw [e]
    unfold twoBitsSol
    by_cases h : k = 0 ∨ k = 1
    · rw [if_pos h]
      constructor
      · intro _; omega
      · intro _; norm_num
    · rw [if_neg h]
      constructor
      · intro h'; norm_num at h'
      · intro h'; omega
  unfold setCount
  rw [List.filter_congr hx]
  decide

/-- C10, amended: the decoding loop has no one-hot check and never fails: for
every solution vector the program prints the decoded grid, in which a cell
with no value above zero keeps its input entry and a cell with one or more
values above zero gets the digit of the highest such index. -/
theorem decoder_never_fails (puzzle : Grid) (sol : Sol) :
    report (buildModel puzzle) 11 sol
      = Output.solved (decode (buildModel puzzle).x_vars sol puzzle) ∧
    ∀ r < 9, ∀ c < 9,
      ((∀ d < 9, ¬ sol ((buildModel puzzle).x_vars r c d) > 0) →
        decode (buildModel puzzle).x_vars sol puzzle r c = puzzle r c) ∧
      (∀ d < 9, sol ((buildModel puzzle).x_vars r c d) > 0 →
        (∀ d', d < d' → d' < 9 → ¬ sol ((buildModel puzzle).x_vars r c d') > 0) →
        decode (buildModel puzzle).x_vars sol puzzle r c = (d : Int) + 1) := by
  refine ⟨report_solved puzzle sol, ?_⟩
  intro r hr c hc
  rw [decode_apply, if_pos ⟨hr, hc⟩]
  exact ⟨fun h => scanCell_none _ _ h, fun d hd hpos hlast => scanCell_last _ _ d hd hpos hlast⟩

/-! ## Sums of 0/1 values -/

theorem sum_zero_iff {α : Type} (l : List α) (f : α → ℚ)
    (hb : ∀ a ∈ l, f a = 0 ∨ f a = 1) : (l.map f).sum = 0 ↔ ∀ a ∈ l, f a = 0 := by
  induction l with
  | nil => simp
  | cons a l ih =>
    have hl : ∀ b ∈ l, f b = 0 ∨ f b = 1 := fun b hb' => hb b (List.mem_cons_of_mem a hb')
    have hnn : 0 ≤ (l.map f).sum := by
      apply List.sum_nonneg
      intro y hy
      obtain ⟨b, hb', rfl⟩ := List.mem_map.mp hy
      rcases hl b hb' with h | h
      · rw [h]
      · rw [h]; norm_num
    rw [List.map_cons, List.sum_cons]
    constructor
    · intro h
      have ha : f a = 0 := by
        rcases hb a (List.mem_cons_self a l) with h0 | h1
        · exact h0
        · rw [h1] at h; linarith
      rw [ha, zero_add] at h
      intro b hb'
      rcases List.mem_cons.mp hb' with rfl | hb''
      · exact ha
      · exact (ih hl).mp h b hb''
    · intro h
      rw [h a (List.mem_cons_self a l), zero_add]
      exact (ih hl).mpr (fun b hb' => h b (List.mem_cons_of_mem a hb'))

/-- A sum of 0/1 values over a list without repetition is 1 exactly when one
value is 1. -/
theorem sum_one_iff {α : Type} (l : List α) (f : α → ℚ)
    (hb : ∀ a ∈ l, f a = 0 ∨ f a = 1) (hnd : l.Nodup) :
    (l.map f).sum = 1 ↔ ExactlyOne l (fun a => f a = 1) := by
  induction l with
  | nil =>
    simp only [List.map_nil, List.sum_nil, ExactlyOne]
    constructor
    · intro h; norm_num at h
    · rintro ⟨a, ha, -⟩; simp at ha
  | cons a l ih =>
    have hl : ∀ b ∈ l, f b = 0 ∨ f b = 1 := fun b hb' => hb b (List.mem_cons_of_mem a hb')
    obtain ⟨hal, hnd'⟩ := List.nodup_cons.mp hnd
    rw [List.map_cons, List.sum_cons]
    rcases hb a (List.mem_cons_self a l) with h0 | h1
    · rw [h0, zero_add, ih hl hnd']
      constructor
      · rintro ⟨b, hb', hfb, huniq⟩
        refine ⟨b, List.mem_cons_of_mem a hb', hfb, ?_⟩
        intro c hc hfc
        rcases List.mem_cons.mp hc with rfl | hc'
        · rw [h0] at hfc; norm_num at hfc
        · exact huniq c hc' hfc
      · rintro ⟨b, hb', hfb, huniq⟩
        rcases List.mem_cons.mp hb' with rfl | hb''
        · rw [h0] at hfb; norm_num at hfb
        · exact ⟨b, hb'', hfb, fun c hc hfc => huniq c (List.mem_cons_of_mem a hc) hfc⟩
    · rw [h1]
      constructor
      · intro h
        have hz : (l.map f).sum = 0 := by linarith
        have hall := (sum_zero_iff l f hl).mp hz
        refine ⟨a, List.mem_cons_self a l, h1, ?_⟩
        intro c hc hfc
        rcases List.mem_cons.mp hc with rfl | hc'
        · rfl
        · rw [hall c hc'] at hfc; norm_num at hfc
      · rintro ⟨b, hb', hfb, huniq⟩
        have hba : a = b := huniq a (List.mem_cons_self a l) h1
        have hz : (l.map f).sum = 0 := by
          apply (sum_zero_iff l f hl).mpr
          intro c hc
          rcases hl c hc with h | h
          · exact h
          · have hca : c = b := huniq c (List.mem_cons_of_mem a hc) h
            rw [hca, ← hba] at hc
            exact absurd hc hal
        rw [hz]; norm_num

/-- A constraint with both sides 1 and unit coefficients holds exactly when
the values of its variables add up to 1. -/
theorem holds_unit {α : Type} (c : Cons) (x : Sol) (l : List α) (hf : α → Nat)
    (hl : c.lhs = 1) (hr : c.rhs = 1) (ht : c.terms = l.map (fun a => (hf a, (1 : ℚ)))) :
    c.Holds x ↔ (l.map (fun a => x (hf a))).sum = 1 := by
  have hact : c.activity x = (l.map (fun a => x (hf a))).sum := by
    unfold Cons.activity
    rw [ht, List.map_map]
    congr 1
    apply List.map_congr_left
    intro a _
    simp only [Function.comp, one_mul]
  unfold Cons.Holds
  rw [hl, hr, hact]
  constructor
  · rintro ⟨h1, h2⟩; exact le_antisymm h2 h1
  · intro h; rw [h]; exact ⟨le_refl _, le_refl _⟩

/-! ## Feasibility of the model, constraint by constraint -/

theorem mem_columnList (c : Cons) :
    c ∈ columnList handle 81 ↔ ∃ j < 9, ∃ k < 9, c = columnCons handle j k := by
  unfold columnList
  rw [List.mem_map]
  constructor
  · rintro ⟨n, hn, rfl⟩
    have := List.mem_range.mp hn
    exact ⟨n / 9, by omega, n % 9, by omega, rfl⟩
  · rintro ⟨j, hj, k, hk, rfl⟩
    refine ⟨9 * j + k, List.mem_range.mpr (by omega), ?_⟩
    have e1 : (9 * j + k) / 9 = j := by omega
    have e2 : (9 * j + k) % 9 = k := by omega
    rw [e1, e2]

theorem mem_rowList (c : Cons) :
    c ∈ rowList handle 81 ↔ ∃ i < 9, ∃ k < 9, c = rowCons handle i k := by
  unfold rowList
  rw [List.mem_map]
  constructor
  · rintro ⟨n, hn, rfl⟩
    have := List.mem_range.mp hn
    exact ⟨n / 9, by omega, n % 9, by omega, rfl⟩
  · rintro ⟨j, hj, k, hk, rfl⟩
    refine ⟨9 * j + k, List.mem_range.mpr (by omega), ?_⟩
    have e1 : (9 * j + k) / 9 = j := by omega
    have e2 : (9 * j + k) % 9 = k := by omega
    rw [e1, e2]

theorem mem_fillgridList (c : Cons) :
    c ∈ fillgridList handle 81 ↔ ∃ i < 9, ∃ j < 9, c = fillgridCons handle i j := by
  unfold fillgridList
  rw [List.mem_map]
  constructor
  · rintro ⟨n, hn, rfl⟩
    have := List.mem_range.mp hn
    exact ⟨n / 9, by omega, n % 9, by omega, rfl⟩
  · rintro ⟨j, hj, k, hk, rfl⟩
    refine ⟨9 * j + k, List.mem_range.mpr (by omega), ?_⟩
    have e1 : (9 * j + k) / 9 = j := by omega
    have e2 : (9 * j + k) % 9 = k := by omega
    rw [e1, e2]

theorem mem_subgridList (c : Cons) :
    c ∈ subgridList handle 81 ↔ ∃ k < 9, ∃ p < 3, ∃ q < 3, c = subgridCons handle k p q := by
  unfold subgridList
  rw [List.mem_map]
  constructor
  · rintro ⟨n, hn, rfl⟩
    have := List.mem_range.mp hn
    exact ⟨n / 9, by omega, n / 3 % 3, by omega, n % 3, by omega, rfl⟩
  · rintro ⟨k, hk, p, hp, q, hq, rfl⟩
    refine ⟨9 * k + 3 * p + q, List.mem_range.mpr (by omega), ?_⟩
    have e1 : (9 * k + 3 * p + q) / 9 = k := by omega
    have e2 : (9 * k + 3 * p + q) / 3 % 3 = p := by omega
    have e3 : (9 * k + 3 * p + q) % 3 = q := by omega
    rw [e1, e2, e3]

theorem mem_subgridIdx (p q : Nat) (cell : Nat × Nat) :
    cell ∈ subgridIdx p q ↔
      (3 * q ≤ cell.1 ∧ cell.1 < 3 * q + 3) ∧ (3 * p ≤ cell.2 ∧ cell.2 < 3 * p + 3) := by
  obtain ⟨i, j⟩ := cell
  simp only [subgridIdx, List.mem_flatMap, List.mem_map, List.mem_range'_1, Prod.mk.injEq]
  constructor
  · rintro ⟨b, hb, a, ha, rfl, rfl⟩; exact ⟨ha, hb⟩
  · rintro ⟨hi, hj⟩; exact ⟨j, hj, i, hi, rfl, rfl⟩

theorem nodup_subgridIdx (p q : Nat) (hp : p < 3) (hq : q < 3) : (subgridIdx p q).Nodup := by
  interval_cases p <;> interval_cases q <;> decide

theorem holds_column (x : Sol) (hbin : ∀ h < 729, x h = 0 ∨ x h = 1) (j k : Nat)
    (hj : j < 9) (hk : k < 9) :
    (columnCons handle j k).Holds x ↔
      ExactlyOne (List.range 9) (fun i => x (handle i j k) = 1) := by
  rw [holds_unit _ x (List.range 9) (fun i => handle i j k) (columnCons_sides _ _ _).1
    (columnCons_sides _ _ _).2 (columnCons_terms _ _ _)]
  apply sum_one_iff _ _ _ (List.nodup_range 9)
  intro i hi
  have := List.mem_range.mp hi
  exact hbin _ (by unfold handle; omega)

theorem holds_row (x : Sol) (hbin : ∀ h < 729, x h = 0 ∨ x h = 1) (i k : Nat)
    (hi : i < 9) (hk : k < 9) :
    (rowCons handle i k).Holds x ↔
      ExactlyOne (List.range 9) (fun j => x (handle i j k) = 1) := by
  rw [holds_unit _ x (List.range 9) (fun j => handle i j k) (rowCons_sides _ _ _).1
    (rowCons_sides _ _ _).2 (rowCons_terms _ _ _)]
  apply sum_one_iff _ _ _ (List.nodup_range 9)
  intro j hj
  have := List.mem_range.mp hj
  exact hbin _ (by unfold handle; omega)

theorem holds_fillgrid (x : Sol) (hbin : ∀ h < 729, x h = 0 ∨ x h = 1) (i j : Nat)
    (hi : i < 9) (hj : j < 9) :
    (fillgridCons handle i j).Holds x ↔
      ExactlyOne (List.range 9) (fun k => x (handle i j k) = 1) := by
  rw [holds_unit _ x (List.range 9) (fun k => handle i j k) (fillgridCons_sides _ _ _).1
    (fillgridCons_sides _ _ _).2 (fillgridCons_terms _ _ _)]
  apply sum_one_iff _ _ _ (List.nodup_range 9)
  intro k hk
  have := List.mem_range.mp hk
  exact hbin _ (by unfold handle; omega)

theorem holds_subgrid (x : Sol) (hbin : ∀ h < 729, x h = 0 ∨ x h = 1) (k p q : Nat)
    (hk : k < 9) (hp : p < 3) (hq : q < 3) :
    (subgridCons handle k p q).Holds x ↔
      ExactlyOne (subgridIdx p q) (fun cell => x (handle cell.1 cell.2 k) = 1) := by
  have ht : (subgridCons handle k p q).terms
      = (subgridIdx p q).map (fun cell => (handle cell.1 cell.2 k, (1 : ℚ))) := by
    rw [subgridCons_terms, subgridIdx, List.map_flatMap]
    apply List.flatMap_congr
    intro j _
    rw [List.map_map]
    rfl
  rw [holds_unit _ x (subgridIdx p q) (fun cell => handle cell.1 cell.2 k)
    (subgridCons_sides _ _ _ _).1 (subgridCons_sides _ _ _ _).2 ht]
  apply sum_one_iff _ _ _ (nodup_subgridIdx p q hp hq)
  intro cell hcell
  have := (mem_subgridIdx p q cell).mp hcell
  exact hbin _ (by unfold handle; omega)

theorem fixedVarAt_vtype (puzzle : Grid) (h : Nat) :
    (fixedVarAt puzzle h).vtype = VarType.binary := by
  unfold fixedVarAt
  split <;> rfl

/-- Feasibility of the model of `main` is the exact-cover condition. -/
theorem feasible_iff_exactCover (puzzle : Grid) (hwf : WellFormed puzzle) (x : Sol) :
    (buildModel puzzle).scip.Feasible x ↔ ExactCover puzzle x := by
  constructor
  · rintro ⟨hvars, hcons⟩
    have hbin : ∀ h < 729, x h = 0 ∨ x h = 1 := by
      intro h hh
      have := (hvars h _ (buildModel_var_getElem? puzzle hwf h hh)).2.2
      rw [fixedVarAt_vtype] at this
      exact this
    rw [buildModel_conss_closed] at hcons
    simp only [List.mem_append] at hcons
    refine ⟨hbin, ?_, ?_, ?_, ?_, ?_⟩
    · intro r hr c hc d hd hp
      have hh : handle r c d < 729 := by unfold handle; omega
      have := hvars _ _ (buildModel_var_getElem? puzzle hwf _ hh)
      rw [fixedVarAt_handle puzzle r c d hc hd, if_pos ⟨by omega, by omega⟩] at this
      exact le_antisymm this.2.1 this.1
    · intro c hc d hd
      exact (holds_column x hbin c d hc hd).mp
        (hcons _ (Or.inl (Or.inl (Or.inl ((mem_columnList _).mpr ⟨c, hc, d, hd, rfl⟩)))))
    · intro r hr d hd
      exact (holds_row x hbin r d hr hd).mp
        (hcons _ (Or.inl (Or.inl (Or.inr ((mem_rowList _).mpr ⟨r, hr, d, hd, rfl⟩)))))
    · intro d hd p hp q hq
      exact (holds_subgrid x hbin d p q hd hp hq).mp
        (hcons _ (Or.inl (Or.inr ((mem_subgridList _).mpr ⟨d, hd, p, hp, q, hq, rfl⟩))))
    · intro r hr c hc
      exact (holds_fillgrid x hbin r c hr hc).mp
        (hcons _ (Or.inr ((mem_fillgridList _).mpr ⟨r, hr, c, hc, rfl⟩)))
  · intro hE
    constructor
    · intro h v hv
      obtain ⟨hh, rfl⟩ := buildModel_var_of_getElem? puzzle hwf h v hv
      have eh : h = handle (h / 81) (h / 9 % 9) (h % 9) := by unfold handle; omega
      refine ⟨?_, ?_, ?_⟩
      · by_cases hcond : puzzle (h / 81) (h / 9 % 9) > 0 ∧
            (puzzle (h / 81) (h / 9 % 9) - 1).toNat = h % 9
        · have h1 := hE.clue (h / 81) (by omega) (h / 9 % 9) (by omega) (h % 9) (by omega)
            (by omega)
          rw [← eh] at h1
          rw [fixedVarAt, if_pos hcond, h1]
        · rw [fixedVarAt, if_neg hcond, (varAt_bounds h).1]
          rcases hE.binary h hh with h0 | h1
          · rw [h0]
          · rw [h1]; norm_num
      · have hub : (fixedVarAt puzzle h).ub = 1 := by
          unfold fixedVarAt
          split
          · rfl
          · exact (varAt_bounds h).2
        rw [hub]
        rcases hE.binary h hh with h0 | h1
        · rw [h0]; norm_num
        · rw [h1]
      · rw [fixedVarAt_vtype]
        exact hE.binary h hh
    · intro c hc
      rw [buildModel_conss_closed] at hc
      simp only [List.mem_append] at hc
      rcases hc with ((hc | hc) | hc) | hc
      · obtain ⟨j, hj, k, hk, rfl⟩ := (mem_columnList c).mp hc
        exact (holds_column x hE.binary j k hj hk).mpr (hE.column j hj k hk)
      · obtain ⟨i, hi, k, hk, rfl⟩ := (mem_rowList c).mp hc
        exact (holds_row x hE.binary i k hi hk).mpr (hE.row i hi k hk)
      · obtain ⟨k, hk, p, hp, q, hq, rfl⟩ := (mem_subgridList c).mp hc
        exact (holds_subgrid x hE.binary k p q hk hp hq).mpr (hE.subgrid k hk p hp q hq)
      · obtain ⟨i, hi, j, hj, rfl⟩ := (mem_fillgridList c).mp hc
        exact (holds_fillgrid x hE.binary i j hi hj).mpr (hE.fill i hi j hj)

/-! ## Contradicting clues -/

/-- C5: for a well-formed input grid with the same digit given in two
different columns of one row, the model of `main` has no feasible assignment;
the infeasible status makes the program print its check-the-input message. -/
theorem conflicting_row_clues_infeasible (puzzle : Grid) (hwf : WellFormed puzzle)
    (r c1 c2 : Nat) (hr : r < 9) (hc1 : c1 < 9) (hc2 : c2 < 9) (hne : c1 ≠ c2)
    (hclue : 1 ≤ puzzle r c1) (heq : puzzle r c1 = puzzle r c2) :
    (¬ ∃ x : Sol, (buildModel puzzle).scip.Feasible x) ∧
    ∀ sol : Sol, report (buildModel puzzle) 12 sol = Output.checkInput := by
  refine ⟨?_, fun sol => rfl⟩
  rintro ⟨x, hF⟩
  have hE := (feasible_iff_exactCover puzzle hwf x).mp hF
  have h9 : puzzle r c1 ≤ 9 := by
    rcases hwf r hr c1 hc1 with h | h <;> omega
  have hd : (puzzle r c1 - 1).toNat < 9 := by omega
  have h1 := hE.clue r hr c1 hc1 _ hd (by omega)
  have h2 := hE.clue r hr c2 hc2 _ hd (by omega)
  obtain ⟨a, -, -, huniq⟩ := hE.row r hr _ hd
  have e1 := huniq c1 (List.mem_range.mpr hc1) h1
  have e2 := huniq c2 (List.mem_range.mpr hc2) h2
  exact hne (e1.trans e2.symm)

/-- C5 at the grid with the digit 9 in columns 0 and 1 of row 0. -/
theorem conflicting_row_clues_infeasible_witness :
    (WellFormed twoNines ∧ 0 < 9 ∧ 0 < 9 ∧ 1 < 9 ∧ 0 ≠ 1 ∧ 1 ≤ twoNines 0 0 ∧
      twoNines 0 0 = twoNines 0 1) ∧
    ((¬ ∃ x : Sol, (buildModel twoNines).scip.Feasible x) ∧
      ∀ sol : Sol, report (buildModel twoNines) 12 sol = Output.checkInput) :=
  ⟨by decide, conflicting_row_clues_infeasible twoNines (by decide) 0 0 1 (by decide)
    (by decide) (by decide) (by decide) (by decide) (by decide)⟩

/-! ## From a valid grid to a feasible assignment -/

/-- Nine different digits are all the digits. -/
theorem pigeon9 (f : Nat → Int) (hrange : ∀ i < 9, 1 ≤ f i ∧ f i ≤ 9)
    (hinj : ∀ i < 9, ∀ j < 9, f i = f j → i = j) (d : Nat) (hd : d < 9) :
    ∃ i < 9, f i = (d : Int) + 1 := by
  let F : Fin 9 → Fin 9 := fun i => ⟨(f i - 1).toNat, by have := hrange i i.2; omega⟩
  have hF : Function.Injective F := by
    intro i j hij
    have h1 := hrange i i.2
    have h2 := hrange j j.2
    have h3 : (f i - 1).toNat = (f j - 1).toNat := congrArg Fin.val hij
    exact Fin.ext (hinj i i.2 j j.2 (by omega))
  obtain ⟨i, hi⟩ := Finite.surjective_of_injective hF ⟨d, hd⟩
  have h1 := hrange i i.2
  have h3 : (f i - 1).toNat = d := congrArg Fin.val hi
  exact ⟨i, i.2, by omega⟩

theorem encodeSol_binary (g : Grid) (h : Nat) : encodeSol g h = 0 ∨ encodeSol g h = 1 := by
  unfold encodeSol
  split
  · exact Or.inr rfl
  · exact Or.inl rfl

theorem encodeSol_handle (g : Grid) (r c d : Nat) (hr : r < 9) (hc : c < 9) (hd : d < 9) :
    encodeSol g (handle r c d) = 1 ↔ g r c = (d : Int) + 1 := by
  have e0 : handle r c d < 729 := by unfold handle; omega
  have e1 : handle r c d / 81 = r := by unfold handle; omega
  have e2 : handle r c d / 9 % 9 = c := by unfold handle; omega
  have e3 : handle r c d % 9 = d := by unfold handle; omega
  unfold encodeSol
  rw [e1, e2, e3]
  constructor
  · intro h
    by_contra hne
    rw [if_neg (fun hh => hne hh.2)] at h
    norm_num at h
  · intro h
    rw [if_pos ⟨e0, h⟩]

/-- The assignment of a valid grid that agrees with the clues satisfies the
exact-cover condition. -/
theorem exactCover_encodeSol (puzzle g : Grid) (hv : ValidGrid g) (ha : Agrees puzzle g) :
    ExactCover puzzle (encodeSol g) := by
  obtain ⟨hdig, hrow, hcol, hsub⟩ := hv
  refine ⟨fun h _ => encodeSol_binary g h, ?_, ?_, ?_, ?_, ?_⟩
  · intro r hr c hc d hd hp
    rw [encodeSol_handle g r c d hr hc hd, ha r hr c hc (by omega), hp]
  · intro c hc d hd
    obtain ⟨r, hr, hrd⟩ := pigeon9 (fun r => g r c) (fun i hi => hdig i hi c hc)
      (fun i hi j hj h => hcol c hc i hi j hj h) d hd
    refine ⟨r, List.mem_range.mpr hr, (encodeSol_handle g r c d hr hc hd).mpr hrd, ?_⟩
    intro b hb hfb
    have hb := List.mem_range.mp hb
    have := (encodeSol_handle g b c d hb hc hd).mp hfb
    exact hcol c hc b hb r hr (by rw [this]; exact hrd.symm)
  · intro r hr d hd
    obtain ⟨c, hc, hcd⟩ := pigeon9 (fun c => g r c) (fun j hj => hdig r hr j hj)
      (fun i hi j hj h => hrow r hr i hi j hj h) d hd
    refine ⟨c, List.mem_range.mpr hc, (encodeSol_handle g r c d hr hc hd).mpr hcd, ?_⟩
    intro b hb hfb
    have hb := List.mem_range.mp hb
    have := (encodeSol_handle g r b d hr hb hd).mp hfb
    exact hrow r hr b hb c hc (by rw [this]; exact hcd.symm)
  · intro d hd p hp q hq
    have eq1 : (3 * q + p) / 3 = q := by omega
    have eq2 : (3 * q + p) % 3 = p := by omega
    have hsub' := hsub (3 * q + p) (by omega)
    rw [eq1, eq2] at hsub'
    obtain ⟨s, hs, hsd⟩ := pigeon9 (fun s => g (3 * q + s / 3) (3 * p + s % 3))
      (fun i hi => hdig _ (by omega) _ (by omega))
      (fun i hi j hj h => hsub' i hi j hj h) d hd
    refine ⟨(3 * q + s / 3, 3 * p + s % 3), (mem_subgridIdx p q _).mpr (by simp only; omega),
      (encodeSol_handle g _ _ d (by omega) (by omega) hd).mpr hsd, ?_⟩
    rintro ⟨i, j⟩ hcell hfb
    have hm := (mem_subgridIdx p q (i, j)).mp hcell
    simp only at hm hfb
    have hij := (encodeSol_handle g i j d (by omega) (by omega) hd).mp hfb
    have ei : i = 3 * q + (3 * (i - 3 * q) + (j - 3 * p)) / 3 := by omega
    have ej : j = 3 * p + (3 * (i - 3 * q) + (j - 3 * p)) % 3 := by omega
    have hst := hsub' (3 * (i - 3 * q) + (j - 3 * p)) (by omega) s hs
      (by rw [← ei, ← ej, hij]; exact hsd.symm)
    rw [Prod.mk.injEq]
    omega
  · intro r hr c hc
    have h1 := hdig r hr c hc
    refine ⟨(g r c - 1).toNat, List.mem_range.mpr (by omega),
      (encodeSol_handle g r c _ hr hc (by omega)).mpr (by omega), ?_⟩
    intro b hb hfb
    have hb := List.mem_range.mp hb
    have := (encodeSol_handle g r c b hr hc hb).mp hfb
    omega

/-! ## From a feasible assignment to a valid grid -/

/-- Under the exact-cover condition the decoding loop reads off, in every
cell, the one digit whose variable is 1. -/
theorem decode_exactCover (puzzle : Grid) (x : Sol) (hE : ExactCover puzzle x) (xv : XVars)
    (hxv : ∀ a b c, a < 9 → b < 9 → c < 9 → xv a b c = handle a b c) (g0 : Grid)
    (r c d : Nat) (hr : r < 9) (hc : c < 9) (hd : d < 9) :
    decode xv x g0 r c = (d : Int) + 1 ↔ x (handle r c d) = 1 := by
  obtain ⟨d0, hd0m, hd0, huniq⟩ := hE.fill r hr c hc
  have hd0' : d0 < 9 := List.mem_range.mp hd0m
  have hzero : ∀ k < 9, k ≠ d0 → x (handle r c k) = 0 := by
    intro k hk hne
    rcases hE.binary (handle r c k) (by unfold handle; omega) with h | h
    · exact h
    · exact absurd (huniq k (List.mem_range.mpr hk) h) hne
  have hdec : decode xv x g0 r c = (d0 : Int) + 1 := by
    rw [decode_apply, if_pos ⟨hr, hc⟩]
    apply scanCell_last _ _ d0 hd0'
    · show x (xv r c d0) > 0
      rw [hxv r c d0 hr hc hd0', hd0]
      norm_num
    · intro k h1 h2
      show ¬ x (xv r c k) > 0
      rw [hxv r c k hr hc h2, hzero k h2 (by omega)]
      norm_num
  rw [hdec]
  constructor
  · intro h
    have : d0 = d := by omega
    rw [← this]; exact hd0
  · intro h
    have := huniq d (List.mem_range.mpr hd) h
    rw [this]

theorem decode_digit (puzzle : Grid) (x : Sol) (hE : ExactCover puzzle x) (xv : XVars)
    (hxv : ∀ a b c, a < 9 → b < 9 → c < 9 → xv a b c = handle a b c) (g0 : Grid)
    (r c : Nat) (hr : r < 9) (hc : c < 9) :
    ∃ d : Nat, d < 9 ∧ decode xv x g0 r c = (d : Int) + 1 ∧ x (handle r c d) = 1 := by
  obtain ⟨d0, hd0m, hd0, -⟩ := hE.fill r hr c hc
  have hd0' : d0 < 9 := List.mem_range.mp hd0m
  exact ⟨d0, hd0', (decode_exactCover puzzle x hE xv hxv g0 r c d0 hr hc hd0').mpr hd0, hd0⟩

/-- Under the exact-cover condition the decoded grid is a valid Sudoku that
agrees with the clues. -/
theorem decode_valid (puzzle : Grid) (hwf : WellFormed puzzle) (x : Sol)
    (hE : ExactCover puzzle x) (xv : XVars)
    (hxv : ∀ a b c, a < 9 → b < 9 → c < 9 → xv a b c = handle a b c) (g0 : Grid) :
    ValidGrid (decode xv x g0) ∧ Agrees puzzle (decode xv x g0) := by
  have hdig := decode_digit puzzle x hE xv hxv g0
  have hiff := decode_exactCover puzzle x hE xv hxv g0
  refine ⟨⟨?_, ?_, ?_, ?_⟩, ?_⟩
  · intro r hr c hc
    obtain ⟨d, hd, h1, -⟩ := hdig r c hr hc
    rw [h1]; omega
  · intro r hr c1 hc1 c2 hc2 h
    obtain ⟨d, hd, h1, hx1⟩ := hdig r c1 hr hc1
    have hx2 := (hiff r c2 d hr hc2 hd).mp (by rw [← h]; exact h1)
    obtain ⟨a, -, -, huniq⟩ := hE.row r hr d hd
    exact (huniq c1 (List.mem_range.mpr hc1) hx1).trans
      (huniq c2 (List.mem_range.mpr hc2) hx2).symm
  · intro c hc r1 hr1 r2 hr2 h
    obtain ⟨d, hd, h1, hx1⟩ := hdig r1 c hr1 hc
    have hx2 := (hiff r2 c d hr2 hc hd).mp (by rw [← h]; exact h1)
    obtain ⟨a, -, -, huniq⟩ := hE.column c hc d hd
    exact (huniq r1 (List.mem_range.mpr hr1) hx1).trans
      (huniq r2 (List.mem_range.mpr hr2) hx2).symm
  · intro b hb s hs t ht h
    have hr1 : 3 * (b / 3) + s / 3 < 9 := by omega
    have hc1 : 3 * (b % 3) + s % 3 < 9 := by omega
    have hr2 : 3 * (b / 3) + t / 3 < 9 := by omega
    have hc2 : 3 * (b % 3) + t % 3 < 9 := by omega
    obtain ⟨d, hd, h1, hx1⟩ := hdig _ _ hr1 hc1
    have hx2 := (hiff _ _ d hr2 hc2 hd).mp (by rw [← h]; exact h1)
    obtain ⟨a, -, -, huniq⟩ := hE.subgrid d hd (b % 3) (by omega) (b / 3) (by omega)
    have e1 := huniq (3 * (b / 3) + s / 3, 3 * (b % 3) + s % 3)
      ((mem_subgridIdx _ _ _).mpr (by simp only; omega)) hx1
    have e2 := huniq (3 * (b / 3) + t / 3, 3 * (b % 3) + t % 3)
      ((mem_subgridIdx _ _ _).mpr (by simp only; omega)) hx2
    have e := e1.trans e2.symm
    rw [Prod.mk.injEq] at e
    omega
  · intro r hr c hc hp
    have h9 : 1 ≤ puzzle r c ∧ puzzle r c ≤ 9 := by
      rcases hwf r hr c hc with h | h
      · exact absurd h hp
      · exact h
    have hd : (puzzle r c - 1).toNat < 9 := by omega
    have hx := hE.clue r hr c hc _ hd (by omega)
    rw [(hiff r c _ hr hc hd).mpr hx]
    omega

/-! ## Round trip and model correctness -/

theorem wellFormed_of_valid (g : Grid) (hg : ValidGrid g) : WellFormed g :=
  fun i hi j hj => Or.inr (hg.1 i hi j hj)

/-- C4: for every valid completed grid `G`, the model built with every cell of
`G` as a clue has a feasible assignment, and for every feasible assignment of
that model the decoding loop, started on `G` as `main` does, produces `G`. -/
theorem round_trip (G : Grid) (hG : ValidGrid G) :
    (∃ x : Sol, (buildModel G).scip.Feasible x) ∧
    ∀ x : Sol, (buildModel G).scip.Feasible x →
      decode (buildModel G).x_vars x G = G ∧
      report (buildModel G) 11 x = Output.solved G := by
  have hwf := wellFormed_of_valid G hG
  have hdec : ∀ x : Sol, (buildModel G).scip.Feasible x →
      decode (buildModel G).x_vars x G = G := by
    intro x hF
    have hE := (feasible_iff_exactCover G hwf x).mp hF
    funext a b
    by_cases hab : a < 9 ∧ b < 9
    · have hv := decode_valid G hwf x hE (buildModel G).x_vars (buildModel_handle G) G
      refine hv.2 a hab.1 b hab.2 ?_
      have := hG.1 a hab.1 b hab.2
      omega
    · rw [decode_apply, if_neg hab]
  constructor
  · exact ⟨encodeSol G, (feasible_iff_exactCover G hwf _).mpr
      (exactCover_encodeSol G G hG (fun _ _ _ _ _ => rfl))⟩
  · intro x hF
    refine ⟨hdec x hF, ?_⟩
    unfold report
    rw [if_pos rfl, buildModel_puzzle, hdec x hF]

set_option maxRecDepth 4000 in
/-- C4 at the completed grid of the end-to-end scenario. -/
theorem round_trip_witness :
    ValidGrid classicSolved ∧
    ((∃ x : Sol, (buildModel classicSolved).scip.Feasible x) ∧
    ∀ x : Sol, (buildModel classicSolved).scip.Feasible x →
      decode (buildModel classicSolved).x_vars x classicSolved = classicSolved ∧
      report (buildModel classicSolved) 11 x = Output.solved classicSolved) :=
  ⟨by decide, round_trip classicSolved (by decide)⟩

theorem Board.toGrid_apply (b : Board) (r c : Fin 9) : b.toGrid r c = b r c := by
  unfold Board.toGrid
  rw [dif_pos ⟨r.2, c.2⟩]

theorem Assignment.toSol_handle (a : Assignment) (r c d : Fin 9) :
    a.toSol (handle r c d) = a r c d := by
  have e0 : handle r c d < 729 := by unfold handle; omega
  have e1 : handle r c d / 81 = r := by unfold handle; omega
  have e2 : handle r c d / 9 % 9 = c := by unfold handle; omega
  have e3 : handle r c d % 9 = d := by unfold handle; omega
  unfold Assignment.toSol
  rw [dif_pos e0]
  congr 1 <;> exact Fin.ext (by assumption)

theorem encode_toSol (b : Board) : (encode b).toSol = encodeSol b.toGrid := by
  funext h
  unfold Assignment.toSol encodeSol
  by_cases hh : h < 729
  · rw [dif_pos hh]
    have hg : b.toGrid (h / 81) (h / 9 % 9)
        = b ⟨h / 81, by omega⟩ ⟨h / 9 % 9, by omega⟩ := by
      unfold Board.toGrid
      rw [dif_pos ⟨by omega, by omega⟩]
    rw [hg]
    unfold encode
    by_cases hb : b ⟨h / 81, by omega⟩ ⟨h / 9 % 9, by omega⟩ = ((h % 9 : Nat) : Int) + 1
    · rw [if_pos hb, if_pos ⟨hh, hb⟩]
    · rw [if_neg hb, if_neg (fun h' => hb h'.2)]
  · rw [dif_neg hh, if_neg (fun h' => hh h'.1)]

theorem validGrid_congr (g g' : Grid) (h : ∀ r < 9, ∀ c < 9, g r c = g' r c)
    (hv : ValidGrid g) : ValidGrid g' := by
  obtain ⟨hdig, hrow, hcol, hsub⟩ := hv
  refine ⟨?_, ?_, ?_, ?_⟩
  · intro r hr c hc
    rw [← h r hr c hc]; exact hdig r hr c hc
  · intro r hr c1 hc1 c2 hc2 he
    rw [← h r hr c1 hc1, ← h r hr c2 hc2] at he
    exact hrow r hr c1 hc1 c2 hc2 he
  · intro c hc r1 hr1 r2 hr2 he
    rw [← h r1 hr1 c hc, ← h r2 hr2 c hc] at he
    exact hcol c hc r1 hr1 r2 hr2 he
  · intro b hb s hs t ht he
    rw [← h _ (by omega) _ (by omega), ← h _ (by omega) _ (by omega)] at he
    exact hsub b hb s hs t ht he

theorem agrees_congr (puzzle g g' : Grid) (h : ∀ r < 9, ∀ c < 9, g r c = g' r c)
    (ha : Agrees puzzle g) : Agrees puzzle g' := by
  intro r hr c hc hp
  rw [← h r hr c hc]
  exact ha r hr c hc hp

/-- C1: for every well-formed input grid, `encode` (the variable `x[r][c][d]`
is 1 iff cell `(r, c)` holds the digit `d + 1`) is a bijection from the valid
completed grids that agree with the input on every clue cell onto the
assignments to the 729 variables that are feasible for the model of `main`:
0/1 values that satisfy the column, row, subgrid and fill-grid constraints
and the clue fixings. -/
theorem model_correct (puzzle : Grid) (hwf : WellFormed puzzle) :
    Set.BijOn encode
      {b : Board | ValidGrid b.toGrid ∧ Agrees puzzle b.toGrid}
      {a : Assignment | (buildModel puzzle).scip.Feasible a.toSol} ∧
    (∀ (a : Assignment) (r c d : Fin 9),
      a.toSol ((buildModel puzzle).x_vars r c d) = a r c d) ∧
    (∀ (b : Board) (r c d : Fin 9), encode b r c d = 1 ↔ b r c = ((d : Nat) : Int) + 1) ∧
    (∀ a : Assignment, (buildModel puzzle).scip.Feasible a.toSol →
      ∀ r c d : Fin 9, a r c d = 0 ∨ a r c d = 1) := by
  have henc : ∀ (b : Board) (r c d : Fin 9),
      encode b r c d = 1 ↔ b r c = ((d : Nat) : Int) + 1 := by
    intro b r c d
    unfold encode
    constructor
    · intro h
      by_contra hne
      rw [if_neg hne] at h
      norm_num at h
    · intro h
      rw [if_pos h]
  have hbin : ∀ a : Assignment, (buildModel puzzle).scip.Feasible a.toSol →
      ∀ r c d : Fin 9, a r c d = 0 ∨ a r c d = 1 := by
    intro a hF r c d
    have hE := (feasible_iff_exactCover puzzle hwf _).mp hF
    rw [← Assignment.toSol_handle a r c d]
    exact hE.binary _ (by unfold handle; omega)
  refine ⟨⟨?_, ?_, ?_⟩, ?_, henc, hbin⟩
  · intro b hb
    show (buildModel puzzle).scip.Feasible (encode b).toSol
    rw [encode_toSol]
    exact (feasible_iff_exactCover puzzle hwf _).mpr
      (exactCover_encodeSol puzzle b.toGrid hb.1 hb.2)
  · intro b1 hb1 b2 _ he
    funext r c
    have hd := hb1.1.1 r r.2 c c.2
    rw [Board.toGrid_apply] at hd
    have h1 : b1 r c = ((⟨(b1 r c - 1).toNat, by omega⟩ : Fin 9) : Nat) + 1 := by
      simp only
      omega
    have h2 := (henc b1 r c ⟨(b1 r c - 1).toNat, by omega⟩).mpr h1
    rw [he] at h2
    rw [(henc b2 r c _).mp h2]
    exact h1
  · intro a ha
    have hE := (feasible_iff_exactCover puzzle hwf _).mp ha
    have hv := decode_valid puzzle hwf a.toSol hE handle (fun _ _ _ _ _ _ => rfl) puzzle
    have hiff := decode_exactCover puzzle a.toSol hE handle (fun _ _ _ _ _ _ => rfl) puzzle
    let b : Board := fun r c => decode handle a.toSol puzzle r c
    have hb : ∀ r < 9, ∀ c < 9, decode handle a.toSol puzzle r c = b.toGrid r c := by
      intro r hr c hc
      exact (Board.toGrid_apply b ⟨r, hr⟩ ⟨c, hc⟩).symm
    refine ⟨b, ⟨validGrid_congr _ _ hb hv.1, agrees_congr _ _ _ hb hv.2⟩, ?_⟩
    funext r c d
    have hx := hiff r c d r.2 c.2 d.2
    rw [Assignment.toSol_handle] at hx
    rcases hbin a ha r c d with h0 | h1
    · rw [h0]
      unfold encode
      rw [if_neg]
      intro hcontra
      have := hx.mp hcontra
      rw [h0] at this
      norm_num at this
    · rw [h1]
      exact (henc b r c d).mpr (hx.mpr h1)
  · intro a r c d
    rw [buildModel_handle puzzle r c d r.2 c.2 d.2]
    exact Assignment.toSol_handle a r c d

/-- C1 at the puzzle of the end-to-end scenario. -/
theorem model_correct_witness :
    WellFormed classicPuzzle ∧
    (Set.BijOn encode
      {b : Board | ValidGrid b.toGrid ∧ Agrees classicPuzzle b.toGrid}
      {a : Assignment | (buildModel classicPuzzle).scip.Feasible a.toSol} ∧
    (∀ (a : Assignment) (r c d : Fin 9),
      a.toSol ((buildModel classicPuzzle).x_vars r c d) = a r c d) ∧
    (∀ (b : Board) (r c d : Fin 9), encode b r c d = 1 ↔ b r c = ((d : Nat) : Int) + 1) ∧
    (∀ a : Assignment, (buildModel classicPuzzle).scip.Feasible a.toSol →
      ∀ r c d : Fin 9, a r c d = 0 ∨ a r c d = 1)) :=
  ⟨by decide, model_correct classicPuzzle (by decide)⟩

/-! ## More on the decoder and the status dispatch -/

theorem encodeSol_oneHot (g : Grid) (hg : AllDigits g) (xv : XVars)
    (hxv : ∀ a b c, a < 9 → b < 9 → c < 9 → xv a b c = handle a b c) :
    OneHot xv (encodeSol g) := by
  intro r hr c hc
  have h1 := hg r hr c hc
  have hd : (g r c - 1).toNat < 9 := by omega
  refine ⟨(g r c - 1).toNat, hd, ?_, ?_⟩
  · rw [hxv r c _ hr hc hd]
    exact (encodeSol_handle g r c _ hr hc hd).mpr (by omega)
  · intro d' hd' hne
    rw [hxv r c d' hr hc hd']
    rcases encodeSol_binary g (handle r c d') with h | h
    · exact h
    · have := (encodeSol_handle g r c d' hr hc hd').mp h
      omega

/-- C11: for every solution vector that is one-hot on every cell, the decoding
loop sets every cell `(r, c)` to `d + 1` for the one `d` whose variable is 1,
whatever grid `start` the loop begins with; the decoded grid holds digits
`1..9` only. -/
theorem decode_one_hot (puzzle : Grid) (sol : Sol) (start : Grid)
    (hone : OneHot (buildModel puzzle).x_vars sol) :
    (∀ r < 9, ∀ c < 9, ∀ d : Nat, d < 9 → sol ((buildModel puzzle).x_vars r c d) = 1 →
      decode (buildModel puzzle).x_vars sol start r c = (d : Int) + 1) ∧
    AllDigits (decode (buildModel puzzle).x_vars sol start) := by
  have key : ∀ r < 9, ∀ c < 9, ∀ d : Nat, d < 9 →
      sol ((buildModel puzzle).x_vars r c d) = 1 →
      decode (buildModel puzzle).x_vars sol start r c = (d : Int) + 1 := by
    intro r hr c hc d hd h1
    obtain ⟨d0, hd0, h0, hz⟩ := hone r hr c hc
    have hdd : d = d0 := by
      by_contra hne
      rw [hz d hd hne] at h1
      norm_num at h1
    subst hdd
    rw [decode_apply, if_pos ⟨hr, hc⟩]
    apply scanCell_last _ _ d hd
    · show sol _ > 0
      rw [h1]; norm_num
    · intro k hk1 hk2
      show ¬ sol _ > 0
      rw [hz k hk2 (by omega)]
      norm_num
  refine ⟨key, ?_⟩
  intro r hr c hc
  obtain ⟨d0, hd0, h0, -⟩ := hone r hr c hc
  rw [key r hr c hc d0 hd0 h0]
  omega

set_option maxRecDepth 4000 in
/-- C11 at the assignment of the completed grid of the end-to-end scenario,
decoded onto the grid without clues. -/
theorem decode_one_hot_witness :
    OneHot (buildModel classicPuzzle).x_vars (encodeSol classicSolved) ∧
    ((∀ r < 9, ∀ c < 9, ∀ d : Nat, d < 9 →
      encodeSol classicSolved ((buildModel classicPuzzle).x_vars r c d) = 1 →
      decode (buildModel classicPuzzle).x_vars (encodeSol classicSolved) blankGrid r c
        = (d : Int) + 1) ∧
    AllDigits (decode (buildModel classicPuzzle).x_vars (encodeSol classicSolved) blankGrid)) :=
  ⟨encodeSol_oneHot classicSolved (by decide) _ (buildModel_handle classicPuzzle),
   decode_one_hot classicPuzzle (encodeSol classicSolved) blankGrid
    (encodeSol_oneHot classicSolved (by decide) _ (buildModel_handle classicPuzzle))⟩

/-- Among finitely many indices with a property there is a last one. -/
theorem exists_last (P : Nat → Prop) (n : Nat) (h : ∃ d, d < n ∧ P d) :
    ∃ k, k < n ∧ P k ∧ ∀ k', k < k' → k' < n → ¬ P k' := by
  induction n with
  | zero => obtain ⟨d, hd, -⟩ := h; omega
  | succ n ih =>
    by_cases hn : P n
    · exact ⟨n, by omega, hn, fun k' h1 h2 => by omega⟩
    · obtain ⟨d, hd, hPd⟩ := h
      have hdn : d < n := by
        rcases Nat.lt_or_ge d n with h' | h'
        · exact h'
        · have : d = n := by omega
          rw [this] at hPd
          exact absurd hPd hn
      obtain ⟨k, hk, hPk, hlast⟩ := ih ⟨d, hdn, hPd⟩
      refine ⟨k, by omega, hPk, ?_⟩
      intro k' h1 h2
      by_cases hk' : k' = n
      · rw [hk']; exact hn
      · exact hlast k' h1 (by omega)

/-- C18: on an arbitrary solution vector the decoding loop never fails and
works cell by cell: a cell with a value above zero among its nine is set to
`k + 1` for the largest index `k` whose value is above zero, and a cell with
none keeps the entry of the input grid, a clue or the blank `-1`. -/
theorem decode_arbitrary (puzzle : Grid) (sol : Sol) :
    (∃ g : Grid, report (buildModel puzzle) 11 sol = Output.solved g ∧
      g = decode (buildModel puzzle).x_vars sol puzzle) ∧
    ∀ r < 9, ∀ c < 9,
      ((∃ d : Nat, d < 9 ∧ sol ((buildModel puzzle).x_vars r c d) > 0) →
        ∃ k : Nat, k < 9 ∧ sol ((buildModel puzzle).x_vars r c k) > 0 ∧
          (∀ k' : Nat, k < k' → k' < 9 → ¬ sol ((buildModel puzzle).x_vars r c k') > 0) ∧
          decode (buildModel puzzle).x_vars sol puzzle r c = (k : Int) + 1) ∧
      ((∀ d : Nat, d < 9 → ¬ sol ((buildModel puzzle).x_vars r c d) > 0) →
        decode (buildModel puzzle).x_vars sol puzzle r c = puzzle r c) := by
  refine ⟨⟨_, report_solved puzzle sol, rfl⟩, ?_⟩
  intro r hr c hc
  rw [decode_apply, if_pos ⟨hr, hc⟩]
  constructor
  · intro h
    obtain ⟨k, hk, hpos, hlast⟩ :=
      exists_last (fun d => sol ((buildModel puzzle).x_vars r c d) > 0) 9 h
    exact ⟨k, hk, hpos, hlast, scanCell_last _ _ k hk hpos hlast⟩
  · intro h
    exact scanCell_none _ _ h

/-- C16, as stated, fails: on status 5 (time limit reached) the program prints
nothing at all, neither a grid nor a message. -/
theorem status_dispatch_counterexample :
    report (buildModel classicPuzzle) 5 quarterSol = Output.nothing :=
  rfl

/-- C16, amended: status 11 yields the decoded grid, status 12 yields the
check-the-input message, and every other status yields no output at all; the
program has no solver-error outcome. -/
theorem status_dispatch (st : MainState) (soln_status : Nat) (sol : Sol) :
    (soln_status = 11 →
      report st soln_status sol = Output.solved (decode st.x_vars sol st.puzzle)) ∧
    (soln_status = 12 → report st soln_status sol = Output.checkInput) ∧
    (soln_status ≠ 11 → soln_status ≠ 12 → report st soln_status sol = Output.nothing) := by
  unfold report
  refine ⟨?_, ?_, ?_⟩
  · intro h; rw [if_pos h]
  · intro h; rw [if_neg (by omega), if_pos h]
  · intro h1 h2; rw [if_neg h1, if_neg h2]

/-! ## The grid loader -/

theorem isDigit_bounds (c : Char) (h : c.isDigit = true) : 48 ≤ c.toNat ∧ c.toNat ≤ 57 := by
  simp only [Char.isDigit, Bool.and_eq_true, decide_eq_true_eq] at h
  obtain ⟨h1, h2⟩ := h
  have h1' : (48 : UInt32).toNat ≤ c.val.toNat := h1
  have h2' : c.val.toNat ≤ (57 : UInt32).toNat := h2
  exact ⟨h1', h2'⟩

theorem isspace_not_digit (c : Char) (h : isspace c = true) : c.isDigit = false := by
  unfold isspace at h
  rcases of_decide_eq_true h with h | h | h | h | h | h <;> (subst h; decide)

/-- The conversion `std::stoi` on a string of one character. -/
theorem stoi_single (c : Char) :
    stoi [c] = if c.isDigit = true then Except.ok ((c.toNat : Int) - 48)
      else Except.error StdException.invalid_argument := by
  unfold stoi
  by_cases hs : isspace c = true
  · have hd := isspace_not_digit c hs
    simp [List.dropWhile, hs, hd]
  · by_cases hsign : c = '-' ∨ c = '+'
    · have hd : c.isDigit = false := by
        rcases hsign with h | h <;> (subst h; decide)
      simp [List.dropWhile, hs, hd, hsign]
    · have h1 : ¬ c = '-' := fun h => hsign (Or.inl h)
      have h2 : ¬ c = '+' := fun h => hsign (Or.inr h)
      by_cases hd : c.isDigit = true
      · have hb := isDigit_bounds c hd
        simp only [List.dropWhile, List.takeWhile, hs, hd, h1, h2, List.head?_cons,
          Option.some.injEq, or_self, if_false, if_true, List.foldl_cons, List.foldl_nil,
          mul_zero, zero_add, reduceCtorEq]
        rw [if_neg (by omega)]
        congr 1
        omega
      · simp [List.dropWhile, List.takeWhile, hs, hd, h1, h2]

/-- The body of the loader, by the character at `idx`. -/
theorem loadCell_eq (pd : List Char) (i j : Nat) (st : LoadState) :
    loadCell pd i j st =
      match pd[st.idx]? with
      | some c =>
        if Accepted c then
          Except.ok { puzzle := st.puzzle.set i j (cellValue c), idx := st.idx + 1 }
        else Except.error (Abort.thrown StdException.invalid_argument st.idx)
      | none =>
        if st.idx = pd.length then
          Except.error (Abort.thrown StdException.invalid_argument st.idx)
        else Except.error (Abort.thrown StdException.out_of_range st.idx) := by
  unfold loadCell substr
  by_cases hlt : st.idx < pd.length
  · have hget : pd[st.idx]? = some pd[st.idx] := List.getElem?_eq_getElem hlt
    have hsub : (pd.drop st.idx).take 1 = [pd[st.idx]] := by
      rw [List.drop_eq_getElem_cons hlt]
      rfl
    rw [if_neg (by omega), hget, hsub]
    simp only
    by_cases hdot : pd[st.idx] = '.'
    · have hacc : Accepted pd[st.idx] := Or.inl hdot
      rw [if_neg (by simp [hdot]), if_pos hacc]
      simp [cellValue, hdot]
    · by_cases hzero : pd[st.idx] = '0'
      · have hacc : Accepted pd[st.idx] := Or.inr (by rw [hzero]; decide)
        rw [if_neg (by simp [hzero]), if_pos hacc]
        simp [cellValue, hzero]
      · rw [if_pos (by simp [hdot, hzero]), stoi_single]
        by_cases hd : pd[st.idx].isDigit = true
        · have hacc : Accepted pd[st.idx] := Or.inr hd
          rw [if_pos hd, if_pos hacc]
          simp [cellValue, hdot, hzero]
        · have hacc : ¬ Accepted pd[st.idx] := by
            rintro (h | h)
            · exact hdot h
            · exact hd h
          rw [if_neg hd, if_neg hacc]
  · have hget : pd[st.idx]? = none := List.getElem?_eq_none (by omega)
    rw [hget]
    simp only
    by_cases heq : st.idx = pd.length
    · rw [if_neg (by omega), if_pos heq]
      have hsub : (pd.drop st.idx).take 1 = [] := by
        rw [heq, List.drop_length]
        rfl
      rw [hsub]
      rfl
    · rw [if_pos (by omega), if_neg heq]

theorem loadCell_inv (pd : List Char) (i j : Nat) (hj : j < 9)
    (acc : Except Abort LoadState) (h : LoadInv pd (9 * i + j) acc) :
    LoadInv pd (9 * i + (j + 1)) (acc.bind (loadCell pd i j)) := by
  intro st' hst'
  cases acc with
  | error e => simp [Except.bind] at hst'
  | ok st =>
    obtain ⟨hidx, hcells⟩ := h st rfl
    simp only [Except.bind] at hst'
    rw [loadCell_eq, hidx] at hst'
    cases hget : pd[9 * i + j]? with
    | none =>
      rw [hget] at hst'
      simp only at hst'
      split at hst' <;> simp at hst'
    | some c =>
      rw [hget] at hst'
      simp only at hst'
      by_cases hacc : Accepted c
      · rw [if_pos hacc] at hst'
        have hst'' := Except.ok.inj hst'
        subst hst''
        refine ⟨by simp only; omega, ?_⟩
        intro a b hb hlt
        by_cases hab : a = i ∧ b = j
        · obtain ⟨rfl, rfl⟩ := hab
          exact ⟨c, hget, hacc, by simp [Grid.set]⟩
        · obtain ⟨c', h1, h2, h3⟩ := hcells a b hb (by omega)
          refine ⟨c', h1, h2, ?_⟩
          simp only [Grid.set, if_neg hab]
          exact h3
      · rw [if_neg hacc] at hst'
        simp at hst'

/-- The two loops of the loader, when they end without an exception. -/
theorem loadCells_inv (pd : List Char) : LoadInv pd 81 (loadCells pd) := by
  unfold loadCells forLoopE
  refine forLoop_inv (fun i acc => LoadInv pd (9 * i) acc) 0 9 (by omega) _ _ ?_ ?_
  · intro st hst
    have := Except.ok.inj hst
    subst this
    exact ⟨rfl, fun a b _ h => by omega⟩
  · intro i acc _ hi hacc
    beta_reduce
    cases acc with
    | error e =>
      intro st hst
      simp [Except.bind] at hst
    | ok st =>
      show LoadInv pd (9 * (i + 1))
        (forLoop 0 9 (fun j acc => acc.bind (loadCell pd i j)) (Except.ok st))
      have := forLoop_inv (fun j acc => LoadInv pd (9 * i + j) acc) 0 9 (by omega)
        (fun j acc => acc.bind (loadCell pd i j)) (Except.ok st) (by simpa using hacc) ?_
      · have e : 9 * (i + 1) = 9 * i + 9 := by omega
        rw [e]; exact this
      · intro j acc _ hj h
        exact loadCell_inv pd i j hj acc h

theorem loadCell_ok (pd : List Char) (i j : Nat) (st : LoadState) (c : Char)
    (hget : pd[st.idx]? = some c) (hacc : Accepted c) :
    loadCell pd i j st
      = Except.ok { puzzle := st.puzzle.set i j (cellValue c), idx := st.idx + 1 } := by
  rw [loadCell_eq, hget]
  simp only
  rw [if_pos hacc]

/-- On 81 accepted characters the two loops of the loader end without an
exception. -/
theorem loadCells_ok (pd : List Char)
    (h : ∀ m < 81, ∃ c, pd[m]? = some c ∧ Accepted c) :
    ∃ st, loadCells pd = Except.ok st := by
  have key : ∃ st, loadCells pd = Except.ok st ∧ st.idx = 81 := by
    unfold loadCells forLoopE
    refine forLoop_inv (fun i acc => ∃ st : LoadState, acc = Except.ok st ∧ st.idx = 9 * i)
      0 9 (by omega) _ _ ⟨_, rfl, rfl⟩ ?_
    intro i acc _ hi hacc
    obtain ⟨st, rfl, hidx⟩ := hacc
    show ∃ st' : LoadState,
      forLoop 0 9 (fun j acc => acc.bind (loadCell pd i j)) (Except.ok st) = Except.ok st' ∧
        st'.idx = 9 * (i + 1)
    have := forLoop_inv
      (fun j acc => ∃ st : LoadState, acc = Except.ok st ∧ st.idx = 9 * i + j)
      0 9 (by omega) (fun j acc => acc.bind (loadCell pd i j)) (Except.ok st)
      ⟨st, rfl, by omega⟩ ?_
    · have e : 9 * (i + 1) = 9 * i + 9 := by omega
      rw [e]; exact this
    · intro j acc _ hj hacc
      obtain ⟨st', rfl, hidx'⟩ := hacc
      obtain ⟨c, hget, hc⟩ := h (9 * i + j) (by omega)
      rw [← hidx'] at hget
      show ∃ st : LoadState, loadCell pd i j st' = Except.ok st ∧ st.idx = 9 * i + (j + 1)
      rw [loadCell_ok pd i j st' c hget hc]
      exact ⟨_, rfl, by simp only; omega⟩
  obtain ⟨st, hst, -⟩ := key
  exact ⟨st, hst⟩

theorem cellValue_range (c : Char) (hacc : Accepted c) :
    cellValue c = -1 ∨ (1 ≤ cellValue c ∧ cellValue c ≤ 9) := by
  unfold cellValue
  by_cases h : c = '.' ∨ c = '0'
  · rw [if_pos h]; exact Or.inl rfl
  · rw [if_neg h]
    right
    have hd : c.isDigit = true := by
      rcases hacc with h1 | h1
      · exact absurd (Or.inl h1) h
      · exact h1
    have hb := isDigit_bounds c hd
    have hne : c.toNat ≠ 48 := by
      intro h48
      apply h
      right
      rw [← Char.ofNat_toNat c, h48]
    omega

/-- When the loader returns a grid, the file was open, its first line has 81
characters, and the grid is the one the two loops leave. -/
theorem get_sudoku_grid_ok (infile : Option (List Char)) (g : Grid)
    (h : get_sudoku_grid infile = Except.ok g) :
    ∃ content, infile = some content ∧ (getline content).length = 81 ∧
      ∃ st, loadCells (getline content) = Except.ok st ∧ g = st.puzzle := by
  cases infile with
  | none =>
    exfalso
    unfold get_sudoku_grid at h
    simp only at h
    cases hl : loadCells [] with
    | error e => rw [hl] at h; simp at h
    | ok st =>
      have hinv := loadCells_inv []
      rw [hl] at hinv
      obtain ⟨-, hcells⟩ := hinv st rfl
      obtain ⟨c, hc, -⟩ := hcells 0 0 (by omega) (by omega)
      simp at hc
  | some content =>
    refine ⟨content, rfl, ?_⟩
    unfold get_sudoku_grid at h
    simp only at h
    by_cases hlen : (getline content).length = 81
    · refine ⟨hlen, ?_⟩
      rw [if_neg (by simpa using hlen)] at h
      simp only at h
      cases hl : loadCells (getline content) with
      | error e => rw [hl] at h; simp at h
      | ok st =>
        rw [hl] at h
        simp only at h
        exact ⟨st, rfl, (Except.ok.inj h).symm⟩
    · rw [if_pos hlen] at h
      simp at h

/-- The grid that the loader returns, cell by cell. -/
theorem get_sudoku_grid_cells (infile : Option (List Char)) (g : Grid)
    (h : get_sudoku_grid infile = Except.ok g) :
    ∃ content, infile = some content ∧ (getline content).length = 81 ∧
      ∀ i < 9, ∀ j < 9, ∃ c, (getline content)[9 * i + j]? = some c ∧ Accepted c ∧
        g i j = cellValue c := by
  obtain ⟨content, rfl, hlen, st, hst, rfl⟩ := get_sudoku_grid_ok infile g h
  refine ⟨content, rfl, hlen, ?_⟩
  intro i hi j hj
  have hinv := loadCells_inv (getline content)
  rw [hst] at hinv
  exact (hinv st rfl).2 i j hj (by omega)

/-- On a first line of 81 accepted characters the loader returns a grid. -/
theorem get_sudoku_grid_returns (content : List Char) (hlen : (getline content).length = 81)
    (hchars : ∀ c ∈ getline content, Accepted c) :
    ∃ g, get_sudoku_grid (some content) = Except.ok g := by
  have hall : ∀ m < 81, ∃ c, (getline content)[m]? = some c ∧ Accepted c := by
    intro m hm
    have hlt : m < (getline content).length := by omega
    exact ⟨_, List.getElem?_eq_getElem hlt, hchars _ (List.getElem_mem hlt)⟩
  obtain ⟨st, hst⟩ := loadCells_ok (getline content) hall
  refine ⟨st.puzzle, ?_⟩
  unfold get_sudoku_grid
  simp only
  rw [if_neg (by simpa using hlen)]
  simp only
  rw [hst]

theorem main_of_load_error (argv : List String) (fs : String → Option (List Char))
    (solve : Scip → Nat × Sol) (a : Abort) (hargs : 2 ≤ argv.length)
    (h : get_sudoku_grid (fs (argv.getD 1 "")) = Except.error a) :
    main argv fs solve = Except.error a := by
  unfold main
  rw [if_neg (by omega), h]

theorem main_of_load_ok (argv : List String) (fs : String → Option (List Char))
    (solve : Scip → Nat × Sol) (g : Grid) (hargs : 2 ≤ argv.length)
    (h : get_sudoku_grid (fs (argv.getD 1 "")) = Except.ok g) :
    main argv fs solve = Except.ok (buildModel g,
      report (buildModel g) (solve (buildModel g).scip).1 (solve (buildModel g).scip).2) := by
  unfold main
  rw [if_neg (by omega), h]

theorem get_sudoku_grid_wrong_length (content : List Char)
    (h : (getline content).length ≠ 81) :
    get_sudoku_grid (some content) = Except.error (Abort.exit 1) := by
  unfold get_sudoku_grid
  simp only
  rw [if_pos h]

/-! ## Claims on the loader -/

/-- C12: for every file whose first line does not have 81 characters, the
loader ends the run with `exit(1)` and returns no grid; `main` then ends the
same way, before the variable loop, so no variable is created. -/
theorem wrong_length_exits (content : List Char) (h : (getline content).length ≠ 81) :
    get_sudoku_grid (some content) = Except.error (Abort.exit 1) ∧
    ∀ (argv : List String) (fs : String → Option (List Char)) (solve : Scip → Nat × Sol),
      2 ≤ argv.length → fs (argv.getD 1 "") = some content →
        main argv fs solve = Except.error (Abort.exit 1) ∧
        varsCreated (main argv fs solve) = 0 := by
  have h1 := get_sudoku_grid_wrong_length content h
  refine ⟨h1, ?_⟩
  intro argv fs solve hargs hfs
  have hm := main_of_load_error argv fs solve (Abort.exit 1) hargs (by rw [hfs]; exact h1)
  refine ⟨hm, ?_⟩
  rw [hm]
  rfl

/-- C12 at a file whose line is `123`. -/
theorem wrong_length_exits_witness :
    (getline "123".toList).length ≠ 81 ∧
    (get_sudoku_grid (some "123".toList) = Except.error (Abort.exit 1) ∧
    ∀ (argv : List String) (fs : String → Option (List Char)) (solve : Scip → Nat × Sol),
      2 ≤ argv.length → fs (argv.getD 1 "") = some "123".toList →
        main argv fs solve = Except.error (Abort.exit 1) ∧
        varsCreated (main argv fs solve) = 0) :=
  ⟨by decide, wrong_length_exits "123".toList (by decide)⟩

/-- C13: for every file whose first line has 81 characters, each a digit or
`.`, the loader returns a grid in row-major order: cell `(i, j)` is `-1` when
character `9 i + j` is `.` or `0`, and the numeric value of the character, a
digit `1..9`, otherwise. -/
theorem loads_row_major (content : List Char) (hlen : (getline content).length = 81)
    (hchars : ∀ c ∈ getline content, Accepted c) :
    ∃ g, get_sudoku_grid (some content) = Except.ok g ∧
      ∀ i < 9, ∀ j < 9, ∃ c, (getline content)[9 * i + j]? = some c ∧
        (c = '.' ∨ c = '0' → g i j = -1) ∧
        (c ≠ '.' → c ≠ '0' → g i j = (c.toNat : Int) - 48 ∧ 1 ≤ g i j ∧ g i j ≤ 9) := by
  obtain ⟨g, hg⟩ := get_sudoku_grid_returns content hlen hchars
  refine ⟨g, hg, ?_⟩
  obtain ⟨content', hc', -, hcells⟩ := get_sudoku_grid_cells _ g hg
  have hcc : content' = content := (Option.some.inj hc').symm
  subst hcc
  intro i hi j hj
  obtain ⟨c, hget, hacc, hval⟩ := hcells i hi j hj
  refine ⟨c, hget, ?_, ?_⟩
  · intro h
    rw [hval, cellValue, if_pos h]
  · intro h1 h2
    have hr := cellValue_range c hacc
    have hv : cellValue c = (c.toNat : Int) - 48 := by
      rw [cellValue, if_neg (by tauto)]
    rw [hval]
    refine ⟨hv, ?_⟩
    have hb : 48 ≤ c.toNat := by
      rcases hacc with h | h
      · exact absurd h h1
      · exact (isDigit_bounds c h).1
    omega

/-- C13 at the 81 characters of the classic puzzle. -/
theorem loads_row_major_witness :
    ((getline classicLine).length = 81 ∧ ∀ c ∈ getline classicLine, Accepted c) ∧
    ∃ g, get_sudoku_grid (some classicLine) = Except.ok g ∧
      ∀ i < 9, ∀ j < 9, ∃ c, (getline classicLine)[9 * i + j]? = some c ∧
        (c = '.' ∨ c = '0' → g i j = -1) ∧
        (c ≠ '.' → c ≠ '0' → g i j = (c.toNat : Int) - 48 ∧ 1 ≤ g i j ∧ g i j ≤ 9) :=
  ⟨by decide, loads_row_major classicLine (by decide) (by decide)⟩

/-- C19: every grid that the loader returns holds in each cell `-1` or a digit
`1..9`, so the index `puzzle[i][j] - 1` that the clue loop uses for a cell
with `puzzle[i][j] > 0` lies in `[0, 9)`. -/
theorem loaded_grid_index_safe (infile : Option (List Char)) (g : Grid)
    (h : get_sudoku_grid infile = Except.ok g) :
    WellFormed g ∧ ∀ i < 9, ∀ j < 9, g i j > 0 → (g i j - 1).toNat < 9 := by
  obtain ⟨content, -, -, hcells⟩ := get_sudoku_grid_cells infile g h
  have hwf : WellFormed g := by
    intro i hi j hj
    obtain ⟨c, -, hacc, hval⟩ := hcells i hi j hj
    rw [hval]
    exact cellValue_range c hacc
  refine ⟨hwf, ?_⟩
  intro i hi j hj hpos
  rcases hwf i hi j hj with h1 | h1 <;> omega

/-- C20: when the file cannot be opened the length check is skipped, the
empty string is parsed, and the conversion of the empty substring at the
first cell (`idx = 0`) throws `std::invalid_argument`: no grid is returned and
the run does not end through `exit(1)`, as it does for a file with a line of
wrong length. -/
theorem unopened_file_throws :
    get_sudoku_grid none = Except.error (Abort.thrown StdException.invalid_argument 0) ∧
    substr [] 0 1 = Except.ok [] ∧
    stoi [] = Except.error StdException.invalid_argument ∧
    get_sudoku_grid none ≠ Except.error (Abort.exit 1) ∧
    (∀ g : Grid, get_sudoku_grid none ≠ Except.ok g) ∧
    get_sudoku_grid (some []) = Except.error (Abort.exit 1) := by
  have h : get_sudoku_grid none
      = Except.error (Abort.thrown StdException.invalid_argument 0) := rfl
  refine ⟨h, rfl, rfl, ?_, ?_, rfl⟩
  · rw [h]; simp
  · intro g; rw [h]; simp

/-- C19 at the file that holds the 81 characters of the classic puzzle. -/
theorem loaded_grid_index_safe_witness :
    ∃ g, get_sudoku_grid (some classicLine) = Except.ok g ∧
      (WellFormed g ∧ ∀ i < 9, ∀ j < 9, g i j > 0 → (g i j - 1).toNat < 9) :=
  (get_sudoku_grid_returns classicLine (by decide) (by decide)).elim
    (fun g hg => ⟨g, hg, loaded_grid_index_safe (some classicLine) g hg⟩)

/-! ## Exact-cover structure of the constraint matrix -/

theorem filter_unique_length (l : List Nat) (hnd : l.Nodup) (a : Nat) (ha : a ∈ l)
    (p : Nat → Bool) (hp : ∀ t ∈ l, p t = true ↔ t = a) : (l.filter p).length = 1 := by
  have hc : l.filter p = l.filter (fun t => t == a) := by
    apply List.filter_congr
    intro t ht
    by_cases h : t = a
    · rw [(hp t ht).mpr h]; simp [h]
    · have : p t = false := by
        cases hpt : p t with
        | false => rfl
        | true => exact absurd ((hp t ht).mp hpt) h
      rw [this]; simp [h]
  rw [hc, ← List.countP_eq_length_filter, ← List.count_eq_countP]
  exact List.count_eq_one_of_mem hnd ha

theorem mem_columnCons_handle (r c d j k : Nat) (hr : r < 9) (hc : c < 9) (hd : d < 9)
    (hj : j < 9) (hk : k < 9) :
    handle r c d ∈ (columnCons handle j k).varList ↔ c = j ∧ d = k := by
  rw [columnCons_varList, List.mem_map]
  constructor
  · rintro ⟨i, -, h⟩
    have := handle_inj hj hk hc hd h
    omega
  · rintro ⟨rfl, rfl⟩
    exact ⟨r, List.mem_range.mpr hr, rfl⟩

theorem mem_rowCons_handle (r c d i k : Nat) (_ : r < 9) (hc : c < 9) (hd : d < 9)
    (hi : i < 9) (hk : k < 9) :
    handle r c d ∈ (rowCons handle i k).varList ↔ r = i ∧ d = k := by
  rw [rowCons_varList, List.mem_map]
  constructor
  · rintro ⟨j, hj, h⟩
    have := handle_inj (List.mem_range.mp hj) hk hc hd h
    omega
  · rintro ⟨rfl, rfl⟩
    exact ⟨c, List.mem_range.mpr hc, rfl⟩

theorem mem_fillgridCons_handle (r c d i j : Nat) (_ : r < 9) (hc : c < 9) (hd : d < 9)
    (hi : i < 9) (hj : j < 9) :
    handle r c d ∈ (fillgridCons handle i j).varList ↔ r = i ∧ c = j := by
  rw [fillgridCons_varList, List.mem_map]
  constructor
  · rintro ⟨k, hk, h⟩
    have := handle_inj hj (List.mem_range.mp hk) hc hd h
    omega
  · rintro ⟨rfl, rfl⟩
    exact ⟨d, List.mem_range.mpr hd, rfl⟩

theorem subgridCons_varList (xv : XVars) (k p q : Nat) :
    (subgridCons xv k p q).varList
      = (subgridIdx p q).map (fun cell => xv cell.1 cell.2 k) := by
  rw [Cons.varList, subgridCons_terms, subgridIdx, List.map_flatMap, List.map_flatMap]
  apply List.flatMap_congr
  intro j _
  rw [List.map_map, List.map_map]
  rfl

theorem mem_subgridCons_handle (r c d k p q : Nat) (_ : r < 9) (hc : c < 9) (hd : d < 9)
    (hk : k < 9) (hp : p < 3) (hq : q < 3) :
    handle r c d ∈ (subgridCons handle k p q).varList ↔ d = k ∧ r / 3 = q ∧ c / 3 = p := by
  rw [subgridCons_varList, List.mem_map]
  constructor
  · rintro ⟨⟨i, j⟩, hcell, h⟩
    have hm := (mem_subgridIdx p q (i, j)).mp hcell
    simp only at hm h
    have := handle_inj (by omega) hk hc hd h
    omega
  · rintro ⟨rfl, rfl, rfl⟩
    exact ⟨(r, c), (mem_subgridIdx _ _ _).mpr (by simp only; omega), rfl⟩

theorem occurrences_columnList (r c d : Nat) (hr : r < 9) (hc : c < 9) (hd : d < 9) :
    occurrences (handle r c d) (columnList handle 81) = 1 := by
  unfold occurrences columnList
  rw [List.filter_map, List.length_map]
  apply filter_unique_length _ (List.nodup_range 81) (9 * c + d)
    (List.mem_range.mpr (by omega))
  intro t ht
  have ht := List.mem_range.mp ht
  simp only [Function.comp, decide_eq_true_eq]
  rw [mem_columnCons_handle r c d _ _ hr hc hd (by omega) (Nat.mod_lt _ (by omega))]
  omega

theorem occurrences_rowList (r c d : Nat) (hr : r < 9) (hc : c < 9) (hd : d < 9) :
    occurrences (handle r c d) (rowList handle 81) = 1 := by
  unfold occurrences rowList
  rw [List.filter_map, List.length_map]
  apply filter_unique_length _ (List.nodup_range 81) (9 * r + d)
    (List.mem_range.mpr (by omega))
  intro t ht
  have ht := List.mem_range.mp ht
  simp only [Function.comp, decide_eq_true_eq]
  rw [mem_rowCons_handle r c d _ _ hr hc hd (by omega) (Nat.mod_lt _ (by omega))]
  omega

theorem occurrences_fillgridList (r c d : Nat) (hr : r < 9) (hc : c < 9) (hd : d < 9) :
    occurrences (handle r c d) (fillgridList handle 81) = 1 := by
  unfold occurrences fillgridList
  rw [List.filter_map, List.length_map]
  apply filter_unique_length _ (List.nodup_range 81) (9 * r + c)
    (List.mem_range.mpr (by omega))
  intro t ht
  have ht := List.mem_range.mp ht
  simp only [Function.comp, decide_eq_true_eq]
  rw [mem_fillgridCons_handle r c d _ _ hr hc hd (by omega) (Nat.mod_lt _ (by omega))]
  omega

theorem occurrences_subgridList (r c d : Nat) (hr : r < 9) (hc : c < 9) (hd : d < 9) :
    occurrences (handle r c d) (subgridList handle 81) = 1 := by
  unfold occurrences subgridList
  rw [List.filter_map, List.length_map]
  apply filter_unique_length _ (List.nodup_range 81) (9 * d + 3 * (c / 3) + r / 3)
    (List.mem_range.mpr (by omega))
  intro t ht
  have ht := List.mem_range.mp ht
  simp only [Function.comp, decide_eq_true_eq]
  rw [mem_subgridCons_handle r c d _ _ _ hr hc hd (by omega)
    (Nat.mod_lt _ (by omega)) (Nat.mod_lt _ (by omega))]
  omega

theorem occurrences_append (h : Nat) (l1 l2 : List Cons) :
    occurrences h (l1 ++ l2) = occurrences h l1 + occurrences h l2 := by
  unfold occurrences
  rw [List.filter_append, List.length_append]

theorem cons_varList_nodup (puzzle : Grid) (c : Cons)
    (hc : c ∈ (buildModel puzzle).scip.conss) : c.varList.Nodup := by
  rw [buildModel_conss_closed] at hc
  simp only [List.mem_append] at hc
  rcases hc with ((hc | hc) | hc) | hc
  · obtain ⟨j, hj, k, hk, rfl⟩ := (mem_columnList c).mp hc
    rw [columnCons_varList]
    exact nodup_handles _ (fun a ha b hb h => (handle_inj hj hk hj hk h).1)
  · obtain ⟨i, hi, k, hk, rfl⟩ := (mem_rowList c).mp hc
    rw [rowCons_varList]
    exact nodup_handles _ (fun a ha b hb h => (handle_inj ha hk hb hk h).2.1)
  · obtain ⟨k, hk, p, hp, q, hq, rfl⟩ := (mem_subgridList c).mp hc
    rw [subgridCons_varList]
    refine List.Nodup.map_on ?_ (nodup_subgridIdx p q hp hq)
    rintro ⟨a1, b1⟩ h1 ⟨a2, b2⟩ h2 h
    have m1 := (mem_subgridIdx p q _).mp h1
    have m2 := (mem_subgridIdx p q _).mp h2
    simp only at m1 m2 h
    have := handle_inj (by omega) hk (by omega) hk h
    rw [Prod.mk.injEq]
    exact ⟨this.1, this.2.1⟩
  · obtain ⟨i, hi, j, hj, rfl⟩ := (mem_fillgridList c).mp hc
    rw [fillgridCons_varList]
    exact nodup_handles _ (fun a ha b hb h => (handle_inj hj ha hj hb h).2.2)

/-- C17: for every triple `(r, c, d)` of `[0,9)^3` the variable `x[r][c][d]`
occurs in exactly one column constraint, one row constraint, one subgrid
constraint and one fill-grid constraint, four of the 324 constraints in all;
in a constraint it occurs at most once, and its coefficient is 1. -/
theorem exact_cover_structure (puzzle : Grid) (r c d : Nat) (hr : r < 9) (hc : c < 9)
    (hd : d < 9) :
    occurrences ((buildModel puzzle).x_vars r c d) (buildModel puzzle).column_constrs = 1 ∧
    occurrences ((buildModel puzzle).x_vars r c d) (buildModel puzzle).row_constrs = 1 ∧
    occurrences ((buildModel puzzle).x_vars r c d) (buildModel puzzle).subgrid_constrs = 1 ∧
    occurrences ((buildModel puzzle).x_vars r c d) (buildModel puzzle).fillgrid_constrs = 1 ∧
    occurrences ((buildModel puzzle).x_vars r c d) (buildModel puzzle).scip.conss = 4 ∧
    (buildModel puzzle).scip.conss.length = 324 ∧
    ∀ cons ∈ (buildModel puzzle).scip.conss, cons.varList.Nodup ∧
      ∀ t ∈ cons.terms, t.1 = (buildModel puzzle).x_vars r c d → t.2 = 1 := by
  obtain ⟨h1, h2, h3, h4, -⟩ := buildModel_families puzzle
  have hx := buildModel_handle puzzle
  rw [h1, h2, h3, h4, columnList_handle _ hx, rowList_handle _ hx, subgridList_handle _ hx,
    fillgridList_handle _ hx, buildModel_conss_closed, hx r c d hr hc hd]
  refine ⟨occurrences_columnList r c d hr hc hd, occurrences_rowList r c d hr hc hd,
    occurrences_subgridList r c d hr hc hd, occurrences_fillgridList r c d hr hc hd, ?_, ?_, ?_⟩
  · rw [occurrences_append, occurrences_append, occurrences_append,
      occurrences_columnList r c d hr hc hd, occurrences_rowList r c d hr hc hd,
      occurrences_subgridList r c d hr hc hd, occurrences_fillgridList r c d hr hc hd]
  · simp [columnList, rowList, subgridList, fillgridList]
  · intro cons hcons
    rw [← buildModel_conss_closed puzzle] at hcons
    exact ⟨cons_varList_nodup puzzle cons hcons,
      fun t ht _ => (cons_unit_shape puzzle cons hcons).2.2 t ht⟩

/-- C17 at the grid without clues and the variable `x[4][7][2]`. -/
theorem exact_cover_structure_witness :
    (4 < 9 ∧ 7 < 9 ∧ 2 < 9) ∧
    (occurrences ((buildModel blankGrid).x_vars 4 7 2) (buildModel blankGrid).column_constrs = 1 ∧
    occurrences ((buildModel blankGrid).x_vars 4 7 2) (buildModel blankGrid).row_constrs = 1 ∧
    occurrences ((buildModel blankGrid).x_vars 4 7 2) (buildModel blankGrid).subgrid_constrs = 1 ∧
    occurrences ((buildModel blankGrid).x_vars 4 7 2) (buildModel blankGrid).fillgrid_constrs = 1 ∧
    occurrences ((buildModel blankGrid).x_vars 4 7 2) (buildModel blankGrid).scip.conss = 4 ∧
    (buildModel blankGrid).scip.conss.length = 324 ∧
    ∀ cons ∈ (buildModel blankGrid).scip.conss, cons.varList.Nodup ∧
      ∀ t ∈ cons.terms, t.1 = (buildModel blankGrid).x_vars 4 7 2 → t.2 = 1) :=
  ⟨by decide, exact_cover_structure blankGrid 4 7 2 (by decide) (by decide) (by decide)⟩

/-! ## The classic puzzle has one completion -/

set_option maxRecDepth 100000 in
theorem classic_reaches : Reaches classicPuzzle classicSteps classicSolved := by
  decide

/-- A forced cell holds its digit in every valid completion that agrees with
the partial grid. -/
theorem forced_sound (g known : Grid) (hv : ValidGrid g) (ha : Agrees known g)
    (r c : Nat) (v : Int) (hf : Forced known r c v) : g r c = v := by
  obtain ⟨⟨hr, hc⟩, hall⟩ := hf
  obtain ⟨hdig, hrow, hcol, hsub⟩ := hv
  have hd := hdig r hr c hc
  rcases hall (g r c - 1).toNat (by omega) with h | ⟨r', hr', c', hc', hpeer, hK⟩
  · omega
  · exfalso
    have hg : g r' c' = g r c := by
      rw [ha r' hr' c' hc' (by omega), hK]
      omega
    obtain ⟨hne, hrel⟩ := hpeer
    rcases hrel with h | h | ⟨h1, h2⟩
    · subst h
      exact hne ⟨rfl, hrow r' hr' c' hc' c hc hg⟩
    · subst h
      exact hne ⟨hcol c' hc' r' hr' r hr hg, rfl⟩
    · have e1 : 3 * ((3 * (r / 3) + c / 3) / 3) + (3 * (r' % 3) + c' % 3) / 3 = r' := by omega
      have e2 : 3 * ((3 * (r / 3) + c / 3) % 3) + (3 * (r' % 3) + c' % 3) % 3 = c' := by omega
      have e3 : 3 * ((3 * (r / 3) + c / 3) / 3) + (3 * (r % 3) + c % 3) / 3 = r := by omega
      have e4 : 3 * ((3 * (r / 3) + c / 3) % 3) + (3 * (r % 3) + c % 3) % 3 = c := by omega
      have hst := hsub (3 * (r / 3) + c / 3) (by omega) (3 * (r' % 3) + c' % 3) (by omega)
        (3 * (r % 3) + c % 3) (by omega) (by rw [e1, e2, e3, e4]; exact hg)
      exact hne ⟨by omega, by omega⟩

theorem fillForced_sound (g : Grid) (hv : ValidGrid g) (steps : List (Nat × Nat × Int)) :
    ∀ known result : Grid, Agrees known g → fillForced known steps = some result →
      Agrees result g := by
  induction steps with
  | nil =>
    intro known result ha h
    rw [fillForced] at h
    rw [← Option.some.inj h]
    exact ha
  | cons step rest ih =>
    obtain ⟨r, c, v⟩ := step
    intro known result ha h
    rw [fillForced] at h
    by_cases hf : Forced known r c v
    · rw [if_pos hf] at h
      refine ih (known.set r c v) result ?_ h
      intro a ha' b hb' hne
      unfold Grid.set at hne ⊢
      by_cases hab : a = r ∧ b = c
      · rw [if_pos hab, hab.1, hab.2]
        exact forced_sound g known hv ha r c v hf
      · rw [if_neg hab] at hne ⊢
        exact ha a ha' b hb' hne
    · rw [if_neg hf] at h
      exact absurd h (by simp)

/-- A grid reached by forced cells is the only valid completion. -/
theorem reaches_unique (known : Grid) (steps : List (Nat × Nat × Int)) (target g : Grid)
    (hR : Reaches known steps target) (htarget : AllDigits target) (hv : ValidGrid g)
    (ha : Agrees known g) : ∀ r < 9, ∀ c < 9, g r c = target r c := by
  unfold Reaches at hR
  cases hfill : fillForced known steps with
  | none => rw [hfill] at hR; exact absurd hR (by simp)
  | some result =>
    rw [hfill] at hR
    simp only at hR
    have hag := fillForced_sound g hv steps known result ha hfill
    intro r hr c hc
    have h1 := hR r hr c hc
    have h2 := htarget r hr c hc
    rw [hag r hr c hc (by omega), h1]

set_option maxRecDepth 4000 in
/-- Every valid completion of the classic puzzle is the classic completed
grid. -/
theorem classic_unique (g : Grid) (hv : ValidGrid g) (ha : Agrees classicPuzzle g) :
    ∀ r < 9, ∀ c < 9, g r c = classicSolved r c :=
  reaches_unique classicPuzzle classicSteps classicSolved g classic_reaches (by decide) hv ha

/-! ## The end-to-end scenario -/

set_option maxRecDepth 20000 in
/-- The characters of the classic puzzle, cell by cell. -/
theorem classicLine_cells :
    ∀ i < 9, ∀ j < 9,
      (getline classicLine)[9 * i + j]?.map cellValue = some (classicPuzzle i j) := by
  decide

/-- The loader on the file that holds the 81 characters of the classic
puzzle. -/
theorem loads_classic :
    ∃ puzzle, get_sudoku_grid (some classicLine) = Except.ok puzzle ∧
      ∀ i < 9, ∀ j < 9, puzzle i j = classicPuzzle i j := by
  obtain ⟨g, hg⟩ := get_sudoku_grid_returns classicLine (by decide) (by decide)
  refine ⟨g, hg, ?_⟩
  obtain ⟨content, hc, -, hcells⟩ := get_sudoku_grid_cells _ g hg
  have hcc : content = classicLine := (Option.some.inj hc).symm
  subst hcc
  intro i hi j hj
  obtain ⟨c, hget, -, hval⟩ := hcells i hi j hj
  have := classicLine_cells i hi j hj
  rw [hget] at this
  rw [hval]
  exact Option.some.inj this

set_option maxRecDepth 4000 in
/-- For a grid that is the classic puzzle on its 81 cells, the model has a
feasible assignment, and every feasible assignment decodes to the classic
completed grid. -/
theorem classic_model (puzzle : Grid) (hp : ∀ i < 9, ∀ j < 9, puzzle i j = classicPuzzle i j) :
    (buildModel puzzle).scip.Feasible (encodeSol classicSolved) ∧
    ∀ sol : Sol, (buildModel puzzle).scip.Feasible sol →
      ∀ i < 9, ∀ j < 9, decode (buildModel puzzle).x_vars sol puzzle i j = classicSolved i j := by
  have hwf0 : WellFormed classicPuzzle := by decide
  have hwf : WellFormed puzzle := by
    intro i hi j hj
    rw [hp i hi j hj]
    exact hwf0 i hi j hj
  have hvs : ValidGrid classicSolved := by decide
  have hag0 : ∀ r < 9, ∀ c < 9, classicPuzzle r c ≠ -1 →
      classicSolved r c = classicPuzzle r c := by decide
  constructor
  · apply (feasible_iff_exactCover puzzle hwf _).mpr
    apply exactCover_encodeSol puzzle classicSolved hvs
    intro r hr c hc hne
    rw [hp r hr c hc] at hne ⊢
    exact hag0 r hr c hc hne
  · intro sol hF
    have hE := (feasible_iff_exactCover puzzle hwf sol).mp hF
    obtain ⟨hv, ha⟩ := decode_valid puzzle hwf sol hE (buildModel puzzle).x_vars
      (buildModel_handle puzzle) puzzle
    apply classic_unique _ hv
    intro r hr c hc hne
    rw [← hp r hr c hc] at hne ⊢
    exact ha r hr c hc hne

/-- C14, as stated, fails: the puzzle string of the scenario has 79 characters,
so on a file that holds it the loader ends the run with `exit(1)` and `main`
prints no solved grid, whatever the solver would answer. -/
theorem scenario_string_counterexample :
    scenarioLine.length = 79 ∧
    get_sudoku_grid (some scenarioLine) = Except.error (Abort.exit 1) ∧
    main ["sudoku", "puzzle.txt"] (fun _ => some scenarioLine)
      (fun _ => (11, encodeSol classicSolved)) = Except.error (Abort.exit 1) := by
  have h1 : get_sudoku_grid (some scenarioLine) = Except.error (Abort.exit 1) :=
    get_sudoku_grid_wrong_length scenarioLine (by decide)
  exact ⟨by decide, h1, main_of_load_error _ _ _ _ (by decide) h1⟩

/-- C14, amended: on a file that holds the 81 characters of the classic puzzle
(the string of the scenario followed by `79`) the loader returns the puzzle
and `main` builds its model; the model has a feasible assignment, and for
every feasible assignment that the solver hands back with status 11 the
program prints the classic completed grid, whose first row is
5 3 4 6 7 8 9 1 2. -/
theorem classic_end_to_end (argv : List String) (fs : String → Option (List Char))
    (solve : Scip → Nat × Sol) (hargs : 2 ≤ argv.length)
    (hfile : fs (argv.getD 1 "") = some classicLine) :
    ∃ puzzle, get_sudoku_grid (some classicLine) = Except.ok puzzle ∧
      (∀ i < 9, ∀ j < 9, puzzle i j = classicPuzzle i j) ∧
      (∃ x : Sol, (buildModel puzzle).scip.Feasible x) ∧
      ((solve (buildModel puzzle).scip).1 = 11 →
        (buildModel puzzle).scip.Feasible (solve (buildModel puzzle).scip).2 →
        ∃ g, main argv fs solve = Except.ok (buildModel puzzle, Output.solved g) ∧
          (∀ i < 9, ∀ j < 9, g i j = classicSolved i j) ∧
          (List.range 9).map (g 0) = [5, 3, 4, 6, 7, 8, 9, 1, 2]) := by
  obtain ⟨puzzle, hload, hp⟩ := loads_classic
  obtain ⟨hfeas, hdec⟩ := classic_model puzzle hp
  refine ⟨puzzle, hload, hp, ⟨_, hfeas⟩, ?_⟩
  intro hstatus hF
  have hm := main_of_load_ok argv fs solve puzzle hargs (by rw [hfile]; exact hload)
  rw [hstatus, report_solved] at hm
  refine ⟨_, hm, hdec _ hF, ?_⟩
  have hrow : ∀ j < 9, decode (buildModel puzzle).x_vars (solve (buildModel puzzle).scip).2
      puzzle 0 j = classicSolved 0 j := hdec _ hF 0 (by omega)
  simp only [List.range_succ, List.range_zero, List.nil_append, List.cons_append,
    List.map_cons, List.map_nil]
  rw [hrow 0 (by omega), hrow 1 (by omega), hrow 2 (by omega), hrow 3 (by omega),
    hrow 4 (by omega), hrow 5 (by omega), hrow 6 (by omega), hrow 7 (by omega),
    hrow 8 (by omega)]
  rfl

/-- C14, amended, at the program arguments `sudoku puzzle.txt`, a file system
whose every file holds the classic puzzle, and a solver that answers status
11 with the assignment of the classic completed grid. -/
theorem classic_end_to_end_witness :
    (2 ≤ ["sudoku", "puzzle.txt"].length ∧
      (fun _ : String => some classicLine) (["sudoku", "puzzle.txt"].getD 1 "")
        = some classicLine) ∧
    ∃ puzzle g, main ["sudoku", "puzzle.txt"] (fun _ => some classicLine)
        (fun _ => (11, encodeSol classicSolved))
        = Except.ok (buildModel puzzle, Output.solved g) ∧
      (List.range 9).map (g 0) = [5, 3, 4, 6, 7, 8, 9, 1, 2] := by
  refine ⟨⟨by decide, rfl⟩, ?_⟩
  obtain ⟨puzzle, -, hp, -, h⟩ := classic_end_to_end ["sudoku", "puzzle.txt"]
    (fun _ => some classicLine) (fun _ => (11, encodeSol classicSolved)) (by decide) rfl
  obtain ⟨g, hm, -, hrow⟩ := h rfl (classic_model puzzle hp).1
  exact ⟨puzzle, g, hm, hrow⟩

end Sudoku
